import Mathlib

/-!
# Klampt `IO/ROS.cpp`: the point-cloud codec and the topic bridge

A shallow embedding of the `sensor_msgs::PointCloud2` decoder and encoder of
`IO/ROS.cpp` (`Swap2Bytes` .. `Swap8If`, `UNPACK`, `ROSToKlampt`, `KlamptToROS`), of
its registry of subscribers and publishers (`RosSubscribe`, `RosPublish`,
`ROSSubscribeUpdate`, `ROSWaitForUpdate`, `ROSDetach`), and of its converters of joint
states, trajectories and transforms (`ROSToKlampt(JointState, Robot)`,
`KlamptToROS(robot, indices, path, traj)`, `ROSTfSubscriber::update`,
`ROSPublishTransforms`).

Conventions of the embedding.

* A C++ integer expression is a value together with its static type (`CInt`); the
  integral promotions, the usual arithmetic conversions and the typing of
  hexadecimal literals are computed, so the type of a `Swap*If` expression is the
  one the compiler gives it (LP64 data model, two's complement).
* `int` and `uint32` arithmetic wraps modulo `2^32` (`toInt32`, `% 2^32`).
* A `Real` (C++ `double`) is its IEEE-754 binary64 bit pattern; conversions from
  integers and from `float` are computed on bit patterns.
* A dereference outside a message buffer or an output array, and a failed `Assert`, end
  the run with a `Fault`.
* What the source leaves to the host is a field of `Host`. The read of `datasizes` past
  its 8 entries, which `UNPACK` makes for every field of datatype code 8 or more, is
  given twice: `UNPACK.tableRead` is the access, a `Fault`, and `UNPACK` goes on with the
  `int` that the host finds there (`Host.pastDatasizes`), so that what is decoded is
  stated for every such value, while what is read is stated with `UNPACK.tableRead`.
* The globals of the bridge are the fields of `Bridge`; a `std::map` is its list of
  entries in key order, a `SmartPointer` an `Option`, and what the ROS transport
  decides (whether a subscription binds, which messages a `spinOnce` delivers, how many
  peers a publisher has, the time) is an argument of the operation it influences.
* The readings of a `Timer` are an argument as well, one per evaluation of the loop
  test of `ROSWaitForUpdate`; a run that uses up its readings before the loop ends has
  no result (`none`).
-/

namespace Klampt

/-! ## Faults and host parameters -/

/-- Ways in which a run ends without returning. -/
inductive Fault where
  /-- an `Assert(...)` did not hold -/
  | assertion
  /-- a byte was read outside the buffer it was read from -/
  | readOutOfBounds
  /-- an element was written outside the array it was written to -/
  | writeOutOfBounds
  /-- a member was accessed through a null `SmartPointer` -/
  | nullPointer
  deriving DecidableEq, Repr

deriving instance DecidableEq for Except

/-- IEEE-754 binary64 value (the library type `Real` is `double`), as its bit pattern. -/
structure Real where
  bits : Nat
  deriving DecidableEq, Repr

/-- Everything the source leaves to the machine it runs on. -/
structure Host where
  /-- result of `IsBigEndian()`, which is also the byte order of every typed load -/
  bigEndian : Bool
  /-- whether plain `char` is signed -/
  charSigned : Bool
  /-- the `int` found by reading `datasizes[k]` for `k ≥ 8`, past the end of the table,
  on a host where that read returns -/
  pastDatasizes : Nat → Int
  /-- content of slot `i` of a `Vector` allocated by `Vector(n)`, before any write -/
  fresh : Nat → Real

/-! ## C++ integer expressions -/

/-- Conversion to `int`: two's complement wrap to 32 bits. -/
def toInt32 (v : Int) : Int := (v + 2 ^ 31) % 2 ^ 32 - 2 ^ 31

/-- The integer types that occur in the decoder. -/
inductive CType where
  | schar | uchar | short | ushort | int | uint | long | ulong
  deriving DecidableEq, Repr

namespace CType

/-- Width in bits (LP64). -/
def bits : CType → Nat
  | schar => 8 | uchar => 8
  | short => 16 | ushort => 16
  | int => 32 | uint => 32
  | long => 64 | ulong => 64

def isSigned : CType → Bool
  | schar => true | short => true | int => true | long => true
  | _ => false

/-- Conversion of a value to type `t`: reduction modulo `2^bits` into the range of `t`. -/
def wrap (t : CType) (v : Int) : Int :=
  if t.isSigned then (v + 2 ^ (t.bits - 1)) % 2 ^ t.bits - 2 ^ (t.bits - 1)
  else v % 2 ^ t.bits

/-- Integral promotion: every type narrower than `int` becomes `int`. -/
def promote : CType → CType
  | schar => int | uchar => int | short => int | ushort => int
  | t => t

/-- Conversion rank order of the promoted types: `int < unsigned < long < unsigned long`. -/
def rank : CType → Nat
  | uint => 1 | long => 2 | ulong => 3
  | _ => 0

/-- Usual arithmetic conversions: the common type of two operands. -/
def common (a b : CType) : CType :=
  if a.promote.rank ≤ b.promote.rank then b.promote else a.promote

end CType

/-- Value of a C++ integer expression, with its static type. -/
structure CInt where
  ty : CType
  val : Int
  deriving DecidableEq, Repr

namespace CInt

/-- Hexadecimal literal without suffix: the first of `int`, `unsigned int`, `long`,
`unsigned long` that can hold it. -/
def lit (n : Nat) : CInt :=
  if n < 2 ^ 31 then ⟨.int, n⟩
  else if n < 2 ^ 32 then ⟨.uint, n⟩
  else if n < 2 ^ 63 then ⟨.long, n⟩
  else ⟨.ulong, n⟩

/-- Two's complement bit pattern of the value converted to `t`. -/
def pattern (t : CType) (a : CInt) : Nat := (a.val % 2 ^ t.bits).toNat

/-- Conversion to type `t`. -/
def cast (t : CType) (a : CInt) : CInt := ⟨t, t.wrap a.val⟩

/-- Expression `a >> k`: the left operand is promoted; arithmetic shift on signed values. -/
def shr (a : CInt) (k : Nat) : CInt := ⟨a.ty.promote, a.val >>> k⟩

/-- Expression `a << k`: the left operand is promoted; the result wraps to its type. -/
def shl (a : CInt) (k : Nat) : CInt := ⟨a.ty.promote, a.ty.promote.wrap (a.val * 2 ^ k)⟩

/-- Expression `a & b` in the common type. -/
def and (a b : CInt) : CInt :=
  let t := CType.common a.ty b.ty
  ⟨t, t.wrap ((a.pattern t) &&& (b.pattern t) : Nat)⟩

/-- Expression `a | b` in the common type. -/
def or (a b : CInt) : CInt :=
  let t := CType.common a.ty b.ty
  ⟨t, t.wrap ((a.pattern t) ||| (b.pattern t) : Nat)⟩

/-- Expression `c ? a : b`: both branches are converted to their common type. -/
def cond (c : Bool) (a b : CInt) : CInt :=
  let t := CType.common a.ty b.ty
  ⟨t, t.wrap (if c then a.val else b.val)⟩

end CInt

/-! ## The byte-swap macros -/

/-- Macro `#define Swap2Bytes(val) ( (((val) >> 8) & 0x00FF) | (((val) << 8) & 0xFF00) )` -/
def Swap2Bytes (val : CInt) : CInt :=
  (((val.shr 8).and (.lit 0x00FF)).or ((val.shl 8).and (.lit 0xFF00)))

/-- Macro `#define Swap4Bytes(val)`: four masked shifts or-ed together. -/
def Swap4Bytes (val : CInt) : CInt :=
  ((((val.shr 24).and (.lit 0x000000FF)).or ((val.shr 8).and (.lit 0x0000FF00))).or
    ((val.shl 8).and (.lit 0x00FF0000))).or ((val.shl 24).and (.lit 0xFF000000))

/-- Macro `#define Swap8Bytes(val)`: eight masked shifts or-ed together. -/
def Swap8Bytes (val : CInt) : CInt :=
  ((((((((val.shr 56).and (.lit 0x00000000000000FF)).or
    ((val.shr 40).and (.lit 0x000000000000FF00))).or
    ((val.shr 24).and (.lit 0x0000000000FF0000))).or
    ((val.shr 8).and (.lit 0x00000000FF000000))).or
    ((val.shl 8).and (.lit 0x000000FF00000000))).or
    ((val.shl 24).and (.lit 0x0000FF0000000000))).or
    ((val.shl 40).and (.lit 0x00FF000000000000))).or
    ((val.shl 56).and (.lit 0xFF00000000000000))

/-- Macro `#define Swap2If(val,cond) (cond ? Swap2Bytes(val) : val)` -/
def Swap2If (val : CInt) (cond : Bool) : CInt := CInt.cond cond (Swap2Bytes val) val

/-- Macro `#define Swap4If(val,cond) (cond ? Swap4Bytes(val) : val)` -/
def Swap4If (val : CInt) (cond : Bool) : CInt := CInt.cond cond (Swap4Bytes val) val

/-- Macro `#define Swap8If(val,cond) (cond ? Swap8Bytes(val) : val)` -/
def Swap8If (val : CInt) (cond : Bool) : CInt := CInt.cond cond (Swap8Bytes val) val

/-! ## IEEE-754 values -/

/-- Binary interchange format: widths of the exponent and of the stored significand. -/
structure FloatFormat where
  ebits : Nat
  mbits : Nat

/-- C++ `float`. -/
def binary32 : FloatFormat := ⟨8, 23⟩

/-- C++ `double`. -/
def binary64 : FloatFormat := ⟨11, 52⟩

namespace FloatFormat

def bias (f : FloatFormat) : Nat := 2 ^ (f.ebits - 1) - 1

def expField (f : FloatFormat) (bits : Nat) : Nat := (bits / 2 ^ f.mbits) % 2 ^ f.ebits

def manField (f : FloatFormat) (bits : Nat) : Nat := bits % 2 ^ f.mbits

def signBit (f : FloatFormat) (bits : Nat) : Bool := (bits / 2 ^ (f.mbits + f.ebits)) % 2 = 1

/-- Neither an infinity nor a NaN: the exponent field is not all ones. -/
def isFinite (f : FloatFormat) (bits : Nat) : Bool := f.expField bits != 2 ^ f.ebits - 1

/-- Pattern of the infinity of the given sign. -/
def inf (f : FloatFormat) (s : Bool) : Nat :=
  (if s then 2 ^ (f.ebits + f.mbits) else 0) + (2 ^ f.ebits - 1) * 2 ^ f.mbits

/-- Index of the highest set bit of `n` (`0` for `n = 0`); `fuel` bounds the halvings. -/
def log2Aux : Nat → Nat → Nat
  | 0, _ => 0
  | fuel + 1, n => if n < 2 then 0 else log2Aux fuel (n / 2) + 1

/-- Pattern of the value nearest to `(-1)^s * M * 2^E`, ties to even; too large a
magnitude gives an infinity. -/
def round (f : FloatFormat) (s : Bool) (M : Nat) (E : Int) : Nat :=
  let sign := if s then 2 ^ (f.ebits + f.mbits) else 0
  if M = 0 then sign
  else
    let emin : Int := 1 - (f.bias : Int) - (f.mbits : Int)
    let q : Int := max ((log2Aux M M : Int) + E - (f.mbits : Int)) emin
    let n : Nat :=
      if q ≤ E then M * 2 ^ (E - q).toNat
      else
        let sh := (q - E).toNat
        let hi := M / 2 ^ sh
        let lo := M % 2 ^ sh
        let half := 2 ^ (sh - 1)
        if half < lo ∨ (lo = half ∧ hi % 2 = 1) then hi + 1 else hi
    let body := (q - emin).toNat * 2 ^ f.mbits + n
    if (2 ^ f.ebits - 1) * 2 ^ f.mbits ≤ body then f.inf s else sign + body

/-- Conversion of a pattern of format `src` to format `dst`. A NaN stays a NaN: its
payload is shifted and its quiet bit set. -/
def convert (src dst : FloatFormat) (bits : Nat) : Nat :=
  let s := src.signBit bits
  let e := src.expField bits
  let m := src.manField bits
  if e = 2 ^ src.ebits - 1 then
    if m = 0 then dst.inf s
    else
      let payload :=
        if src.mbits ≤ dst.mbits then m * 2 ^ (dst.mbits - src.mbits)
        else m / 2 ^ (src.mbits - dst.mbits)
      dst.inf s + (payload ||| 2 ^ (dst.mbits - 1))
  else
    let M := if e = 0 then m else m + 2 ^ src.mbits
    dst.round s M ((max e 1 : Nat) - (src.bias : Int) - (src.mbits : Int))

end FloatFormat

namespace Real

/-- Conversion `Real(v)` for an integer `v`. -/
def ofInt (v : Int) : Real := ⟨binary64.round (decide (v < 0)) v.natAbs 0⟩

/-- Conversion `Real(f)` for the `float` with the given bit pattern. -/
def ofFloat32 (bits : Nat) : Real := ⟨FloatFormat.convert binary32 binary64 bits⟩

/-- The `double` with the given bit pattern. -/
def ofFloat64 (bits : Nat) : Real := ⟨bits % 2 ^ 64⟩

/-- Bit pattern of `(float)x`. -/
def toFloat32 (x : Real) : Nat := FloatFormat.convert binary64 binary32 x.bits

end Real

/-- Library function `IsFinite(x)`: `x` is neither infinite nor NaN. -/
def IsFinite (x : Real) : Bool := binary64.isFinite x.bits

/-! ## Data model -/

/-- The record `sensor_msgs::PointField`. -/
structure PointField where
  name : String
  /-- Wire type `uint32`. -/
  offset : Nat
  /-- Wire type `uint8`. -/
  datatype : Nat
  /-- Wire type `uint32`. -/
  count : Nat
  deriving DecidableEq, Repr

namespace PointField

/-! The datatype codes of `sensor_msgs/PointField.msg`. -/

def INT8 : Nat := 1
def UINT8 : Nat := 2
def INT16 : Nat := 3
def UINT16 : Nat := 4
def INT32 : Nat := 5
def UINT32 : Nat := 6
def FLOAT32 : Nat := 7
def FLOAT64 : Nat := 8

end PointField

/-- The parts of `sensor_msgs::PointCloud2` that the codec reads and writes; every
number is a `uint32`, `data` is a `vector<uint8>`. -/
structure PointCloud2 where
  height : Nat
  width : Nat
  fields : List PointField
  is_bigendian : Bool
  point_step : Nat
  row_step : Nat
  data : List UInt8
  deriving DecidableEq, Repr

structure Vector3 where
  x : Real
  y : Real
  z : Real
  deriving DecidableEq, Repr

/-- The members of `Meshing::PointCloud3D` that the codec touches. -/
structure PointCloud3D where
  points : List Vector3
  propertyNames : List String
  properties : List (List Real)
  deriving DecidableEq, Repr

/-! ## Memory access -/

/-- The `n` bytes at positions `p .. p+n-1` of `data`. -/
def readBytes (data : List UInt8) (p : Int) (n : Nat) : Except Fault (List Nat) :=
  if 0 ≤ p ∧ p.toNat + n ≤ data.length then
    .ok (((data.drop p.toNat).take n).map UInt8.toNat)
  else .error .readOutOfBounds

/-- Number denoted by a sequence of bytes in the byte order of the host. -/
def hostValue (host : Host) (bs : List Nat) : Nat :=
  (if host.bigEndian then bs.reverse else bs).foldr (fun b acc => b + 256 * acc) 0

/-- The load of a value of type `t` through a pointer to position `p`: `*(t*)data`. -/
def load (host : Host) (t : CType) (data : List UInt8) (p : Int) : Except Fault CInt :=
  match readBytes data p (t.bits / 8) with
  | .error e => .error e
  | .ok bs => .ok ⟨t, t.wrap (hostValue host bs)⟩

/-- The assignment `out[i] = v`. -/
def store (out : List Real) (i : Int) (v : Real) : Except Fault (List Real) :=
  if 0 ≤ i ∧ i.toNat < out.length then .ok (out.set i.toNat v)
  else .error .writeOutOfBounds

/-- The type plain `char` stands for on the host. -/
def Host.char (host : Host) : CType := if host.charSigned then .schar else .uchar

/-! ## `UNPACK` -/

/-- Table `static const int datasizes[] = {1,1,2,2,4,4,4,8};` -/
def datasizes : List Int := [1, 1, 2, 2, 4, 4, 4, 8]

/-- Statement `int stride = datasizes[field.datatype];` as an access to the table: the
table has 8 entries and the datatype codes run from 1 to 8, so for a code of 8 or more,
`FLOAT64` among them, the read lies past the end of the table. -/
def UNPACK.tableRead (datatype : Nat) : Except Fault Int :=
  match datasizes[datatype]? with
  | some stride => .ok stride
  | none => .error .readOutOfBounds

/-- The `switch(field.datatype)` of `UNPACK<Real>`: the value assigned to `out[i]` from
the bytes at `p`, or `none` when no case matches and nothing is assigned. -/
def UNPACK.value (host : Host) (datatype : Nat) (data : List UInt8) (p : Int)
    (swap_bigendian : Bool) : Except Fault (Option Real) :=
  if datatype = PointField.INT8 then
    match load host host.char data p with
    | .error e => .error e
    | .ok v => .ok (some (Real.ofInt v.val))
  else if datatype = PointField.UINT8 then
    match load host .uchar data p with
    | .error e => .error e
    | .ok v => .ok (some (Real.ofInt v.val))
  else if datatype = PointField.INT16 then
    match load host .short data p with
    | .error e => .error e
    | .ok v => .ok (some (Real.ofInt (Swap2If v swap_bigendian).val))
  else if datatype = PointField.UINT16 then
    match load host .ushort data p with
    | .error e => .error e
    | .ok v => .ok (some (Real.ofInt (Swap2If v swap_bigendian).val))
  else if datatype = PointField.INT32 then
    match load host .int data p with
    | .error e => .error e
    | .ok v => .ok (some (Real.ofInt (Swap4If v swap_bigendian).val))
  else if datatype = PointField.UINT32 then
    match load host .uint data p with
    | .error e => .error e
    | .ok v => .ok (some (Real.ofInt (Swap4If v swap_bigendian).val))
  else if datatype = PointField.FLOAT32 then
    match load host .int data p with
    | .error e => .error e
    | .ok v =>
      let bytes := (Swap4If v swap_bigendian).cast .int
      .ok (some (Real.ofFloat32 (bytes.pattern .int)))
  else if datatype = PointField.FLOAT64 then
    match load host .long data p with
    | .error e => .error e
    | .ok v =>
      let bytes := (Swap8If v swap_bigendian).cast .long
      .ok (some (Real.ofFloat64 (bytes.pattern .long)))
  else .ok none

/-- The `for` loop of `UNPACK`: `n` iterations are left, `i` is the loop counter, `p`
the position `data` points to, and `out[0]` of the source is `out[start]` here. -/
def UNPACK.loop (host : Host) (field : PointField) (data : List UInt8)
    (swap_bigendian : Bool) (stride : Int) (start : Int) :
    Nat → Nat → Int → List Real → Except Fault (List Real)
  | 0, _, _, out => .ok out
  | n + 1, i, p, out =>
    match UNPACK.value host field.datatype data p swap_bigendian with
    | .error e => .error e
    | .ok none => UNPACK.loop host field data swap_bigendian stride start n (i + 1) (p + stride) out
    | .ok (some v) =>
      match store out (start + i) v with
      | .error e => .error e
      | .ok out1 =>
        UNPACK.loop host field data swap_bigendian stride start n (i + 1) (p + stride) out1

/-- Call `UNPACK<Real>(field, &buffer[base], &out[start], swap_bigendian)`; the stride
is `datasizes[field.datatype]`, and past the table, where `UNPACK.tableRead` faults, the
`int` that the host finds there. -/
def UNPACK (host : Host) (field : PointField) (data : List UInt8) (base : Int)
    (out : List Real) (start : Int) (swap_bigendian : Bool) : Except Fault (List Real) :=
  let stride := datasizes.getD field.datatype (host.pastDatasizes field.datatype)
  UNPACK.loop host field data swap_bigendian stride start field.count 0
    (base + field.offset) out

/-! ## `ROSToKlampt(const sensor_msgs::PointCloud2&, Meshing::PointCloud3D&)` -/

/-- The local variables that the scan of `pc.fields` sets, with `kpc.propertyNames`. -/
structure FieldScan where
  xfield : Int
  yfield : Int
  zfield : Int
  rgbfloat_field : Int
  rgbproperty : Int
  fieldmap : List Int
  propertyNames : List String
  deriving DecidableEq, Repr

/-- The names one field appends to `kpc.propertyNames`: its own name when `count == 1`,
otherwise, for each `j < count`, the name followed by `char suffix = '0'+j`. -/
def expandedNames (f : PointField) : List String :=
  if f.count = 1 then [f.name]
  else (List.range f.count).map (fun j => f.name.push (Char.ofNat ((48 + j) % 256)))

/-- Body of the loop over `pc.fields`, at index `i`. -/
def scanField (s : FieldScan) (i : Nat) (f : PointField) : Except Fault FieldScan :=
  if f.name = "x" then
    if f.count = 1 then .ok { s with xfield := toInt32 i } else .error .assertion
  else if f.name = "y" then
    if f.count = 1 then .ok { s with yfield := toInt32 i } else .error .assertion
  else if f.name = "z" then
    if f.count = 1 then .ok { s with zfield := toInt32 i } else .error .assertion
  else
    let s1 := { s with fieldmap := s.fieldmap.set i (toInt32 s.propertyNames.length) }
    if (f.name = "rgb" ∨ f.name = "rgba") ∧ f.datatype = PointField.FLOAT32 then
      if f.count = 1 then
        .ok { s1 with
              rgbfloat_field := toInt32 i
              rgbproperty := toInt32 s.propertyNames.length
              fieldmap := s1.fieldmap.set i (-1)
              propertyNames := s.propertyNames ++ expandedNames f }
      else .error .assertion
    else .ok { s1 with propertyNames := s.propertyNames ++ expandedNames f }

/-- The loop over `pc.fields`, from index `i` on. -/
def scanFields : List PointField → Nat → FieldScan → Except Fault FieldScan
  | [], _, s => .ok s
  | f :: fs, i, s =>
    match scanField s i f with
    | .error e => .error e
    | .ok s1 => scanFields fs (i + 1) s1

/-- The variables that the loops over the records update. -/
structure DecodeState where
  pt : Vector3
  propertyTemp : List Real
  points : List Vector3
  properties : List (List Real)
  deriving DecidableEq, Repr

/-- Statement `if(field >= 0) UNPACK<Real>(pc.fields[field],&pc.data[vofs],&c,swap_bigendian);`
for one coordinate `c` of `pt`; the result is the coordinate afterwards. -/
def unpackCoordinate (host : Host) (pc : PointCloud2) (field : Int) (vofs : Int) (c : Real)
    (swap_bigendian : Bool) : Except Fault Real :=
  if 0 ≤ field then
    match pc.fields[field.toNat]? with
    | none => .error .readOutOfBounds
    | some f =>
      match UNPACK host f pc.data vofs [c] 0 swap_bigendian with
      | .error e => .error e
      | .ok out => .ok (out.headD c)
  else .ok c

/-- The block under `if(rgbfloat_field >= 0)`: the four bytes of the field are loaded
as an `unsigned int` and stored, converted, at `propertyTemp[rgbproperty]`. -/
def unpackRgb (host : Host) (pc : PointCloud2) (sc : FieldScan) (vofs : Int)
    (propertyTemp : List Real) (swap_bigendian : Bool) : Except Fault (List Real) :=
  if 0 ≤ sc.rgbfloat_field then
    match pc.fields[sc.rgbfloat_field.toNat]? with
    | none => .error .readOutOfBounds
    | some f =>
      match load host .uint pc.data (vofs + f.offset) with
      | .error e => .error e
      | .ok v =>
        let rgb := (Swap4If v swap_bigendian).cast .uint
        store propertyTemp sc.rgbproperty (Real.ofInt rgb.val)
  else .ok propertyTemp

/-- The loop `for(size_t k=0;k<pc.fields.size();k++)` over the remaining fields, from
index `k` on, with the running offset `pofs`. -/
def unpackProperties (host : Host) (pc : PointCloud2) (sc : FieldScan) (vofs : Int)
    (swap_bigendian : Bool) : List PointField → Nat → Int → List Real → Except Fault (List Real)
  | [], _, _, propertyTemp => .ok propertyTemp
  | f :: fs, k, pofs, propertyTemp =>
    if sc.fieldmap.getD k (-1) < 0 then
      unpackProperties host pc sc vofs swap_bigendian fs (k + 1) pofs propertyTemp
    else
      match UNPACK host f pc.data vofs propertyTemp pofs swap_bigendian with
      | .error e => .error e
      | .ok propertyTemp1 =>
        unpackProperties host pc sc vofs swap_bigendian fs (k + 1) (toInt32 (pofs + f.count))
          propertyTemp1

/-- Body of the loop over the columns, for the record that starts at `vofs`. -/
def decodeRecord (host : Host) (pc : PointCloud2) (sc : FieldScan) (swap_bigendian : Bool)
    (vofs : Int) (st : DecodeState) : Except Fault DecodeState :=
  match unpackCoordinate host pc sc.xfield vofs st.pt.x swap_bigendian with
  | .error e => .error e
  | .ok x =>
  match unpackCoordinate host pc sc.yfield vofs st.pt.y swap_bigendian with
  | .error e => .error e
  | .ok y =>
  match unpackCoordinate host pc sc.zfield vofs st.pt.z swap_bigendian with
  | .error e => .error e
  | .ok z =>
    let pt : Vector3 := ⟨x, y, z⟩
    if IsFinite pt.x && IsFinite pt.y && IsFinite pt.z then
      match unpackRgb host pc sc vofs st.propertyTemp swap_bigendian with
      | .error e => .error e
      | .ok propertyTemp1 =>
        match unpackProperties host pc sc vofs swap_bigendian pc.fields 0 0 propertyTemp1 with
        | .error e => .error e
        | .ok propertyTemp2 =>
          .ok { pt := pt, propertyTemp := propertyTemp2, points := st.points ++ [pt],
                properties := st.properties ++ [propertyTemp2] }
    else .ok { st with pt := pt }

/-- The loop `for(unsigned int j=0;j<pc.width;j++)` with `n` iterations left. -/
def decodeRow (host : Host) (pc : PointCloud2) (sc : FieldScan) (swap_bigendian : Bool) :
    Nat → Int → DecodeState → Except Fault DecodeState
  | 0, _, st => .ok st
  | n + 1, vofs, st =>
    match decodeRecord host pc sc swap_bigendian vofs st with
    | .error e => .error e
    | .ok st1 => decodeRow host pc sc swap_bigendian n (toInt32 (vofs + pc.point_step)) st1

/-- The loop `for(unsigned int i=0;i<pc.height;i++)` with `n` iterations left. -/
def decodeRows (host : Host) (pc : PointCloud2) (sc : FieldScan) (swap_bigendian : Bool) :
    Nat → Int → DecodeState → Except Fault DecodeState
  | 0, _, st => .ok st
  | n + 1, ofs, st =>
    match decodeRow host pc sc swap_bigendian pc.width ofs st with
    | .error e => .error e
    | .ok st1 => decodeRows host pc sc swap_bigendian n (toInt32 (ofs + pc.row_step)) st1

/-- The state of the locals before the scan of the fields, `kpc.propertyNames` being
emptied by `kpc.propertyNames.resize(0)`. -/
def FieldScan.init (pc : PointCloud2) (kpc : PointCloud3D) : FieldScan :=
  { xfield := -1, yfield := -1, zfield := -1, rgbfloat_field := -1, rgbproperty := -1,
    fieldmap := List.replicate pc.fields.length (-1),
    propertyNames := kpc.propertyNames.take 0 }

/-- Function `bool ROSToKlampt(const sensor_msgs::PointCloud2& pc,Meshing::PointCloud3D& kpc)`:
the returned `bool` and `kpc` after the call; `kpc` on entry is what the target holds,
which the three `resize(0)` calls empty. -/
def ROSToKlampt (host : Host) (pc : PointCloud2) (kpc : PointCloud3D) :
    Except Fault (Bool × PointCloud3D) :=
  let swap_bigendian := (host.bigEndian != pc.is_bigendian)
  match scanFields pc.fields 0 (FieldScan.init pc kpc) with
  | .error e => .error e
  | .ok sc =>
    if (pc.row_step * pc.height) % 2 ^ 32 ≤ pc.data.length then
      let st0 : DecodeState :=
        { pt := ⟨⟨0⟩, ⟨0⟩, ⟨0⟩⟩
          propertyTemp := (List.range sc.propertyNames.length).map host.fresh
          points := kpc.points.take 0, properties := kpc.properties.take 0 }
      match decodeRows host pc sc swap_bigendian pc.height 0 st0 with
      | .error e => .error e
      | .ok st =>
        .ok (true, { points := st.points, propertyNames := sc.propertyNames,
                     properties := st.properties })
    else .error .assertion

/-! ## `KlamptToROS(const Meshing::PointCloud3D&, sensor_msgs::PointCloud2&)` -/

/-- A value-initialised `sensor_msgs::PointField`. -/
def PointField.empty : PointField := { name := "", offset := 0, datatype := 0, count := 0 }

/-- Call `pc.fields.resize(n)`: elements in excess are dropped, missing ones are
value-initialised. -/
def resizeFields (fields : List PointField) (n : Nat) : List PointField :=
  fields.take n ++ List.replicate (n - fields.length) PointField.empty

/-- Call `pc.data.resize(n)`: bytes in excess are dropped, missing ones are zero. -/
def resizeData (data : List UInt8) (n : Nat) : List UInt8 :=
  data.take n ++ List.replicate (n - data.length) 0

/-- The loop `for(size_t i=0;i<kpc.propertyNames.size();i++) pc.fields[3+i].name = ...`,
from index `i` on. -/
def nameFields : List String → Nat → List PointField → List PointField
  | [], _, fields => fields
  | name :: names, i, fields =>
    nameFields names (i + 1) (fields.modify (fun f => { f with name := name }) (3 + i))

/-- The loop `for(size_t i=0;i<pc.fields.size();i++)` with `n` iterations left: every
iteration assigns to `pc.fields[0]`. -/
def typeFields : Nat → Nat → List PointField → List PointField
  | 0, _, fields => fields
  | n + 1, i, fields =>
    typeFields n (i + 1)
      (fields.modify
        (fun f => { f with datatype := PointField.FLOAT32, offset := (i * 4) % 2 ^ 32, count := 1 })
        0)

/-- The four bytes of a 32-bit pattern in the byte order of the host. -/
def hostBytes (host : Host) (pattern : Nat) : List UInt8 :=
  let le := (List.range 4).map (fun k => UInt8.ofNat ((pattern / 256 ^ k) % 256))
  if host.bigEndian then le.reverse else le

/-- Statement `*(float*)&pc.data[ofs] = v;` -/
def storeFloat (host : Host) (data : List UInt8) (ofs : Int) (v : Real) :
    Except Fault (List UInt8) :=
  if 0 ≤ ofs ∧ ofs.toNat + 4 ≤ data.length then
    .ok (data.take ofs.toNat ++ hostBytes host v.toFloat32 ++ data.drop (ofs.toNat + 4))
  else .error .writeOutOfBounds

/-- The loop `for(size_t j=0;j<kpc.propertyNames.size();j++)` over the properties of
one point, with `n` iterations left; the result is the buffer and `ofs`. -/
def encodeProperties (host : Host) (props : List Real) :
    Nat → Nat → Int → List UInt8 → Except Fault (List UInt8 × Int)
  | 0, _, ofs, data => .ok (data, ofs)
  | n + 1, j, ofs, data =>
    match props[j]? with
    | none => .error .readOutOfBounds
    | some v =>
      match storeFloat host data ofs v with
      | .error e => .error e
      | .ok data1 => encodeProperties host props n (j + 1) (toInt32 (ofs + 4)) data1

/-- The loop `for(size_t i=0;i<kpc.points.size();i++)` over the remaining points, from
index `i` on. -/
def encodePoints (host : Host) (kpc : PointCloud3D) :
    List Vector3 → Nat → Int → List UInt8 → Except Fault (List UInt8)
  | [], _, _, data => .ok data
  | pt :: pts, i, ofs, data =>
    match storeFloat host data ofs pt.x with
    | .error e => .error e
    | .ok data1 =>
    match storeFloat host data1 (toInt32 (ofs + 4)) pt.y with
    | .error e => .error e
    | .ok data2 =>
    match storeFloat host data2 (toInt32 (toInt32 (ofs + 4) + 4)) pt.z with
    | .error e => .error e
    | .ok data3 =>
      let ofs3 := toInt32 (toInt32 (toInt32 (ofs + 4) + 4) + 4)
      if kpc.propertyNames.length = 0 then encodePoints host kpc pts (i + 1) ofs3 data3
      else
        match kpc.properties[i]? with
        | none => .error .readOutOfBounds
        | some props =>
          match encodeProperties host props kpc.propertyNames.length 0 ofs3 data3 with
          | .error e => .error e
          | .ok (data4, ofs4) => encodePoints host kpc pts (i + 1) ofs4 data4

/-- Function `bool KlamptToROS(const Meshing::PointCloud3D& kpc,sensor_msgs::PointCloud2& pc)`:
the returned `bool` and `pc` after the call; `pc` on entry is the message the caller
passes, whose `fields` and `data` are resized, not replaced. -/
def KlamptToROS (host : Host) (kpc : PointCloud3D) (pc : PointCloud2) :
    Except Fault (Bool × PointCloud2) :=
  let width := kpc.points.length % 2 ^ 32
  let point_step := (4 * (3 + kpc.propertyNames.length)) % 2 ^ 32
  let row_step := (width * point_step) % 2 ^ 32
  let fields0 := resizeFields pc.fields (3 + kpc.propertyNames.length)
  let fields1 := fields0.modify (fun f => { f with name := "x" }) 0
  let fields2 := fields1.modify (fun f => { f with name := "y" }) 1
  let fields3 := fields2.modify (fun f => { f with name := "z" }) 2
  let fields4 := nameFields kpc.propertyNames 0 fields3
  let fields5 := typeFields fields4.length 0 fields4
  match encodePoints host kpc kpc.points 0 0 (resizeData pc.data row_step) with
  | .error e => .error e
  | .ok data =>
    .ok (true, { height := 1, width := width, fields := fields5,
                 is_bigendian := host.bigEndian, point_step := point_step,
                 row_step := row_step, data := data })

/-! ## Specification-side definitions -/

/-- Number of bytes that the `switch` of `UNPACK` dereferences for one element: the
size of the type the pointer is cast to, and `0` when no case matches. -/
def elementBytes (datatype : Nat) : Nat :=
  if datatype = PointField.INT8 ∨ datatype = PointField.UINT8 then 1
  else if datatype = PointField.INT16 ∨ datatype = PointField.UINT16 then 2
  else if datatype = PointField.INT32 ∨ datatype = PointField.UINT32
      ∨ datatype = PointField.FLOAT32 then 4
  else if datatype = PointField.FLOAT64 then 8
  else 0

/-- The `stride` that `UNPACK` advances by for a field. -/
def fieldStride (host : Host) (f : PointField) : Int :=
  datasizes.getD f.datatype (host.pastDatasizes f.datatype)

/-- Every element that `UNPACK(f, &data[base], ..)` dereferences lies inside a buffer
of `len` bytes. -/
def ReadsInside (host : Host) (f : PointField) (len : Nat) (base : Int) : Prop :=
  elementBytes f.datatype = 0 ∨
    ∀ i < f.count,
      0 ≤ base + f.offset + i * fieldStride host f ∧
        base + f.offset + i * fieldStride host f + elementBytes f.datatype ≤ len

instance (host : Host) (f : PointField) (len : Nat) (base : Int) :
    Decidable (ReadsInside host f len base) := by
  unfold ReadsInside; infer_instance

/-- Byte at which the record of row `r`, column `c` starts. -/
def recordStart (pc : PointCloud2) (r c : Nat) : Nat := r * pc.row_step + c * pc.point_step

/-- The starts of all records, rows `0..height-1` in order and, within a row, columns
`0..width-1` in order. -/
def recordStarts (pc : PointCloud2) : List Nat :=
  (List.range pc.height).flatMap fun r => (List.range pc.width).map fun c => recordStart pc r c

/-- The field that carries the coordinate `name`: the last field of that name. -/
def coordinateField (pc : PointCloud2) (name : String) : Option PointField :=
  (pc.fields.filter fun f => f.name = name).getLast?

/-- Value of the first element of field `f` in the record that starts at byte `start`:
the element decoded at `start + f.offset`. -/
def decodeAt (host : Host) (pc : PointCloud2) (f : PointField) (start : Nat) : Option Real :=
  match UNPACK.value host f.datatype pc.data ((start : Int) + (f.offset : Int))
      (host.bigEndian != pc.is_bigendian) with
  | .ok (some v) => some v
  | _ => none

/-- The coordinates of the record that starts at byte `start`. -/
def recordPoint (host : Host) (pc : PointCloud2) (start : Nat) : Option Vector3 :=
  match coordinateField pc "x", coordinateField pc "y", coordinateField pc "z" with
  | some fx, some fy, some fz =>
    match decodeAt host pc fx start, decodeAt host pc fy start, decodeAt host pc fz start with
    | some x, some y, some z => some ⟨x, y, z⟩
    | _, _, _ => none
  | _, _, _ => none

/-- All three coordinates are finite. -/
def Vector3.isFinite (v : Vector3) : Bool := IsFinite v.x && IsFinite v.y && IsFinite v.z

/-- The record at `start`, if its three coordinates are finite. -/
def keptPoint (host : Host) (pc : PointCloud2) (start : Nat) : Option Vector3 :=
  match recordPoint host pc start with
  | some v => if v.isFinite then some v else none
  | none => none

/-- The records with three finite coordinates, in row-major order. -/
def finitePoints (host : Host) (pc : PointCloud2) : List Vector3 :=
  (recordStarts pc).filterMap (keptPoint host pc)

/-- A field named `x`, `y` or `z`. -/
def PointField.isCoordinate (f : PointField) : Prop :=
  f.name = "x" ∨ f.name = "y" ∨ f.name = "z"

instance (f : PointField) : Decidable f.isCoordinate := by
  unfold PointField.isCoordinate; infer_instance

/-- A field named `rgb` or `rgba` that is declared `FLOAT32`. -/
def PointField.isRgbFloat (f : PointField) : Prop :=
  (f.name = "rgb" ∨ f.name = "rgba") ∧ f.datatype = PointField.FLOAT32

instance (f : PointField) : Decidable f.isRgbFloat := by
  unfold PointField.isRgbFloat; infer_instance

/-- The message has fields named `x`, `y` and `z`, and every field so named has count 1
and one of the eight datatypes. -/
def HasCoordinates (pc : PointCloud2) : Prop :=
  (∃ f ∈ pc.fields, f.name = "x") ∧ (∃ f ∈ pc.fields, f.name = "y") ∧
    (∃ f ∈ pc.fields, f.name = "z") ∧
    ∀ f ∈ pc.fields, f.isCoordinate → f.count = 1 ∧ elementBytes f.datatype ≠ 0

instance (pc : PointCloud2) : Decidable (HasCoordinates pc) := by
  unfold HasCoordinates; infer_instance

/-- The two kinds of `Assert` on the way to the loops hold: the counts of the
coordinate fields and of a `FLOAT32` `rgb`/`rgba` field are 1, and the buffer holds
`row_step*height` bytes (a `uint32` product). -/
def PassesAsserts (pc : PointCloud2) : Prop :=
  (∀ f ∈ pc.fields, f.isCoordinate ∨ f.isRgbFloat → f.count = 1) ∧
    (pc.row_step * pc.height) % 2 ^ 32 ≤ pc.data.length

instance (pc : PointCloud2) : Decidable (PassesAsserts pc) := by
  unfold PassesAsserts; infer_instance

/-- The sizes are small enough for the `int` variables of the decoder not to wrap:
the number of fields, the total of their counts, and the largest value `ofs` and
`vofs` reach. -/
def InIntRange (pc : PointCloud2) : Prop :=
  pc.fields.length < 2 ^ 31 ∧ (pc.fields.map fun f => f.count).sum < 2 ^ 31 ∧
    pc.height * pc.row_step + pc.width * pc.point_step < 2 ^ 31

instance (pc : PointCloud2) : Decidable (InIntRange pc) := by
  unfold InIntRange; infer_instance

/-- The caller's guarantee for one field: its `count` elements, each of the width of its
datatype, lie from `offset` on within `len` bytes of the record start. -/
def PointField.FitsIn (f : PointField) (len : Nat) : Prop :=
  f.offset + f.count * elementBytes f.datatype ≤ len

instance (f : PointField) (len : Nat) : Decidable (f.FitsIn len) := by
  unfold PointField.FitsIn; infer_instance

/-- The stride that `UNPACK` takes from its table is read inside the table and is, for a
field of more than one element, the width of the datatype: the datatype code is at most
7, and a field with a count above 1 has one of the datatypes `INT8`, `INT16`, `INT32`,
`UINT32`, whose entry of the table is their width, or the code 0, which `UNPACK` does not
decode. -/
def PointField.StrideIsWidth (f : PointField) : Prop :=
  f.datatype < 8 ∧
    (f.count ≤ 1 ∨ f.datatype = 0 ∨ f.datatype = PointField.INT8 ∨
      f.datatype = PointField.INT16 ∨ f.datatype = PointField.INT32 ∨
      f.datatype = PointField.UINT32)

instance (f : PointField) : Decidable f.StrideIsWidth := by
  unfold PointField.StrideIsWidth; infer_instance

/-- The buffer is large enough: in every record, every element of every field lies
inside `pc.data`. -/
def RecordsInside (host : Host) (pc : PointCloud2) : Prop :=
  ∀ start ∈ recordStarts pc, ∀ f ∈ pc.fields, ReadsInside host f pc.data.length start

instance (host : Host) (pc : PointCloud2) : Decidable (RecordsInside host pc) := by
  unfold RecordsInside; infer_instance

/-! ## Invariants of the scan of the fields -/

/-- Total of the counts of the fields `fs`, which sit at indices `k, k+1, ..`, that the
property loop does not skip. -/
def decodedCount (fieldmap : List Int) : List PointField → Nat → Nat
  | [], _ => 0
  | f :: fs, k =>
    (if fieldmap.getD k (-1) < 0 then 0 else f.count) + decodedCount fieldmap fs (k + 1)

/-- What `xfield` (for `name = "x"`, and likewise for `y` and `z`) holds once the
fields `seen` have been scanned. -/
def CoordInv (name : String) (seen : List PointField) (idx : Int) : Prop :=
  (∀ f, (seen.filter fun g => g.name = name).getLast? = some f →
      0 ≤ idx ∧ seen[idx.toNat]? = some f) ∧
    (0 ≤ idx → ∃ f, seen[idx.toNat]? = some f ∧ f.count = 1)

/-- What the locals hold once the fields `seen` have been scanned. -/
structure ScanInv (seen : List PointField) (s : FieldScan) : Prop where
  x : CoordInv "x" seen s.xfield
  y : CoordInv "y" seen s.yfield
  z : CoordInv "z" seen s.zfield
  rgb : 0 ≤ s.rgbfloat_field →
    (∃ f, seen[s.rgbfloat_field.toNat]? = some f ∧ f.isRgbFloat ∧ f.count = 1) ∧
      0 ≤ s.rgbproperty ∧ s.rgbproperty < s.propertyNames.length
  names : s.propertyNames.length ≤ (seen.map fun f => f.count).sum
  decoded : decodedCount s.fieldmap seen 0 ≤ s.propertyNames.length
  rest : ∀ k, seen.length ≤ k → s.fieldmap.getD k (-1) = -1

/-- The record at `start` has three finite coordinates. -/
def recordIsFinite (host : Host) (pc : PointCloud2) (start : Nat) : Bool :=
  match recordPoint host pc start with
  | some v => v.isFinite
  | none => false

/-- The size invariant on the variables of the decoding loops. -/
def DecodeState.Sized (n : Nat) (st : DecodeState) : Prop :=
  st.points.length = st.properties.length ∧ st.propertyTemp.length = n ∧
    ∀ v ∈ st.properties, v.length = n

/-! ## Concrete hosts, messages and clouds -/

/-- A little-endian host with signed `char`, on which the word past the end of
`datasizes` and fresh `Vector` storage read as zero. -/
def littleEndianHost : Host :=
  { bigEndian := false, charSigned := true, pastDatasizes := fun _ => 0, fresh := fun _ => ⟨0⟩ }

/-- A big-endian host with unsigned `char`. -/
def bigEndianHost : Host :=
  { bigEndian := true, charSigned := false, pastDatasizes := fun _ => 0, fresh := fun _ => ⟨0⟩ }

/-- A cloud without points and without properties. -/
def emptyCloud : PointCloud3D := { points := [], propertyNames := [], properties := [] }

/-- A default-constructed `sensor_msgs::PointCloud2`. -/
def emptyMessage : PointCloud2 :=
  { height := 0, width := 0, fields := [], is_bigendian := false, point_step := 0,
    row_step := 0, data := [] }

/-- Fields `x`, `y`, `z` of type `FLOAT32` at offsets 0, 4, 8. -/
def xyzFields : List PointField :=
  [⟨"x", 0, PointField.FLOAT32, 1⟩, ⟨"y", 4, PointField.FLOAT32, 1⟩,
   ⟨"z", 8, PointField.FLOAT32, 1⟩]

/-- Little-endian message of one row with the two records `(1.0, 2.0, 3.0)` and
`(NaN, 0, 0)`, `point_step = 12`. -/
def twoRecords : PointCloud2 :=
  { height := 1, width := 2, fields := xyzFields, is_bigendian := false, point_step := 12,
    row_step := 24,
    data := [0, 0, 0x80, 0x3f, 0, 0, 0, 0x40, 0, 0, 0x40, 0x40,
             0, 0, 0xc0, 0x7f, 0, 0, 0, 0, 0, 0, 0, 0] }

/-- The point `(1.0, 2.0, 3.0)`. -/
def point123 : Vector3 := ⟨Real.ofInt 1, Real.ofInt 2, Real.ofInt 3⟩

/-- One row that announces two records of 12 bytes but has `row_step = 12`, over a
buffer of 12 bytes: `data.size() >= row_step*height` holds. -/
def rowTooShort : PointCloud2 :=
  { height := 1, width := 2, fields := xyzFields, is_bigendian := false, point_step := 12,
    row_step := 12,
    data := [0, 0, 0x80, 0x3f, 0, 0, 0, 0x40, 0, 0, 0x40, 0x40] }

/-- One record of 12 bytes whose `z` field is declared at offset 12, over a buffer of
12 bytes: `data.size() >= row_step*height` holds. -/
def fieldPastRecord : PointCloud2 :=
  { height := 1, width := 1,
    fields := [⟨"x", 0, PointField.FLOAT32, 1⟩, ⟨"y", 4, PointField.FLOAT32, 1⟩,
               ⟨"z", 12, PointField.FLOAT32, 1⟩],
    is_bigendian := false, point_step := 12, row_step := 12,
    data := [0, 0, 0x80, 0x3f, 0, 0, 0, 0x40, 0, 0, 0x40, 0x40] }

/-- One record of 14 bytes, the point `(1.0, 2.0, 3.0)` followed by the field `i` of two
`UINT8` elements at the offsets 12 and 13, over a buffer of 14 bytes: the field ends
with the record and the record with the buffer. -/
def strideTooWide : PointCloud2 :=
  { height := 1, width := 1,
    fields := xyzFields ++ [⟨"i", 12, PointField.UINT8, 2⟩],
    is_bigendian := false, point_step := 14, row_step := 14,
    data := [0, 0, 0x80, 0x3f, 0, 0, 0, 0x40, 0, 0, 0x40, 0x40, 7, 9] }

/-- Two records of 16 bytes in one row, each a point followed by the field `n` of two
`INT16` elements at the offsets 12 and 14: the points `(1.0, 2.0, 3.0)` with the
elements 5 and 6, and `(3.0, 2.0, 1.0)` with the elements 7 and 8. -/
def twoShorts : PointCloud2 :=
  { height := 1, width := 2,
    fields := xyzFields ++ [⟨"n", 12, PointField.INT16, 2⟩],
    is_bigendian := false, point_step := 16, row_step := 32,
    data := [0, 0, 0x80, 0x3f, 0, 0, 0, 0x40, 0, 0, 0x40, 0x40, 5, 0, 6, 0,
             0, 0, 0x40, 0x40, 0, 0, 0, 0x40, 0, 0, 0x80, 0x3f, 7, 0, 8, 0] }

/-- One record `(1.0, 2.0, 3.0)` followed by a `FLOAT32` field `rgb` holding the
integer 1 and a `UINT8` field `i` holding 9. -/
def rgbThenIntensity : PointCloud2 :=
  { height := 1, width := 1,
    fields := xyzFields ++ [⟨"rgb", 12, PointField.FLOAT32, 1⟩, ⟨"i", 16, PointField.UINT8, 1⟩],
    is_bigendian := false, point_step := 17, row_step := 17,
    data := [0, 0, 0x80, 0x3f, 0, 0, 0, 0x40, 0, 0, 0x40, 0x40, 1, 0, 0, 0, 9] }

/-- A message without records whose field `n` has count 11. -/
def elevenElements : PointCloud2 :=
  { height := 0, width := 0, fields := xyzFields ++ [⟨"n", 12, PointField.UINT8, 11⟩],
    is_bigendian := false, point_step := 23, row_step := 0, data := [] }

/-- The cloud with the single point `(1.0, 2.0, 3.0)` and no property. -/
def onePoint : PointCloud3D :=
  { points := [point123], propertyNames := [], properties := [[]] }

/-- Decoding of the message that `KlamptToROS` writes into a default-constructed
message: `ROSToKlampt(KlamptToROS(kpc))`. -/
def roundTrip (host : Host) (kpc : PointCloud3D) : Except Fault (Bool × PointCloud3D) :=
  match KlamptToROS host kpc emptyMessage with
  | .error e => .error e
  | .ok (_, pc) => ROSToKlampt host pc emptyCloud

/-- Little-endian message of two rows of two records, each row padded to
`row_step = 28`: `(1.0, 2.0, 3.0)`, `(NaN, 0, 0)`; `(+inf, 1.0, 1.0)`, `(3.0, 2.0, 1.0)`. -/
def twoByTwo : PointCloud2 :=
  { height := 2, width := 2, fields := xyzFields, is_bigendian := false, point_step := 12,
    row_step := 28,
    data := [0, 0, 0x80, 0x3f, 0, 0, 0, 0x40, 0, 0, 0x40, 0x40,
             0, 0, 0xc0, 0x7f, 0, 0, 0, 0, 0, 0, 0, 0,
             0, 0, 0, 0,
             0, 0, 0x80, 0x7f, 0, 0, 0x80, 0x3f, 0, 0, 0x80, 0x3f,
             0, 0, 0x40, 0x40, 0, 0, 0, 0x40, 0, 0, 0x80, 0x3f,
             0, 0, 0, 0] }

/-- What `rgbThenIntensity` decodes to on `littleEndianHost`. -/
def rgbDecoded : PointCloud3D :=
  { points := [point123], propertyNames := ["rgb", "i"],
    properties := [[Real.ofInt 9, littleEndianHost.fresh 1]] }

/-! ## The layout of the encoded cloud -/

/-- The size invariant of `PointCloud3D`: one property vector per point, each with one
entry per property name. -/
def PointCloud3D.Sized (kpc : PointCloud3D) : Prop :=
  kpc.properties.length = kpc.points.length ∧
    ∀ v ∈ kpc.properties, v.length = kpc.propertyNames.length

instance (kpc : PointCloud3D) : Decidable kpc.Sized := by
  unfold PointCloud3D.Sized; infer_instance

/-- The values of point `i` in wire order: `x`, `y`, `z`, then its properties. -/
def PointCloud3D.values (kpc : PointCloud3D) (i : Nat) : List Real :=
  match kpc.points[i]? with
  | some pt => [pt.x, pt.y, pt.z] ++ kpc.properties.getD i []
  | none => []

/-- The bytes of a list of values, each written as a 4-byte `float` of the host. -/
def floatBytes (host : Host) (vs : List Real) : List UInt8 :=
  vs.flatMap fun v => hostBytes host v.toFloat32

/-- The buffer the claim describes: the values of point 0, then of point 1, and so on. -/
def cloudBytes (host : Host) (kpc : PointCloud3D) : List UInt8 :=
  (List.range kpc.points.length).flatMap fun i => floatBytes host (kpc.values i)

/-- The sizes are small enough for the `uint32` fields of the message and the `int`
offset `ofs` of the encoder not to wrap. -/
def PointCloud3D.InIntRange (kpc : PointCloud3D) : Prop :=
  4 * (3 + kpc.propertyNames.length) < 2 ^ 32 ∧
    kpc.points.length * (4 * (3 + kpc.propertyNames.length)) < 2 ^ 31

instance (kpc : PointCloud3D) : Decidable kpc.InIntRange := by
  unfold PointCloud3D.InIntRange; infer_instance

/-- The cloud with the points `(1, 2, 3)` and `(3, 2, 1)` and the property `i`. -/
def twoPoints : PointCloud3D :=
  { points := [point123, ⟨Real.ofInt 3, Real.ofInt 2, Real.ofInt 1⟩], propertyNames := ["i"],
    properties := [[Real.ofInt 9], [Real.ofInt 7]] }

/-- One record of one byte whose only field, `i`, declares the datatype code 0, which is
none of the eight kinds; the message has no field named `x`, `y` or `z`. -/
def noCoordinates : PointCloud2 :=
  { height := 1, width := 1, fields := [⟨"i", 0, 0, 1⟩], is_bigendian := false,
    point_step := 1, row_step := 1, data := [7] }

/-! ## The topic bridge: data -/

/-- Record `std_msgs::Header`: `seq` is a `uint32`, `stamp` a time. -/
structure Header where
  seq : Nat
  stamp : Nat
  frame_id : String
  deriving DecidableEq, Repr

/-- A default-constructed header. -/
def Header.empty : Header := { seq := 0, stamp := 0, frame_id := "" }

/-- A stamped message type `Msg`: its `header` and the rest of its members. -/
structure Message (Body : Type) where
  header : Header
  body : Body
  deriving DecidableEq, Repr

/-- The pairs `<Type,Msg>` at which `RosSubscribe` and `RosPublish` are instantiated:
`RigidTransform` with `PoseStamped`, `Robot` with `JointState`, `PointCloud3D` with
`PointCloud2`, `LinearPath` with `JointTrajectory`. -/
inductive Payload where
  | pose | jointState | pointCloud | trajectory
  deriving DecidableEq, Repr

/-- A `std::map<string,T>`: its entries, which the operations below keep in ascending
key order without repeated keys. -/
abbrev Map (α : Type) := List (String × α)

namespace Map

variable {α : Type}

/-- Call `m.find(k)`: the mapped value, `none` for `m.end()`. -/
def find (m : Map α) (k : String) : Option α :=
  (List.find? (fun e => e.1 == k) m).map fun e => e.2

/-- Call `m.count(k)`. -/
def count (m : Map α) (k : String) : Nat := if (m.find k).isSome then 1 else 0

/-- Call `m.size()`. -/
def size (m : Map α) : Nat := m.length

/-- Lexicographic comparison of character sequences. -/
def lexLt : List Char → List Char → Bool
  | _, [] => false
  | [], _ :: _ => true
  | a :: as, b :: bs => decide (a.toNat < b.toNat) || (decide (a.toNat = b.toNat) && lexLt as bs)

/-- The ordering `std::less<string>` of the keys. -/
def keyLt (a b : String) : Bool := lexLt a.data b.data

/-- Insertion of a key that `m` does not hold, before the first greater key. -/
def insertNew (k : String) (v : α) : Map α → Map α
  | [] => [(k, v)]
  | e :: m => if keyLt k e.1 then (k, v) :: e :: m else e :: insertNew k v m

/-- Statement `m[k] = v`. -/
def assign (m : Map α) (k : String) (v : α) : Map α :=
  if m.count k = 0 then insertNew k v m
  else m.map fun e => if e.1 == k then (e.1, v) else e

/-- Call `m.erase(m.find(k))` for a key that `m` holds. -/
def erase (m : Map α) (k : String) : Map α := m.filter fun e => !(e.1 == k)

end Map

/-- What a `ROSSubscriberBase` is besides its base members: a `ROSSubscriber<Type,Msg>`
with the address of the object its member `Type& obj` refers to, or a
`ROSTfSubscriber` with its member `map<string,RigidTransform*> transforms`. -/
inductive SubscriberClass where
  | message (payload : Payload) (obj : Nat)
  | tf (transforms : Map Nat)
  deriving DecidableEq, Repr

/-- Class `ROSSubscriberBase`. -/
structure Subscriber where
  /-- whether the handle `ros::Subscriber sub` is valid (`(bool)sub`) -/
  sub : Bool
  topic : String
  error : Bool
  header : Header
  /-- a C++ `int` -/
  numMessages : Int
  cls : SubscriberClass
  deriving DecidableEq, Repr

/-- The classes derived from `ROSPublisherBase`. -/
inductive PublisherClass where
  | message (payload : Payload)
  | commanded
  | sensed
  | tf
  deriving DecidableEq, Repr

/-- Class `ROSPublisherBase` with the member `Msg msg` of its subclasses. -/
structure Publisher (Body : Type) where
  topic : String
  cls : PublisherClass
  msg : Message Body
  deriving DecidableEq, Repr

/-- The conversion functions that the handles call, one per payload. A conversion
returns its `bool` and the object or message it has written to. -/
structure Converters (Obj Body : Type) where
  /-- Overloads `ROSToKlampt(msg, obj)` that the callbacks call. -/
  ROSToKlampt : Payload → Body → Obj → Except Fault (Bool × Obj)
  /-- Overload `ROSToKlampt(const tf::Transform&, RigidTransform&)`. -/
  ROSToKlamptTransform : Body → Obj → Except Fault (Bool × Obj)
  /-- Overloads `KlamptToROS(obj, msg)`, `CommandedKlamptToROS` and `SensedKlamptToROS`
  that `publish` calls. -/
  KlamptToROS : PublisherClass → Obj → Body → Except Fault (Bool × Body)
  /-- The members other than the header of a default-constructed `Msg`. -/
  emptyBody : PublisherClass → Body

/-- The global variables of the bridge, the objects that subscribers refer to, and
the messages handed to the transport. -/
structure Bridge (Obj Body : Type) where
  /-- whether `gRosNh` is non-null -/
  gRosNh : Bool
  gRosQueueSize : Int
  gRosSubscribeError : Bool
  gRosSubscribeErrorWhere : String
  gSubscribers : Map (Option Subscriber)
  gPublishers : Map (Option (Publisher Body))
  /-- the objects passed to the subscribe calls, by address -/
  objects : Nat → Obj
  /-- the messages passed to `pub.publish`, oldest first, with their topic -/
  sent : List (String × Message Body)

/-! ## The topic bridge: subscribers -/

section Operations

variable {Obj Body : Type}

/-- Function `bool ROSInit(const char* nodeName)`: it creates the node handle unless
there is one, and returns `true`. -/
def ROSInit (s : Bridge Obj Body) : Bool × Bridge Obj Body := (true, { s with gRosNh := true })

/-- Method `ROSSubscriberBase::unsubscribe()`; the assignment `sub = ros::Subscriber()`
drops the subscription. -/
def Subscriber.unsubscribe (h : Subscriber) : Subscriber :=
  { h with topic := "", numMessages := 0, sub := false }

/-- Constructor `ROSSubscriber(Type& _obj,const std::string& _topic)`; `binds` tells
whether `gRosNh->subscribe(..)` returns a valid handle. -/
def ROSSubscriber.new (payload : Payload) (obj : Nat) (topic : String) (binds : Bool) :
    Subscriber :=
  { sub := binds, topic := topic, error := false, header := Header.empty, numMessages := 0,
    cls := .message payload obj }

/-- Function `RosSubscribe<Type,Msg>(Type& obj,const string& topic)`. The handle found
under `topic` is unsubscribed through the pointer of its entry, which is then set to
`NULL`; the new handle is entered only when its subscription is valid. -/
def RosSubscribe (payload : Payload) (obj : Nat) (topic : String) (binds : Bool)
    (s : Bridge Obj Body) : Except Fault (Bool × Bridge Obj Body) :=
  let (ok, s0) := ROSInit s
  if !ok then .ok (false, s0)
  else
    match (match s0.gSubscribers.find topic with
        | none => .ok s0.gSubscribers
        | some none => .error .nullPointer
        | some (some _) => .ok (s0.gSubscribers.assign topic none) :
        Except Fault (Map (Option Subscriber))) with
    | .error e => .error e
    | .ok subs =>
      let s1 := { s0 with gSubscribers := subs }
      let sub := ROSSubscriber.new payload obj topic binds
      if !sub.sub then .ok (false, s1)
      else .ok (true, { s1 with gSubscribers := s1.gSubscribers.assign topic (some sub) })

/-- Method `ROSSubscriber<Type,Msg>::callback(const Msg& msg)` of the handle `h` that the
entry `key` of `gSubscribers` points to. -/
def ROSSubscriber.callback (cv : Converters Obj Body) (key : String) (h : Subscriber)
    (payload : Payload) (obj : Nat) (msg : Message Body) (s : Bridge Obj Body) :
    Except Fault (Bridge Obj Body) :=
  match cv.ROSToKlampt payload msg.body (s.objects obj) with
  | .error e => .error e
  | .ok (r, o) =>
    let h1 := { h with numMessages := toInt32 (h.numMessages + 1), header := msg.header,
                       error := !r }
    let s1 := { s with objects := Function.update s.objects obj o,
                       gSubscribers := s.gSubscribers.assign key (some h1) }
    if h1.error then
      .ok { s1 with gRosSubscribeError := true, gRosSubscribeErrorWhere := h1.topic }
    else .ok s1

/-- One message that `ros::spinOnce()` takes from the queues: it is passed to the
callback of the handle that holds a valid subscription to its topic, if there is one. -/
def deliver (cv : Converters Obj Body) (s : Bridge Obj Body) (d : String × Message Body) :
    Except Fault (Bridge Obj Body) :=
  match s.gSubscribers.find d.1 with
  | some (some h) =>
    match h.cls with
    | .message payload obj =>
      if h.sub then ROSSubscriber.callback cv d.1 h payload obj d.2 s else .ok s
    | .tf _ => .ok s
  | _ => .ok s

/-- Call `ros::spinOnce()`, for the messages it takes from the queues, in order. -/
def spinOnce (cv : Converters Obj Body) :
    List (String × Message Body) → Bridge Obj Body → Except Fault (Bridge Obj Body)
  | [], s => .ok s
  | d :: ds, s =>
    match deliver cv s d with
    | .error e => .error e
    | .ok s1 => spinOnce cv ds s1

/-- What the transport contributes to one `ROSSubscribeUpdate`: the messages that
`spinOnce` delivers, and the result of `listener.lookupTransform(frame,"world",..)`,
`none` when it throws. -/
structure Round (Body : Type) where
  delivered : List (String × Message Body)
  lookupTransform : String → Option Body

/-- The loop `for(i=gSubscribers.begin();..) i->second->numMessages = 0;` -/
def resetCounters : Map (Option Subscriber) → Except Fault (Map (Option Subscriber))
  | [] => .ok []
  | (_, none) :: _ => .error .nullPointer
  | (k, some h) :: m =>
    match resetCounters m with
    | .error e => .error e
    | .ok m1 => .ok ((k, some { h with numMessages := 0 }) :: m1)

/-- Method `ROSTfSubscriber::update()`: the loop over `transforms`, from the entries
`rest` on; a lookup that throws ends the loop in the `catch` block. -/
def ROSTfSubscriber.update (cv : Converters Obj Body) (lookupTransform : String → Option Body) :
    Map Nat → Bridge Obj Body → Except Fault (Bridge Obj Body)
  | [], s => .ok s
  | (frame, addr) :: rest, s =>
    match lookupTransform frame with
    | none => .ok { s with gRosSubscribeError := true, gRosSubscribeErrorWhere := "tf" }
    | some t =>
      match cv.ROSToKlamptTransform t (s.objects addr) with
      | .error e => .error e
      | .ok (_, o) =>
        ROSTfSubscriber.update cv lookupTransform rest
          { s with objects := Function.update s.objects addr o }

/-- The loop that computes `updated`: some handle has `numMessages > 0`. -/
def anyUpdated : Map (Option Subscriber) → Except Fault Bool
  | [] => .ok false
  | (_, none) :: _ => .error .nullPointer
  | (_, some h) :: m =>
    match anyUpdated m with
    | .error e => .error e
    | .ok u => .ok (decide (0 < h.numMessages) || u)

/-- The block `if(gSubscribers.count("tf") != 0) { .. }` of `ROSSubscribeUpdate`: the
entry `tf` is cast to `ROSTfSubscriber*`, and `update()` is called when the cast
succeeds. -/
def updateTransforms (cv : Converters Obj Body) (round : Round Body) (s : Bridge Obj Body) :
    Except Fault (Bridge Obj Body) :=
  if s.gSubscribers.count "tf" ≠ 0 then
    match s.gSubscribers.find "tf" with
    | some (some h) =>
      match h.cls with
      | .tf transforms => ROSTfSubscriber.update cv round.lookupTransform transforms s
      | .message _ _ => .ok s
    | _ => .ok s
  else .ok s

/-- Function `bool ROSSubscribeUpdate()`. -/
def ROSSubscribeUpdate (cv : Converters Obj Body) (round : Round Body) (s : Bridge Obj Body) :
    Except Fault (Bool × Bridge Obj Body) :=
  if s.gSubscribers.size = 0 ∧ s.gPublishers.size = 0 then .ok (false, s)
  else
    match resetCounters s.gSubscribers with
    | .error e => .error e
    | .ok subs =>
      let s1 := { s with gSubscribers := subs, gRosSubscribeError := false }
      match spinOnce cv round.delivered s1 with
      | .error e => .error e
      | .ok s2 =>
        match updateTransforms cv round s2 with
        | .error e => .error e
        | .ok s3 =>
          match anyUpdated s3.gSubscribers with
          | .error e => .error e
          | .ok updated =>
            if s3.gRosSubscribeError then .ok (false, s3) else .ok (updated, s3)

/-- Function `bool ROSDetach(const char* topic)`. -/
def ROSDetach (topic : String) (s : Bridge Obj Body) : Bool × Bridge Obj Body :=
  if s.gSubscribers.count topic ≠ 0 then
    (true, { s with gSubscribers := (s.gSubscribers.assign topic none).erase topic })
  else (false, s)

/-- Function `int ROSNumSubscribedTopics()`. -/
def ROSNumSubscribedTopics (s : Bridge Obj Body) : Int := toInt32 s.gSubscribers.size

/-- Function `int ROSNumPublishedTopics()`. -/
def ROSNumPublishedTopics (s : Bridge Obj Body) : Int := toInt32 s.gPublishers.size

/-! ## The topic bridge: publishers -/

/-- Constructor `ROSPublisher(const std::string& topic)`, and likewise those of
`ROSCommandedPublisher` and `ROSSensedPublisher`. -/
def ROSPublisher.new (cv : Converters Obj Body) (cls : PublisherClass) (topic : String) :
    Publisher Body :=
  { topic := topic, cls := cls, msg := { header := { Header.empty with seq := 0 },
                                         body := cv.emptyBody cls } }

/-- Method `publish(const Type& obj)` of `ROSPublisher`, `ROSCommandedPublisher` and
`ROSSensedPublisher`; `peers` is `pub.getNumSubscribers()`, `now` is `ros::Time::now()`.
The result is the handle afterwards and the message passed to `pub.publish`, if any. -/
def Publisher.publish (cv : Converters Obj Body) (p : Publisher Body) (obj : Obj) (peers : Nat)
    (now : Nat) : Except Fault (Publisher Body × Option (Message Body)) :=
  if peers = 0 then .ok (p, none)
  else
    let header : Header :=
      { stamp := now, seq := (p.msg.header.seq + 1) % 2 ^ 32, frame_id := "0" }
    match cv.KlamptToROS p.cls obj p.msg.body with
    | .error e => .error e
    | .ok (_, body) =>
      let msg : Message Body := { header := header, body := body }
      .ok ({ p with msg := msg }, some msg)

/-- Functions `RosPublish2<Type,PubType,Msg>` and `RosPublish3<Type,PubType,Msg>`, which
differ in the constness of `obj`; `cls` is `PubType`. -/
def RosPublish (cv : Converters Obj Body) (cls : PublisherClass) (obj : Obj) (topic : String)
    (peers : Nat) (now : Nat) (s : Bridge Obj Body) : Except Fault (Bool × Bridge Obj Body) :=
  let (ok, s0) := ROSInit s
  if !ok then .ok (false, s0)
  else
    match (match s0.gPublishers.find topic with
        | none => some (ROSPublisher.new cv cls topic)
        | some none => none
        | some (some p) => if p.cls = cls then some p else none :
        Option (Publisher Body)) with
    | none => .ok (false, s0)
    | some pub =>
      match pub.publish cv obj peers now with
      | .error e => .error e
      | .ok (pub1, out) =>
        .ok (true, { s0 with gPublishers := s0.gPublishers.assign topic (some pub1),
                             sent := s0.sent ++ (out.toList.map fun m => (topic, m)) })

end Operations

/-! ## Rigid transforms -/

/-- Class `Matrix3`, by its rows (`getRow1` .. `setRow3`). -/
structure Matrix3 where
  row1 : Vector3
  row2 : Vector3
  row3 : Vector3
  deriving DecidableEq, Repr

/-- Class `RigidTransform`: rotation `R` and translation `t`. -/
structure RigidTransform where
  R : Matrix3
  t : Vector3
  deriving DecidableEq, Repr

/-- Class `tf::Transform`: the rows `getBasis()[0]` .. `getBasis()[2]` and `getOrigin()`,
each a triple of `double`. -/
structure TfTransform where
  basis0 : Vector3
  basis1 : Vector3
  basis2 : Vector3
  origin : Vector3
  deriving DecidableEq, Repr

/-- Function `bool ROSToKlampt(const tf::Transform& T,RigidTransform& kT)`. -/
def ROSToKlamptTransform (T : TfTransform) (_kT : RigidTransform) : Bool × RigidTransform :=
  (true, { t := ⟨T.origin.x, T.origin.y, T.origin.z⟩,
           R := { row1 := ⟨T.basis0.x, T.basis0.y, T.basis0.z⟩,
                  row2 := ⟨T.basis1.x, T.basis1.y, T.basis1.z⟩,
                  row3 := ⟨T.basis2.x, T.basis2.y, T.basis2.z⟩ } })

/-- Function `bool KlamptToROS(const RigidTransform& kT,tf::Transform& T)`. -/
def KlamptToROSTransform (kT : RigidTransform) (_T : TfTransform) : Bool × TfTransform :=
  (true, { origin := ⟨kT.t.x, kT.t.y, kT.t.z⟩,
           basis0 := ⟨kT.R.row1.x, kT.R.row1.y, kT.R.row1.z⟩,
           basis1 := ⟨kT.R.row2.x, kT.R.row2.y, kT.R.row2.z⟩,
           basis2 := ⟨kT.R.row3.x, kT.R.row3.y, kT.R.row3.z⟩ })

/-! ## The joint-state converters -/

/-- The members of class `Robot` that the converters and the publishers use; `links`
holds `links[j].T_World`, the world transform of each link. -/
structure Robot where
  linkNames : List String
  q : List Real
  dq : List Real
  links : List RigidTransform
  deriving DecidableEq, Repr

/-- The members of `sensor_msgs::JointState` that the converters use. -/
structure JointState where
  name : List String
  position : List Real
  velocity : List Real
  deriving DecidableEq, Repr

/-- The loop `for(size_t i=0;i<krobot.linkNames.size();i++) indices[krobot.linkNames[i]] = (int)i;`
from index `i` on. -/
def linkIndices : List String → Nat → Map Int → Map Int
  | [], _, indices => indices
  | name :: names, i, indices => linkIndices names (i + 1) (indices.assign name (toInt32 i))

/-- Statement `if(!src.empty()) dst[idx] = src[i];` -/
def copyEntry (src : List Real) (i : Nat) (dst : List Real) (idx : Int) :
    Except Fault (List Real) :=
  if src.isEmpty then .ok dst
  else
    match src[i]? with
    | none => .error .readOutOfBounds
    | some v => store dst idx v

/-- The loop over `js.name` of `ROSToKlampt(const sensor_msgs::JointState&,Robot&)`, from
index `i` on: the returned `bool` is `false` at the first name without an index. -/
def ROSToKlamptJointState.loop (indices : Map Int) (js : JointState) :
    List String → Nat → Robot → Except Fault (Bool × Robot)
  | [], _, krobot => .ok (true, krobot)
  | name :: names, i, krobot =>
    match indices.find name with
    | none => .ok (false, krobot)
    | some idx =>
      match copyEntry js.position i krobot.q idx with
      | .error e => .error e
      | .ok q1 =>
        match copyEntry js.velocity i krobot.dq idx with
        | .error e => .error e
        | .ok dq1 =>
          ROSToKlamptJointState.loop indices js names (i + 1) { krobot with q := q1, dq := dq1 }

/-- Function `bool ROSToKlampt(const sensor_msgs::JointState& js,Robot& krobot)`;
`UpdateFrames` is the method of `Robot` of that name. -/
def ROSToKlamptJointState (UpdateFrames : Robot → Robot) (js : JointState) (krobot : Robot) :
    Except Fault (Bool × Robot) :=
  match ROSToKlamptJointState.loop (linkIndices krobot.linkNames 0 []) js js.name 0 krobot with
  | .error e => .error e
  | .ok (true, r) => .ok (true, UpdateFrames r)
  | .ok (false, r) => .ok (false, r)

/-- Call `v.resize(n)` on a `vector<double>`. -/
def resizeReals (v : List Real) (n : Nat) : List Real :=
  v.take n ++ List.replicate (n - v.length) ⟨0⟩

/-- The loop `for(size_t i=0;i<krobot.linkNames.size();i++)` of the encoder, with `n`
iterations left. -/
def KlamptToROSJointState.loop (krobot : Robot) : Nat → Nat → JointState → Except Fault JointState
  | 0, _, js => .ok js
  | n + 1, i, js =>
    match krobot.q[i]?, krobot.dq[i]? with
    | some x, some v =>
      KlamptToROSJointState.loop krobot n (i + 1)
        { js with position := js.position.set i x, velocity := js.velocity.set i v }
    | _, _ => .error .readOutOfBounds

/-- Function `bool KlamptToROS(const Robot& krobot,sensor_msgs::JointState& js)`. -/
def KlamptToROSJointState (krobot : Robot) (js : JointState) : Except Fault (Bool × JointState) :=
  let js1 : JointState :=
    { name := krobot.linkNames, position := resizeReals js.position krobot.linkNames.length,
      velocity := resizeReals js.velocity krobot.linkNames.length }
  match KlamptToROSJointState.loop krobot krobot.linkNames.length 0 js1 with
  | .error e => .error e
  | .ok js2 => .ok (true, js2)

/-! ## The converters of the embedded payloads -/

/-- An object on the Klampt side of a conversion. -/
inductive KlamptObject where
  | robot (r : Robot)
  | cloud (c : PointCloud3D)
  | transform (kT : RigidTransform)
  deriving DecidableEq, Repr

/-- The members other than the header of a message. -/
inductive RosBody where
  | jointState (js : JointState)
  | pointCloud (pc : PointCloud2)
  | transform (T : TfTransform)
  /-- a message of a type that is not embedded -/
  | other
  deriving DecidableEq, Repr

/-- The converters of `IO/ROS.cpp` for the payloads `jointState` and `pointCloud` and for
transforms, on a given host. A conversion at another payload, or applied to an object or message of
another type than its own (which the C++ types exclude), is given as a fault. -/
def klamptConverters (host : Host) (UpdateFrames : Robot → Robot) :
    Converters KlamptObject RosBody where
  ROSToKlampt := fun payload body obj =>
    match payload, body, obj with
    | .jointState, .jointState js, .robot r =>
      match ROSToKlamptJointState UpdateFrames js r with
      | .error e => .error e
      | .ok (b, r1) => .ok (b, .robot r1)
    | .pointCloud, .pointCloud pc, .cloud c =>
      match ROSToKlampt host pc c with
      | .error e => .error e
      | .ok (b, c1) => .ok (b, .cloud c1)
    | _, _, _ => .error .assertion
  ROSToKlamptTransform := fun body obj =>
    match body, obj with
    | .transform T, .transform kT =>
      .ok ((ROSToKlamptTransform T kT).1, .transform (ROSToKlamptTransform T kT).2)
    | _, _ => .error .assertion
  KlamptToROS := fun cls obj body =>
    match cls, obj, body with
    | .message .jointState, .robot r, .jointState js =>
      match KlamptToROSJointState r js with
      | .error e => .error e
      | .ok (b, js1) => .ok (b, .jointState js1)
    | .message .pointCloud, .cloud c, .pointCloud pc =>
      match KlamptToROS host c pc with
      | .error e => .error e
      | .ok (b, pc1) => .ok (b, .pointCloud pc1)
    | .tf, .transform kT, .transform T =>
      .ok ((KlamptToROSTransform kT T).1, .transform (KlamptToROSTransform kT T).2)
    | _, _, _ => .error .assertion
  emptyBody := fun cls =>
    match cls with
    | .message .jointState => .jointState { name := [], position := [], velocity := [] }
    | .message .pointCloud => .pointCloud emptyMessage
    | _ => .other

/-! ## Specification-side definitions for the bridge -/

section BridgeSpec

variable {Obj Body : Type}

/-- The handle holds a valid subscription whose callback decodes messages. -/
def Subscriber.isLive (h : Subscriber) : Bool :=
  h.sub && (match h.cls with
    | .message _ _ => true
    | .tf _ => false)

/-- The topic `k` has a handle with a valid subscription in `s`: a message delivered on
`k` reaches a callback. -/
def Bridge.isSubscribed (s : Bridge Obj Body) (k : String) : Bool :=
  match s.gSubscribers.find k with
  | some (some h) => h.isLive
  | _ => false

/-- What `ROSToKlampt` returns in the callback that the delivery `d` runs in the state
`s`; `none` when no callback runs for it or the conversion does not return. -/
def decodeOutcome (cv : Converters Obj Body) (s : Bridge Obj Body) (d : String × Message Body) :
    Option Bool :=
  match s.gSubscribers.find d.1 with
  | some (some h) =>
    match h.cls with
    | .message payload obj =>
      if h.sub then
        match cv.ROSToKlampt payload d.2.body (s.objects obj) with
        | .ok (r, _) => some r
        | .error _ => none
      else none
    | .tf _ => none
  | _ => none

/-- The topics of the delivered messages that failed to decode, in the order of
delivery. -/
def failedTopics (cv : Converters Obj Body) :
    List (String × Message Body) → Bridge Obj Body → List String
  | [], _ => []
  | d :: ds, s =>
    (if decodeOutcome cv s d = some false then [d.1] else []) ++
      (match deliver cv s d with
        | .ok s1 => failedTopics cv ds s1
        | .error _ => [])

/-- No handle of the registry refers to the object at address `a`. -/
def Bridge.NoTarget (s : Bridge Obj Body) (a : Nat) : Prop :=
  ∀ k h p, s.gSubscribers.find k = some (some h) → h.cls ≠ .message p a

/-- The registry has one entry per topic, as a `std::map` does. -/
def Bridge.UniqueTopics (s : Bridge Obj Body) : Prop := (s.gSubscribers.map Prod.fst).Nodup

instance (s : Bridge Obj Body) : Decidable s.UniqueTopics := by
  unfold Bridge.UniqueTopics; infer_instance

/-- Every handle with a valid subscription carries the topic it is entered under, as
every handle that `RosSubscribe` enters does. -/
def Bridge.TopicsMatch (s : Bridge Obj Body) : Prop :=
  ∀ e ∈ s.gSubscribers, ∀ h ∈ e.2, h.sub = true → h.topic = e.1

instance (s : Bridge Obj Body) : Decidable s.TopicsMatch := by
  unfold Bridge.TopicsMatch; infer_instance

/-- No entry of the subscriber registry is `NULL`. -/
def Bridge.NoNullSubscriber (s : Bridge Obj Body) : Prop :=
  ∀ e ∈ s.gSubscribers, e.2 ≠ none

instance (s : Bridge Obj Body) : Decidable s.NoNullSubscriber := by
  unfold Bridge.NoNullSubscriber; infer_instance

/-- The state in which `ROSSubscribeUpdate` calls `spinOnce`: every counter is zero and
the error flag is cleared. -/
def Bridge.roundStart (s : Bridge Obj Body) : Bridge Obj Body :=
  { s with
    gSubscribers := s.gSubscribers.map fun e =>
      (e.1, e.2.map fun h => { h with numMessages := 0 })
    gRosSubscribeError := false }

/-- Some frame of the `ROSTfSubscriber` entered under `tf`, if there is one, cannot be
looked up. -/
def tfLookupFails (round : Round Body) (s : Bridge Obj Body) : Prop :=
  match s.gSubscribers.find "tf" with
  | some (some h) =>
    match h.cls with
    | .tf transforms => ∃ e ∈ transforms, round.lookupTransform e.1 = none
    | .message _ _ => False
  | _ => False

/-- One call `publish(obj)`, with what the transport answers during it. -/
structure PublishCall (Obj : Type) where
  obj : Obj
  /-- `pub.getNumSubscribers()` -/
  peers : Nat
  /-- `ros::Time::now()` -/
  now : Nat

/-- A sequence of `publish` calls on one handle: the handle afterwards and the messages
passed to the transport, in order. -/
def publishAll (cv : Converters Obj Body) :
    List (PublishCall Obj) → Publisher Body → Except Fault (Publisher Body × List (Message Body))
  | [], p => .ok (p, [])
  | c :: cs, p =>
    match p.publish cv c.obj c.peers c.now with
    | .error e => .error e
    | .ok (p1, out) =>
      match publishAll cv cs p1 with
      | .error e => .error e
      | .ok (p2, outs) => .ok (p2, out.toList ++ outs)

end BridgeSpec

/-! ## Concrete bridge states and messages -/

/-- The transform without rotation that translates by `t`. -/
def identityAt (t : Vector3) : RigidTransform :=
  { R := { row1 := ⟨Real.ofInt 1, ⟨0⟩, ⟨0⟩⟩, row2 := ⟨⟨0⟩, Real.ofInt 1, ⟨0⟩⟩,
           row3 := ⟨⟨0⟩, ⟨0⟩, Real.ofInt 1⟩ },
    t := t }

/-- A robot with the links `a` and `b`, at rest at zero; link `a` sits at `(1, 0, 0)` and
link `b` at `(2, 0, 0)`. -/
def twoLinks : Robot :=
  { linkNames := ["a", "b"], q := [⟨0⟩, ⟨0⟩], dq := [⟨0⟩, ⟨0⟩],
    links := [identityAt ⟨Real.ofInt 1, ⟨0⟩, ⟨0⟩⟩, identityAt ⟨Real.ofInt 2, ⟨0⟩, ⟨0⟩⟩] }

/-- The bridge before any call, with a robot at the addresses 0 and 1 and the empty
cloud at every other address. -/
def initialBridge : Bridge KlamptObject RosBody :=
  { gRosNh := false, gRosQueueSize := 1, gRosSubscribeError := false,
    gRosSubscribeErrorWhere := "", gSubscribers := [], gPublishers := [],
    objects := fun a => if a < 2 then .robot twoLinks else .cloud emptyCloud, sent := [] }

/-- The converters on `littleEndianHost`, for robots whose frames are not represented. -/
def testConverters : Converters KlamptObject RosBody := klamptConverters littleEndianHost id

/-- A joint-state message that sets link `b` to position 1. -/
def goodJoints : Message RosBody :=
  { header := { seq := 7, stamp := 100, frame_id := "base" },
    body := .jointState { name := ["b"], position := [Real.ofInt 1], velocity := [] } }

/-- A joint-state message that sets link `b` to position 2 and then names the link `c`,
which the robot does not have. -/
def badJoints : Message RosBody :=
  { header := { seq := 8, stamp := 101, frame_id := "base" },
    body := .jointState { name := ["b", "c"], position := [Real.ofInt 2, Real.ofInt 3],
                          velocity := [] } }

/-- The bridge after `RosSubscribe<Robot,JointState>` of the robot at address 0 to the
topic `joints`. -/
def subscribedA : Bridge KlamptObject RosBody :=
  { initialBridge with
    gRosNh := true
    gSubscribers := [("joints", some (ROSSubscriber.new .jointState 0 "joints" true))] }

/-- The bridge after a second `RosSubscribe<Robot,JointState>` to `joints`, of the robot
at address 1. -/
def subscribedB : Bridge KlamptObject RosBody :=
  { initialBridge with
    gRosNh := true
    gSubscribers := [("joints", some (ROSSubscriber.new .jointState 1 "joints" true))] }

/-- The bridge after a failed `RosSubscribe<Robot,JointState>` to `joints` made in the
state `subscribedA`. -/
def subscribeFailed : Bridge KlamptObject RosBody :=
  { initialBridge with gRosNh := true, gSubscribers := [("joints", none)] }

/-- A round without messages and without transforms. -/
def idleRound : Round RosBody := { delivered := [], lookupTransform := fun _ => none }

/-- A fresh publisher of point clouds on the topic `cloud`. -/
def cloudPublisher : Publisher RosBody :=
  ROSPublisher.new testConverters (.message .pointCloud) "cloud"

/-- Three calls of `publish` with the cloud `onePoint`: with one peer, without peers,
with two peers. -/
def threeCalls : List (PublishCall KlamptObject) :=
  [⟨.cloud onePoint, 1, 10⟩, ⟨.cloud onePoint, 0, 11⟩, ⟨.cloud onePoint, 2, 12⟩]

/-- The handle and the messages sent after `threeCalls` on `cloudPublisher`. -/
def afterThreeCalls : Publisher RosBody × List (Message RosBody) :=
  match publishAll testConverters threeCalls cloudPublisher with
  | .ok r => r
  | .error _ => (cloudPublisher, [])

/-- The bridge after `ROSPublishPointCloud(onePoint, "cloud")` without peers, made in
the state `subscribedA`. -/
def publishedCloud : Bridge KlamptObject RosBody :=
  { subscribedA with gPublishers := [("cloud", some cloudPublisher)] }

/-- The bridge after the robots at the addresses 0 and 1 have been subscribed to the
topics `joints` and `arm`. -/
def twoTopics : Bridge KlamptObject RosBody :=
  { initialBridge with
    gRosNh := true
    gSubscribers := [("arm", some (ROSSubscriber.new .jointState 1 "arm" true)),
                     ("joints", some (ROSSubscriber.new .jointState 0 "joints" true))] }

/-- A round in which `joints` receives a message that fails to decode, then `arm` one
that fails, then `joints` one that decodes, and in which a message arrives on the topic
`scan`, which has no subscriber. -/
def mixedRound : List (String × Message RosBody) :=
  [("joints", badJoints), ("arm", badJoints), ("scan", goodJoints), ("joints", goodJoints)]

/-- The bridge after `spinOnce` has delivered `mixedRound` in `twoTopics`. -/
def afterMixedRound : Bridge KlamptObject RosBody :=
  match spinOnce testConverters mixedRound twoTopics with
  | .ok s => s
  | .error _ => twoTopics

/-- A round in which `joints` receives one message, which decodes, and a message arrives
on the topic `scan`, which has no subscriber; no transform can be looked up. -/
def goodRound : Round RosBody :=
  { delivered := [("joints", goodJoints), ("scan", goodJoints)],
    lookupTransform := fun _ => none }

/-- The bridge after `ROSSubscribeUpdate` with `goodRound`, called in `afterMixedRound`. -/
def afterGoodRound : Bridge KlamptObject RosBody :=
  match ROSSubscribeUpdate testConverters goodRound afterMixedRound with
  | .ok r => r.2
  | .error _ => afterMixedRound

/-! ## The trajectory encoder with an index list -/

/-- The members of class `LinearPath`. -/
structure LinearPath where
  times : List Real
  milestones : List (List Real)
  deriving DecidableEq, Repr

/-- Class `ros::Duration`. -/
structure RosDuration where
  sec : Int
  nsec : Int
  deriving DecidableEq, Repr

/-- The members of `trajectory_msgs::JointTrajectoryPoint` that the encoder writes. -/
structure JointTrajectoryPoint where
  positions : List Real
  time_from_start : RosDuration
  deriving DecidableEq, Repr

/-- A value-initialised `trajectory_msgs::JointTrajectoryPoint`. -/
def JointTrajectoryPoint.empty : JointTrajectoryPoint :=
  { positions := [], time_from_start := ⟨0, 0⟩ }

/-- The members of `trajectory_msgs::JointTrajectory` that the encoder writes. -/
structure JointTrajectory where
  joint_names : List String
  points : List JointTrajectoryPoint
  deriving DecidableEq, Repr

/-- Call `v.resize(n)` on a `vector<string>`. -/
def resizeNames (v : List String) (n : Nat) : List String :=
  v.take n ++ List.replicate (n - v.length) ""

/-- Call `v.resize(n)` on a `vector<JointTrajectoryPoint>`. -/
def resizePoints (v : List JointTrajectoryPoint) (n : Nat) : List JointTrajectoryPoint :=
  v.take n ++ List.replicate (n - v.length) JointTrajectoryPoint.empty

/-- The loop `for(size_t i=0;i<indices.size();i++)` over the remaining indices, from
position `i` on: the `bool` is `false` when the test
`indices[i] < 0 || indices[i] > robot.q.n` makes the function return `false`, and the names
are those written so far. -/
def KlamptToROSIndexedPath.names (robot : Robot) :
    List Int → Nat → List String → Except Fault (Bool × List String)
  | [], _, joint_names => .ok (true, joint_names)
  | index :: indices, i, joint_names =>
    if index < 0 ∨ index > toInt32 robot.q.length then .ok (false, joint_names)
    else
      match robot.linkNames[index.toNat]? with
      | none => .error .readOutOfBounds
      | some name =>
        if i < joint_names.length then
          KlamptToROSIndexedPath.names robot indices (i + 1) (joint_names.set i name)
        else .error .writeOutOfBounds

/-- The loop `for(size_t i=0;i<kpath.milestones.size();i++)` over the remaining
milestones, from position `i` on; `Duration` is the constructor `ros::Duration(double)`. -/
def KlamptToROSIndexedPath.points (Duration : Real → RosDuration) (kpath : LinearPath) :
    List (List Real) → Nat → List JointTrajectoryPoint → Except Fault (List JointTrajectoryPoint)
  | [], _, points => .ok points
  | milestone :: milestones, i, points =>
    match kpath.times[i]? with
    | none => .error .readOutOfBounds
    | some t =>
      if i < points.length then
        KlamptToROSIndexedPath.points Duration kpath milestones (i + 1)
          (points.modify (fun p => { p with time_from_start := Duration t,
                                            positions := milestone }) i)
      else .error .writeOutOfBounds

/-- Function `bool KlamptToROS(const Robot& robot,const vector<int>& indices,
const LinearPath& kpath,trajectory_msgs::JointTrajectory& traj)`; the entries of
`indices` are C++ `int`s. -/
def KlamptToROSIndexedPath (Duration : Real → RosDuration) (robot : Robot) (indices : List Int)
    (kpath : LinearPath) (traj : JointTrajectory) : Except Fault (Bool × JointTrajectory) :=
  match kpath.milestones with
  | [] => .ok (true, { traj with joint_names := [], points := [] })
  | first :: _ =>
    if toInt32 indices.length ≠ toInt32 first.length then .ok (false, traj)
    else
      match KlamptToROSIndexedPath.names robot indices 0
          (resizeNames traj.joint_names indices.length) with
      | .error e => .error e
      | .ok (false, names) => .ok (false, { traj with joint_names := names })
      | .ok (true, names) =>
        match KlamptToROSIndexedPath.points Duration kpath kpath.milestones 0
            (resizePoints traj.points kpath.milestones.length) with
        | .error e => .error e
        | .ok points => .ok (true, { joint_names := names, points := points })

/-! ## Broadcasting the transforms of a world -/

/-- The members of an entry of `RobotWorld::rigidObjects` that are read: `name` and
`object->T`. -/
structure RigidObject where
  name : String
  T : RigidTransform
  deriving DecidableEq, Repr

/-- The members of an entry of `RobotWorld::robots` that are read: `name` and `robot`. -/
structure WorldRobot where
  name : String
  robot : Robot
  deriving DecidableEq, Repr

/-- The members of class `RobotWorld` that are read. -/
structure RobotWorld where
  rigidObjects : List RigidObject
  robots : List WorldRobot
  deriving DecidableEq, Repr

/-- Class `tf::StampedTransform`. -/
structure StampedTransform where
  transform : TfTransform
  stamp : Nat
  frame_id : String
  child_frame_id : String
  deriving DecidableEq, Repr

/-- Method `ROSTfPublisher::send(name, T, parent)`: the stamped transform passed to
`broadcaster.sendTransform`; `now` is `ros::Time::now()`, `fresh` the content of the
local `tf::Transform transform` before it is written. -/
def ROSTfPublisher.send (fresh : TfTransform) (now : Nat) (name : String) (T : RigidTransform)
    (parent : String) : StampedTransform :=
  { transform := (KlamptToROSTransform T fresh).2, stamp := now, frame_id := parent,
    child_frame_id := name }

/-- The loop `for(size_t i=0;i<world.rigidObjects.size();i++)` over the remaining
objects; `out` holds the transforms sent so far, and `clock k` is `ros::Time::now()` in
the send that follows `k` others. -/
def sendObjects (fresh : TfTransform) (clock : Nat → Nat) ( frameprefix : String) :
    List RigidObject → List StampedTransform → List StampedTransform
  | [], out => out
  | o :: os, out =>
    sendObjects fresh clock frameprefix os
      (out ++ [ROSTfPublisher.send fresh (clock out.length) ( frameprefix ++ "/" ++ o.name) o.T
        "world"])

/-- The loop `for(size_t j=0;j<world.robots[i].robot->links.size();j++)` for the robot
`r = world.robots[i]`, with `n` iterations left: the frame is named after `linkNames[j]`
and the transform sent is `robot->links[i].T_World`. -/
def sendLinks (fresh : TfTransform) (clock : Nat → Nat) ( frameprefix : String) (r : WorldRobot)
    (i : Nat) : Nat → Nat → List StampedTransform → Except Fault (List StampedTransform)
  | 0, _, out => .ok out
  | n + 1, j, out =>
    match r.robot.linkNames[j]?, r.robot.links[i]? with
    | some name, some T =>
      sendLinks fresh clock frameprefix r i n (j + 1)
        (out ++ [ROSTfPublisher.send fresh (clock out.length)
          ( frameprefix ++ "/" ++ r.name ++ "/" ++ name) T "world"])
    | _, _ => .error .readOutOfBounds

/-- The loop `for(size_t i=0;i<world.robots.size();i++)` over the remaining robots, from
index `i` on. -/
def sendRobots (fresh : TfTransform) (clock : Nat → Nat) ( frameprefix : String) :
    List WorldRobot → Nat → List StampedTransform → Except Fault (List StampedTransform)
  | [], _, out => .ok out
  | r :: rs, i, out =>
    match sendLinks fresh clock frameprefix r i r.robot.links.length 0 out with
    | .error e => .error e
    | .ok out1 => sendRobots fresh clock frameprefix rs (i + 1) out1

section Transforms

variable {Obj Body : Type}

/-- Constructor `ROSTfPublisher()`; the class has no member `msg`, which is kept here as
a default-constructed message. -/
def ROSTfPublisher.new (cv : Converters Obj Body) : Publisher Body :=
  { topic := "tf", cls := .tf, msg := { header := Header.empty, body := cv.emptyBody .tf } }

/-- Function `bool ROSPublishTransforms(const RobotWorld& world,const char* frameprefix)`:
the returned `bool`, the bridge afterwards and the transforms passed to
`broadcaster.sendTransform`, in order. -/
def ROSPublishTransforms (cv : Converters Obj Body) (fresh : TfTransform) (clock : Nat → Nat)
    (world : RobotWorld) ( frameprefix : String) (s : Bridge Obj Body) :
    Except Fault (Bool × Bridge Obj Body × List StampedTransform) :=
  let (ok, s0) := ROSInit s
  if !ok then .ok (false, s0, [])
  else
    match (if s0.gPublishers.count "tf" = 0 then
        some { s0 with gPublishers := s0.gPublishers.assign "tf" (some (ROSTfPublisher.new cv)) }
      else
        match s0.gPublishers.find "tf" with
        | some (some p) => if p.cls = .tf then some s0 else none
        | _ => none : Option (Bridge Obj Body)) with
    | none => .ok (false, s0, [])
    | some s1 =>
      match sendRobots fresh clock frameprefix world.robots 0
          (sendObjects fresh clock frameprefix world.rigidObjects []) with
      | .error e => .error e
      | .ok out => .ok (true, s1, out)

end Transforms

/-! ## Concrete robots, paths and worlds -/

/-- The constructor `ros::Duration(double)` on positive whole numbers of seconds, all
that the examples use: the seconds are the integer part of the binary64 value. -/
def wholeSeconds (t : Real) : RosDuration :=
  { sec := if binary64.expField t.bits = 0 then 0
      else ((2 ^ 52 + binary64.manField t.bits) * 2 ^ (binary64.expField t.bits - 1023) / 2 ^ 52 : Nat),
    nsec := 0 }

/-- A path with the single milestone `(5)` at time 1. -/
def oneMilestone : LinearPath := { times := [Real.ofInt 1], milestones := [[Real.ofInt 5]] }

/-- A default-constructed `trajectory_msgs::JointTrajectory`. -/
def emptyTrajectory : JointTrajectory := { joint_names := [], points := [] }

/-- A world with the rigid object `box` at `(3, 0, 0)` and the robot `arm`, which is
`twoLinks`. -/
def armWorld : RobotWorld :=
  { rigidObjects := [⟨"box", identityAt ⟨Real.ofInt 3, ⟨0⟩, ⟨0⟩⟩⟩],
    robots := [⟨"arm", twoLinks⟩] }

/-- A world with the robots `arm` and `hand`, `hand` having the single link `palm`. -/
def twoRobotWorld : RobotWorld :=
  { rigidObjects := [],
    robots := [⟨"arm", twoLinks⟩,
               ⟨"hand", { linkNames := ["palm"], q := [⟨0⟩], dq := [⟨0⟩],
                          links := [identityAt ⟨Real.ofInt 4, ⟨0⟩, ⟨0⟩⟩] }⟩] }

/-- The `tf::Transform` without rotation at `t`. -/
def tfAt (t : Vector3) : TfTransform :=
  { basis0 := ⟨Real.ofInt 1, ⟨0⟩, ⟨0⟩⟩, basis1 := ⟨⟨0⟩, Real.ofInt 1, ⟨0⟩⟩,
    basis2 := ⟨⟨0⟩, ⟨0⟩, Real.ofInt 1⟩, origin := t }

/-! ## Specification-side definitions for the joint-state decoder -/

/-- The position of the last entry of `names` that equals `k`, if there is one: the
index that a map holds for `k` after each name has been assigned its position in turn. -/
def lastIndexOf : List String → String → Option Nat
  | [], _ => none
  | n :: ns, k =>
    match lastIndexOf ns k with
    | some j => some (j + 1)
    | none => if n = k then some 0 else none

/-- The names of a message that precede its first name that is not a link name. -/
def knownNames (linkNames : List String) (names : List String) : List String :=
  names.takeWhile fun n => decide (n ∈ linkNames)

/-- The value that entry `j` of the target receives from the names `names`, which stand
at the positions `i`, `i + 1`, ... of the message: the entry of `src` at the position of
the last name whose index is `j`, if there is such a name. -/
def lastWrite (index : String → Option Nat) (src : List Real) :
    List String → Nat → Nat → Option Real
  | [], _, _ => none
  | name :: names, i, j =>
    (lastWrite index src names (i + 1) j).or (if index name = some j then src[i]? else none)

/-- The body of `badJoints`: it sets link `b` to position 2 and then names the link
`c`, which `twoLinks` does not have. -/
def badJointState : JointState :=
  { name := ["b", "c"], position := [Real.ofInt 2, Real.ofInt 3], velocity := [] }

/-! ## Specification-side definitions for the transform subscriber -/

/-- The keys of a `std::map` stand in ascending order of `std::less<string>`, the order
in which an iterator visits them. -/
def Map.Ascending {α : Type} (m : Map α) : Prop :=
  m.Pairwise fun a b => Map.keyLt a.1 b.1 = true

instance {α : Type} (m : Map α) : Decidable m.Ascending := by
  unfold Map.Ascending
  infer_instance

/-- The listener of a `ROSTfSubscriber`: what `lookupTransform` writes is a
`tf::StampedTransform`, the transform `lookup frame` of a frame that is known. -/
def tfListener (lookup : String → Option TfTransform) (frame : String) : Option RosBody :=
  (lookup frame).map RosBody.transform

/-- The rigid transform that a `tf::Transform` stands for: the rows of its basis as the
rows of the rotation, its origin as the translation. -/
def TfTransform.toRigid (T : TfTransform) : RigidTransform :=
  { R := { row1 := T.basis0, row2 := T.basis1, row3 := T.basis2 }, t := T.origin }

/-- The object that a slot holding `o` holds after the transform `t` has been converted
into it. -/
def converted {Obj Body : Type} (cv : Converters Obj Body) (t : Body) (o : Obj) : Obj :=
  match cv.ROSToKlamptTransform t o with
  | .ok (_, o1) => o1
  | .error _ => o

/-- A bridge whose addresses 10, 11 and 12 hold the transforms at `(1, 0, 0)`,
`(2, 0, 0)` and `(3, 0, 0)`. -/
def threeFrames : Bridge KlamptObject RosBody :=
  { initialBridge with
    objects := fun a =>
      if a = 10 then .transform (identityAt ⟨Real.ofInt 1, ⟨0⟩, ⟨0⟩⟩)
      else if a = 11 then .transform (identityAt ⟨Real.ofInt 2, ⟨0⟩, ⟨0⟩⟩)
      else if a = 12 then .transform (identityAt ⟨Real.ofInt 3, ⟨0⟩, ⟨0⟩⟩)
      else .cloud emptyCloud }

/-- The member `transforms` of a `ROSTfSubscriber` with the frames `base`, `elbow` and
`wrist`, whose targets are the addresses 10, 11 and 12. -/
def armFrames : Map Nat := [("base", 10), ("elbow", 11), ("wrist", 12)]

/-- A listener that knows the frames `base`, at `(7, 0, 0)`, and `wrist`, at `(9, 0, 0)`,
and no other frame. -/
def elbowMissing (frame : String) : Option TfTransform :=
  if frame = "base" then some (tfAt ⟨Real.ofInt 7, ⟨0⟩, ⟨0⟩⟩)
  else if frame = "wrist" then some (tfAt ⟨Real.ofInt 9, ⟨0⟩, ⟨0⟩⟩)
  else none

/-- A listener that knows the three frames of `armFrames`, at `(7, 0, 0)`, `(8, 0, 0)`
and `(9, 0, 0)`, the rotation of `elbow` being a quarter turn about the third axis. -/
def allFramesKnown (frame : String) : Option TfTransform :=
  if frame = "base" then some (tfAt ⟨Real.ofInt 7, ⟨0⟩, ⟨0⟩⟩)
  else if frame = "elbow" then
    some { basis0 := ⟨⟨0⟩, Real.ofInt (-1), ⟨0⟩⟩, basis1 := ⟨Real.ofInt 1, ⟨0⟩, ⟨0⟩⟩,
           basis2 := ⟨⟨0⟩, ⟨0⟩, Real.ofInt 1⟩, origin := ⟨Real.ofInt 8, ⟨0⟩, ⟨0⟩⟩ }
  else if frame = "wrist" then some (tfAt ⟨Real.ofInt 9, ⟨0⟩, ⟨0⟩⟩)
  else none

/-! ## Waiting for a message -/

section Waiting

variable {Obj Body : Type}

/-- What the clock and the transport contribute to one evaluation of the test
`timer.ElapsedTime() < timeout` of `ROSWaitForUpdate` and to the iteration that follows
it: `elapsed` is the value of `timer.ElapsedTime()` in the test, in ticks of the unit in
which the timeout is counted, and `delivered` holds the messages that `ros::spinOnce()`
takes from the queues. The call of `sleep` acts on the later readings only. -/
structure WaitPass (Body : Type) where
  elapsed : Int
  delivered : List (String × Message Body)

/-- The loop `while(timer.ElapsedTime() < timeout)` of `ROSWaitForUpdate`, for the passes
that remain: the returned value is `none` when the passes end before the loop does. The
pointer `s` of the source is the entry of `topic`, which `spinOnce` keeps in place. -/
def ROSWaitForUpdate.loop (cv : Converters Obj Body) (topic : String) (timeout : Int)
    (oldNumMessages : Int) :
    List (WaitPass Body) → Bridge Obj Body → Except Fault (Option Bool × Bridge Obj Body)
  | [], s => .ok (none, s)
  | pass :: passes, s =>
    if pass.elapsed < timeout then
      match spinOnce cv pass.delivered s with
      | .error e => .error e
      | .ok s1 =>
        match s1.gSubscribers.find topic with
        | some (some h) =>
          if h.numMessages > oldNumMessages then .ok (some true, s1)
          else ROSWaitForUpdate.loop cv topic timeout oldNumMessages passes s1
        | _ => .error .nullPointer
    else .ok (some false, s)

/-- Function `bool ROSWaitForUpdate(const char* topic,double timeout)`. -/
def ROSWaitForUpdate (cv : Converters Obj Body) (topic : String) (timeout : Int)
    (passes : List (WaitPass Body)) (s : Bridge Obj Body) :
    Except Fault (Option Bool × Bridge Obj Body) :=
  if s.gSubscribers.count topic = 0 then .ok (some false, s)
  else
    match s.gSubscribers.find topic with
    | some (some h) => ROSWaitForUpdate.loop cv topic timeout h.numMessages passes s
    | _ => .error .nullPointer

end Waiting

/-- Three passes: at time 0 a message arrives on `arm`, at time 1 none, at time 5 one on
`joints`. -/
def quietPasses : List (WaitPass RosBody) :=
  [⟨0, [("arm", goodJoints)]⟩, ⟨1, []⟩, ⟨5, [("joints", goodJoints)]⟩]

/-- The bridge after the passes of `quietPasses` at the times 0 and 1 have been
dispatched in `twoTopics`. -/
def afterQuietPasses : Bridge KlamptObject RosBody :=
  match spinOnce testConverters [("arm", goodJoints)] twoTopics with
  | .ok s => s
  | .error _ => twoTopics

/-- Two passes: at time 0 no message arrives, at time 1 one on `joints`. -/
def busyPasses : List (WaitPass RosBody) :=
  [⟨0, []⟩, ⟨1, [("joints", goodJoints)]⟩]

/-- The bridge after `busyPasses` have been dispatched in `twoTopics`. -/
def afterBusyPasses : Bridge KlamptObject RosBody :=
  match spinOnce testConverters [("joints", goodJoints)] twoTopics with
  | .ok s => s
  | .error _ => twoTopics

/-! ## Specification-side definitions for the property offsets -/

/-- The number of property names that the fields `fs` contribute: the total of the
counts of the fields that are no coordinates. -/
def propertyCount : List PointField → Nat
  | [] => 0
  | f :: fs => (if f.isCoordinate then 0 else f.count) + propertyCount fs

/-- The index of the first property name that field `k` contributes: the number of
names that the fields before it contribute. -/
def propertyStart (fields : List PointField) (k : Nat) : Nat := propertyCount (fields.take k)

/-- The loop over the fields of one record in which field `k` is unpacked to
`propertyTemp[fieldmap[k]]`, the index of its first property name, where the source has
the running offset `pofs`. -/
def unpackByFieldmap (host : Host) (pc : PointCloud2) (sc : FieldScan) (vofs : Int)
    (swap_bigendian : Bool) : List PointField → Nat → List Real → Except Fault (List Real)
  | [], _, propertyTemp => .ok propertyTemp
  | f :: fs, k, propertyTemp =>
    if sc.fieldmap.getD k (-1) < 0 then
      unpackByFieldmap host pc sc vofs swap_bigendian fs (k + 1) propertyTemp
    else
      match UNPACK host f pc.data vofs propertyTemp (sc.fieldmap.getD k (-1))
          swap_bigendian with
      | .error e => .error e
      | .ok propertyTemp1 =>
        unpackByFieldmap host pc sc vofs swap_bigendian fs (k + 1) propertyTemp1

/-- What `fieldmap` and `kpc.propertyNames` hold once the fields `seen` of a message
with `n` fields, none of them a `FLOAT32` field named `rgb` or `rgba`, have been
scanned. -/
structure FieldmapInv (n : Nat) (seen : List PointField) (s : FieldScan) : Prop where
  size : s.fieldmap.length = n
  len : s.propertyNames.length = propertyCount seen
  map : ∀ pre f post, seen = pre ++ f :: post →
    s.fieldmap.getD pre.length (-1) = if f.isCoordinate then -1 else (propertyCount pre : Int)
  names : ∀ pre f post, seen = pre ++ f :: post → ¬ f.isCoordinate → ∀ j < f.count,
    s.propertyNames[propertyCount pre + j]? = (expandedNames f)[j]?
  rest : ∀ k, seen.length ≤ k → s.fieldmap.getD k (-1) = -1

/-- The property vector `props` holds the elements of the record that starts at byte
`start`: element `j` of the field at index `k` that is no coordinate, when its datatype
is one that `UNPACK` decodes, stands at the index `propertyStart pc.fields k + j`. -/
def HoldsRecord (host : Host) (pc : PointCloud2) (start : Nat) (props : List Real) : Prop :=
  ∀ (k : Nat) (f : PointField) (j : Nat) (v : Real), pc.fields[k]? = some f →
    ¬ f.isCoordinate → j < f.count →
    UNPACK.value host f.datatype pc.data
      ((start : Int) + (f.offset : Int) + (j : Int) * fieldStride host f)
      (host.bigEndian != pc.is_bigendian) = .ok (some v) →
    props[propertyStart pc.fields k + j]? = some v

/-- Every kept point stands beside the property vector of its record: the pairs of
`points` and `properties` belong to records of the message, in which the point is the
kept point when the message has its three coordinate fields. -/
def PropertiesParallel (host : Host) (pc : PointCloud2) (points : List Vector3)
    (properties : List (List Real)) : Prop :=
  points.length = properties.length ∧
    ∀ e ∈ points.zip properties, ∃ start ∈ recordStarts pc,
      (HasCoordinates pc → keptPoint host pc start = some e.1) ∧ HoldsRecord host pc start e.2

/-- A message of one record with the fields `x`, `y`, `z` and, between `y` and `z`, the
field `i` of two `UINT8` elements; the record holds the point `(1, 2, 3)` and, at the
bytes 12 and 14, where `UNPACK` reads the two elements, the values 7 and 9. -/
def xyzWithIntensity : PointCloud2 :=
  { height := 1, width := 1,
    fields := [⟨"x", 0, PointField.FLOAT32, 1⟩, ⟨"y", 4, PointField.FLOAT32, 1⟩,
               ⟨"i", 12, PointField.UINT8, 2⟩, ⟨"z", 8, PointField.FLOAT32, 1⟩],
    is_bigendian := false, point_step := 16, row_step := 16,
    data := [0, 0, 128, 63, 0, 0, 0, 64, 0, 0, 64, 64, 7, 0, 9, 0] }

/-! # Theorems -/

/-! ### The size invariant -/

theorem store_length {out out1 : List Real} {i : Int} {v : Real}
    (h : store out i v = .ok out1) : out1.length = out.length := by
  unfold store at h
  split at h
  · cases h; simp
  · cases h

theorem UNPACK.loop_length (host : Host) (field : PointField) (data : List UInt8)
    (swap : Bool) (stride start : Int) :
    ∀ (n i : Nat) (p : Int) (out out1 : List Real),
      UNPACK.loop host field data swap stride start n i p out = .ok out1 →
      out1.length = out.length := by
  intro n
  induction n with
  | zero => intro i p out out1 h; simp [UNPACK.loop] at h; simp [h]
  | succ n ih =>
    intro i p out out1 h
    rw [UNPACK.loop] at h
    split at h
    · cases h
    · exact ih _ _ _ _ h
    · split at h
      · cases h
      · rename_i out2 hs
        rw [ih _ _ _ _ h, store_length hs]

theorem UNPACK_length {host : Host} {field : PointField} {data : List UInt8} {base : Int}
    {out out1 : List Real} {start : Int} {swap : Bool}
    (h : UNPACK host field data base out start swap = .ok out1) : out1.length = out.length :=
  UNPACK.loop_length _ _ _ _ _ _ _ _ _ _ _ h

theorem unpackRgb_length {host : Host} {pc : PointCloud2} {sc : FieldScan} {vofs : Int}
    {temp temp1 : List Real} {swap : Bool}
    (h : unpackRgb host pc sc vofs temp swap = .ok temp1) : temp1.length = temp.length := by
  unfold unpackRgb at h
  split at h
  · split at h
    · cases h
    · split at h
      · cases h
      · exact store_length h
  · cases h; rfl

theorem unpackProperties_length (host : Host) (pc : PointCloud2) (sc : FieldScan) (vofs : Int)
    (swap : Bool) :
    ∀ (fs : List PointField) (k : Nat) (pofs : Int) (temp temp1 : List Real),
      unpackProperties host pc sc vofs swap fs k pofs temp = .ok temp1 →
      temp1.length = temp.length := by
  intro fs
  induction fs with
  | nil => intro k pofs temp temp1 h; simp [unpackProperties] at h; simp [h]
  | cons f fs ih =>
    intro k pofs temp temp1 h
    rw [unpackProperties] at h
    split at h
    · exact ih _ _ _ _ h
    · split at h
      · cases h
      · rename_i temp2 hu
        rw [ih _ _ _ _ h, UNPACK_length hu]

theorem decodeRecord_sized {host : Host} {pc : PointCloud2} {sc : FieldScan} {swap : Bool}
    {vofs : Int} {st st1 : DecodeState} {n : Nat}
    (h : decodeRecord host pc sc swap vofs st = .ok st1) (hs : st.Sized n) : st1.Sized n := by
  unfold decodeRecord at h
  cases hx : unpackCoordinate host pc sc.xfield vofs st.pt.x swap with
  | error e => simp [hx] at h
  | ok x =>
  cases hy : unpackCoordinate host pc sc.yfield vofs st.pt.y swap with
  | error e => simp [hx, hy] at h
  | ok y =>
  cases hz : unpackCoordinate host pc sc.zfield vofs st.pt.z swap with
  | error e => simp [hx, hy, hz] at h
  | ok z =>
  simp only [hx, hy, hz] at h
  by_cases hf : (IsFinite x && IsFinite y && IsFinite z) = true
  · simp only [hf, if_true] at h
    cases h1 : unpackRgb host pc sc vofs st.propertyTemp swap with
    | error e => simp [h1] at h
    | ok t1 =>
    simp only [h1] at h
    cases h2 : unpackProperties host pc sc vofs swap pc.fields 0 0 t1 with
    | error e => simp [h2] at h
    | ok t2 =>
    simp only [h2] at h
    cases h
    obtain ⟨ha, hb, hc⟩ := hs
    have hl : t2.length = n := by
      rw [unpackProperties_length _ _ _ _ _ _ _ _ _ _ h2, unpackRgb_length h1, hb]
    refine ⟨by simp [ha], hl, ?_⟩
    intro v hv
    simp only [List.mem_append, List.mem_singleton] at hv
    rcases hv with hv | hv
    · exact hc v hv
    · rw [hv, hl]
  · simp only [hf] at h
    cases h
    exact hs

theorem decodeRow_sized (host : Host) (pc : PointCloud2) (sc : FieldScan) (swap : Bool) (m : Nat) :
    ∀ (n : Nat) (vofs : Int) (st st1 : DecodeState),
      decodeRow host pc sc swap n vofs st = .ok st1 → st.Sized m → st1.Sized m := by
  intro n
  induction n with
  | zero => intro vofs st st1 h hs; simp [decodeRow] at h; rw [← h]; exact hs
  | succ n ih =>
    intro vofs st st1 h hs
    rw [decodeRow] at h
    split at h
    · cases h
    · rename_i st2 h2
      exact ih _ _ _ h (decodeRecord_sized h2 hs)

theorem decodeRows_sized (host : Host) (pc : PointCloud2) (sc : FieldScan) (swap : Bool) (m : Nat) :
    ∀ (n : Nat) (ofs : Int) (st st1 : DecodeState),
      decodeRows host pc sc swap n ofs st = .ok st1 → st.Sized m → st1.Sized m := by
  intro n
  induction n with
  | zero => intro ofs st st1 h hs; simp [decodeRows] at h; rw [← h]; exact hs
  | succ n ih =>
    intro ofs st st1 h hs
    rw [decodeRows] at h
    split at h
    · cases h
    · rename_i st2 h2
      exact ih _ _ _ h (decodeRow_sized _ _ _ _ _ _ _ _ _ h2 hs)

/-! ### Totality of the element decoder -/

theorem elementBytes_ne_zero {dt : Nat} (h : elementBytes dt ≠ 0) :
    dt = 1 ∨ dt = 2 ∨ dt = 3 ∨ dt = 4 ∨ dt = 5 ∨ dt = 6 ∨ dt = 7 ∨ dt = 8 := by
  unfold elementBytes at h
  simp only [PointField.INT8, PointField.UINT8, PointField.INT16, PointField.UINT16,
    PointField.INT32, PointField.UINT32, PointField.FLOAT32, PointField.FLOAT64] at h
  by_contra hc
  simp only [not_or] at hc
  obtain ⟨h1, h2, h3, h4, h5, h6, h7, h8⟩ := hc
  simp [h1, h2, h3, h4, h5, h6, h7, h8] at h

theorem readBytes_ok {data : List UInt8} {p : Int} {n : Nat} (h0 : 0 ≤ p)
    (h1 : p + n ≤ data.length) : ∃ bs, readBytes data p n = .ok bs := by
  unfold readBytes
  have : p.toNat + n ≤ data.length := by omega
  simp [h0, this]

theorem readBytes_error {data : List UInt8} {p : Int} {n : Nat} {e : Fault}
    (h : readBytes data p n = .error e) : e = .readOutOfBounds := by
  unfold readBytes at h
  split at h
  · cases h
  · cases h; rfl

theorem load_ok (host : Host) (t : CType) (data : List UInt8) (p : Int) (h0 : 0 ≤ p)
    (h1 : p + (t.bits / 8 : Nat) ≤ data.length) : ∃ v, load host t data p = .ok v := by
  obtain ⟨bs, hbs⟩ := readBytes_ok h0 h1
  simp [load, hbs]

theorem load_error {host : Host} {t : CType} {data : List UInt8} {p : Int} {e : Fault}
    (h : load host t data p = .error e) : e = .readOutOfBounds := by
  unfold load at h
  cases hb : readBytes data p (t.bits / 8) with
  | error e1 => simp [hb] at h; rw [← h]; exact readBytes_error hb
  | ok bs => simp [hb] at h

theorem Host.char_bits (host : Host) : host.char.bits = 8 := by
  unfold Host.char; cases host.charSigned <;> rfl

theorem elementBytes_eq_zero {dt : Nat} (h : elementBytes dt = 0) :
    dt ≠ 1 ∧ dt ≠ 2 ∧ dt ≠ 3 ∧ dt ≠ 4 ∧ dt ≠ 5 ∧ dt ≠ 6 ∧ dt ≠ 7 ∧ dt ≠ 8 := by
  refine ⟨?_, ?_, ?_, ?_, ?_, ?_, ?_, ?_⟩ <;> intro hc <;> subst hc <;> revert h <;> decide

theorem UNPACK.value_none {host : Host} {dt : Nat} {data : List UInt8} {p : Int} {swap : Bool}
    (h : elementBytes dt = 0) : UNPACK.value host dt data p swap = .ok none := by
  obtain ⟨h1, h2, h3, h4, h5, h6, h7, h8⟩ := elementBytes_eq_zero h
  simp [UNPACK.value, PointField.INT8, PointField.UINT8, PointField.INT16, PointField.UINT16,
    PointField.INT32, PointField.UINT32, PointField.FLOAT32, PointField.FLOAT64,
    h1, h2, h3, h4, h5, h6, h7, h8]

theorem UNPACK.value_some (host : Host) {dt : Nat} {data : List UInt8} {p : Int} (swap : Bool)
    (h : elementBytes dt ≠ 0) (h0 : 0 ≤ p) (h1 : p + elementBytes dt ≤ data.length) :
    ∃ v, UNPACK.value host dt data p swap = .ok (some v) := by
  rcases elementBytes_ne_zero h with h | h | h | h | h | h | h | h <;> subst h
  · obtain ⟨v, hv⟩ := load_ok host host.char data p h0 (by rw [Host.char_bits]; exact h1)
    simp [UNPACK.value, PointField.INT8, hv]
  · obtain ⟨v, hv⟩ := load_ok host .uchar data p h0 h1
    simp [UNPACK.value, PointField.INT8, PointField.UINT8, hv]
  · obtain ⟨v, hv⟩ := load_ok host .short data p h0 h1
    simp [UNPACK.value, PointField.INT8, PointField.UINT8, PointField.INT16, hv]
  · obtain ⟨v, hv⟩ := load_ok host .ushort data p h0 h1
    simp [UNPACK.value, PointField.INT8, PointField.UINT8, PointField.INT16,
      PointField.UINT16, hv]
  · obtain ⟨v, hv⟩ := load_ok host .int data p h0 h1
    simp [UNPACK.value, PointField.INT8, PointField.UINT8, PointField.INT16,
      PointField.UINT16, PointField.INT32, hv]
  · obtain ⟨v, hv⟩ := load_ok host .uint data p h0 h1
    simp [UNPACK.value, PointField.INT8, PointField.UINT8, PointField.INT16,
      PointField.UINT16, PointField.INT32, PointField.UINT32, hv]
  · obtain ⟨v, hv⟩ := load_ok host .int data p h0 h1
    simp [UNPACK.value, PointField.INT8, PointField.UINT8, PointField.INT16,
      PointField.UINT16, PointField.INT32, PointField.UINT32, PointField.FLOAT32, hv]
  · obtain ⟨v, hv⟩ := load_ok host .long data p h0 h1
    simp [UNPACK.value, PointField.INT8, PointField.UINT8, PointField.INT16,
      PointField.UINT16, PointField.INT32, PointField.UINT32, PointField.FLOAT32,
      PointField.FLOAT64, hv]

theorem UNPACK.value_ne_none {host : Host} {dt : Nat} {data : List UInt8} {p : Int}
    {swap : Bool} (h : elementBytes dt ≠ 0) : UNPACK.value host dt data p swap ≠ .ok none := by
  rcases elementBytes_ne_zero h with h | h | h | h | h | h | h | h <;> subst h
  · simp only [UNPACK.value, PointField.INT8]
    cases load host host.char data p <;> simp
  · simp only [UNPACK.value, PointField.INT8, PointField.UINT8]
    cases load host .uchar data p <;> simp
  · simp only [UNPACK.value, PointField.INT8, PointField.UINT8, PointField.INT16]
    cases load host .short data p <;> simp
  · simp only [UNPACK.value, PointField.INT8, PointField.UINT8, PointField.INT16,
      PointField.UINT16]
    cases load host .ushort data p <;> simp
  · simp only [UNPACK.value, PointField.INT8, PointField.UINT8, PointField.INT16,
      PointField.UINT16, PointField.INT32]
    cases load host .int data p <;> simp
  · simp only [UNPACK.value, PointField.INT8, PointField.UINT8, PointField.INT16,
      PointField.UINT16, PointField.INT32, PointField.UINT32]
    cases load host .uint data p <;> simp
  · simp only [UNPACK.value, PointField.INT8, PointField.UINT8, PointField.INT16,
      PointField.UINT16, PointField.INT32, PointField.UINT32, PointField.FLOAT32]
    cases load host .int data p <;> simp
  · simp only [UNPACK.value, PointField.INT8, PointField.UINT8, PointField.INT16,
      PointField.UINT16, PointField.INT32, PointField.UINT32, PointField.FLOAT32,
      PointField.FLOAT64]
    cases load host .long data p <;> simp


/-! ### Totality of `UNPACK` -/

theorem store_ok (out : List Real) (i : Int) (v : Real) (h0 : 0 ≤ i) (h1 : i < out.length) :
    ∃ out1, store out i v = .ok out1 := by
  unfold store
  have : i.toNat < out.length := by omega
  simp [h0, this]

theorem UNPACK.loop_ok (host : Host) (field : PointField) (data : List UInt8) (swap : Bool)
    (stride start : Int) :
    ∀ (n i : Nat) (p : Int) (out : List Real),
      (elementBytes field.datatype = 0 ∨
        ∀ j < n, 0 ≤ p + j * stride ∧
          p + j * stride + elementBytes field.datatype ≤ data.length) →
      (elementBytes field.datatype = 0 ∨ (0 ≤ start + i ∧ start + i + n ≤ out.length)) →
      ∃ out1, UNPACK.loop host field data swap stride start n i p out = .ok out1 := by
  intro n
  induction n with
  | zero => intro i p out _ _; exact ⟨out, rfl⟩
  | succ n ih =>
    intro i p out hr hw
    rw [UNPACK.loop]
    by_cases hz : elementBytes field.datatype = 0
    · rw [UNPACK.value_none hz]
      exact ih _ _ _ (Or.inl hz) (Or.inl hz)
    · have hr1 := hr.resolve_left hz
      have hw1 := hw.resolve_left hz
      have h0 := hr1 0 (Nat.succ_pos n)
      simp only [Nat.cast_zero, zero_mul, add_zero] at h0
      obtain ⟨v, hv⟩ := UNPACK.value_some host swap hz h0.1 h0.2
      rw [hv]
      obtain ⟨out1, ho⟩ := store_ok out (start + i) v hw1.1 (by omega)
      simp only [ho]
      apply ih
      · right
        intro j hj
        have := hr1 (j + 1) (Nat.succ_lt_succ hj)
        have e : p + stride + (j : Int) * stride = p + ((j + 1 : Nat) : Int) * stride := by
          push_cast; ring
        rw [e]; exact this
      · right
        rw [store_length ho]
        push_cast
        omega

theorem UNPACK_ok (host : Host) (field : PointField) (data : List UInt8) (base : Int)
    (out : List Real) (start : Int) (swap : Bool)
    (hr : ReadsInside host field data.length base)
    (hw : elementBytes field.datatype = 0 ∨ (0 ≤ start ∧ start + field.count ≤ out.length)) :
    ∃ out1, UNPACK host field data base out start swap = .ok out1 := by
  unfold UNPACK
  apply UNPACK.loop_ok
  · rcases hr with hr | hr
    · exact Or.inl hr
    · right
      intro j hj
      exact hr j hj
  · rcases hw with hw | hw
    · exact Or.inl hw
    · right; simpa using hw

theorem UNPACK_single {host : Host} {f : PointField} {data : List UInt8} {base : Int}
    {c : Real} {swap : Bool} (hc : f.count = 1) :
    UNPACK host f data base [c] 0 swap =
      match UNPACK.value host f.datatype data (base + f.offset) swap with
      | .error e => .error e
      | .ok none => .ok [c]
      | .ok (some v) => .ok [v] := by
  unfold UNPACK
  rw [hc]
  simp only [UNPACK.loop]
  cases UNPACK.value host f.datatype data (base + f.offset) swap with
  | error e => rfl
  | ok o =>
    cases o with
    | none => rfl
    | some v => simp [store]


/-! ### The scan of the fields -/

theorem toInt32_of_lt {v : Int} (h0 : 0 ≤ v) (h1 : v < 2 ^ 31) : toInt32 v = v := by
  unfold toInt32
  omega

theorem expandedNames_length (f : PointField) : (expandedNames f).length = f.count := by
  unfold expandedNames
  split
  · rename_i h; simp [h]
  · simp

theorem decodedCount_append (fm : List Int) (f : PointField) :
    ∀ (pre : List PointField) (k : Nat),
      decodedCount fm (pre ++ [f]) k =
        decodedCount fm pre k + (if fm.getD (k + pre.length) (-1) < 0 then 0 else f.count) := by
  intro pre
  induction pre with
  | nil => intro k; simp [decodedCount]
  | cons g pre ih =>
    intro k
    show decodedCount fm (g :: (pre ++ [f])) k = _
    rw [decodedCount, decodedCount, ih, List.length_cons]
    have : k + 1 + pre.length = k + (pre.length + 1) := by omega
    rw [this]; omega

theorem getD_set_ne (fm : List Int) {i k : Nat} (v : Int) (h : i ≠ k) :
    (fm.set i v).getD k (-1) = fm.getD k (-1) := by
  simp [List.getD_eq_getElem?_getD, List.getElem?_set_ne h]

theorem getD_set_neg_one (fm : List Int) (i : Nat) : (fm.set i (-1)).getD i (-1) = -1 := by
  by_cases h : i < fm.length
  · simp [List.getD_eq_getElem?_getD, List.getElem?_set_self, h]
  · have : (fm.set i (-1))[i]? = none := by
      rw [List.getElem?_eq_none_iff]; simp; omega
    simp [List.getD_eq_getElem?_getD, this]

theorem decodedCount_set (fm : List Int) (i : Nat) (v : Int) :
    ∀ (pre : List PointField) (k : Nat), k + pre.length ≤ i →
      decodedCount (fm.set i v) pre k = decodedCount fm pre k := by
  intro pre
  induction pre with
  | nil => intro k _; rfl
  | cons g pre ih =>
    intro k hk
    simp only [List.length_cons] at hk
    simp only [decodedCount]
    rw [ih (k + 1) (by omega), getD_set_ne fm v (by omega : i ≠ k)]


theorem getElem?_append_some {pre : List PointField} {g : PointField} {i : Nat}
    (f : PointField) (h : pre[i]? = some g) : (pre ++ [f])[i]? = some g := by
  have hi : i < pre.length := by
    by_contra hc
    rw [List.getElem?_eq_none (by omega)] at h
    cases h
  rw [List.getElem?_append_left hi]
  exact h

theorem coordInv_init (name : String) : CoordInv name [] (-1) := by
  constructor
  · intro f hf; simp at hf
  · intro h; omega

theorem CoordInv.hit (name : String) (pre : List PointField) (f : PointField)
    (hname : f.name = name) (hc : f.count = 1) (hlen : pre.length < 2 ^ 31) :
    CoordInv name (pre ++ [f]) (toInt32 pre.length) := by
  have hi : toInt32 (pre.length : Int) = pre.length :=
    toInt32_of_lt (by omega) (by exact_mod_cast hlen)
  rw [hi]
  have hget : (pre ++ [f])[((pre.length : Int)).toNat]? = some f := by
    simp
  constructor
  · intro g hg
    rw [List.filter_append] at hg
    simp [hname] at hg
    subst hg
    exact ⟨by omega, hget⟩
  · intro _
    exact ⟨f, hget, hc⟩

theorem CoordInv.miss {name : String} {pre : List PointField} {idx : Int}
    (h : CoordInv name pre idx) (f : PointField) (hname : f.name ≠ name) :
    CoordInv name (pre ++ [f]) idx := by
  constructor
  · intro g hg
    have hfilt : ((pre ++ [f]).filter fun g => g.name = name)
        = (pre.filter fun g => g.name = name) := by
      simp [List.filter_append, hname]
    rw [hfilt] at hg
    obtain ⟨h0, h1⟩ := h.1 g hg
    exact ⟨h0, getElem?_append_some f h1⟩
  · intro h0
    obtain ⟨g, hg, hc⟩ := h.2 h0
    exact ⟨g, getElem?_append_some f hg, hc⟩

theorem sum_count_append (pre : List PointField) (f : PointField) :
    ((pre ++ [f]).map fun g => g.count).sum = (pre.map fun g => g.count).sum + f.count := by
  simp


theorem ScanInv.rgb_append {pre : List PointField} {s : FieldScan} (inv : ScanInv pre s)
    (f : PointField) (extra : Nat) (h : 0 ≤ s.rgbfloat_field) :
    (∃ g, (pre ++ [f])[s.rgbfloat_field.toNat]? = some g ∧ g.isRgbFloat ∧ g.count = 1) ∧
      0 ≤ s.rgbproperty ∧ s.rgbproperty < (s.propertyNames.length + extra : Nat) := by
  obtain ⟨⟨g, hg, hr, hc⟩, h1, h2⟩ := inv.rgb h
  exact ⟨⟨g, getElem?_append_some f hg, hr, hc⟩, h1, by push_cast; omega⟩

theorem scanField_ok {pre : List PointField} {s : FieldScan} (f : PointField)
    (inv : ScanInv pre s) (hlen : pre.length < 2 ^ 31)
    (hsum : ((pre ++ [f]).map fun g => g.count).sum < 2 ^ 31)
    (hassert : f.isCoordinate ∨ f.isRgbFloat → f.count = 1) :
    ∃ s1, scanField s pre.length f = .ok s1 ∧ ScanInv (pre ++ [f]) s1 := by
  have hsum1 := sum_count_append pre f
  have hrest0 : s.fieldmap.getD pre.length (-1) = -1 := inv.rest _ (le_refl _)
  have hnames := inv.names
  have hdec0 : decodedCount s.fieldmap (pre ++ [f]) 0 = decodedCount s.fieldmap pre 0 := by
    rw [decodedCount_append, Nat.zero_add, hrest0]; simp
  have hrest1 : ∀ k, (pre ++ [f]).length ≤ k → s.fieldmap.getD k (-1) = -1 := by
    intro k hk
    apply inv.rest
    simp only [List.length_append, List.length_singleton] at hk
    omega
  unfold scanField
  by_cases hx : f.name = "x"
  · have hc : f.count = 1 := hassert (Or.inl (Or.inl hx))
    simp only [hx, if_true, hc]
    refine ⟨_, rfl, ?_⟩
    exact
      { x := CoordInv.hit "x" pre f hx hc hlen
        y := inv.y.miss f (by rw [hx]; decide)
        z := inv.z.miss f (by rw [hx]; decide)
        rgb := fun h => by simpa using inv.rgb_append f 0 h
        names := by rw [hsum1]; exact le_trans hnames (Nat.le_add_right _ _)
        decoded := by rw [hdec0]; exact inv.decoded
        rest := hrest1 }
  by_cases hy : f.name = "y"
  · have hc : f.count = 1 := hassert (Or.inl (Or.inr (Or.inl hy)))
    simp only [hy, if_true, hc]
    refine ⟨_, rfl, ?_⟩
    exact
      { x := inv.x.miss f (by rw [hy]; decide)
        y := CoordInv.hit "y" pre f hy hc hlen
        z := inv.z.miss f (by rw [hy]; decide)
        rgb := fun h => by simpa using inv.rgb_append f 0 h
        names := by rw [hsum1]; exact le_trans hnames (Nat.le_add_right _ _)
        decoded := by rw [hdec0]; exact inv.decoded
        rest := hrest1 }
  by_cases hz : f.name = "z"
  · have hc : f.count = 1 := hassert (Or.inl (Or.inr (Or.inr hz)))
    simp only [hz, if_true, hc]
    refine ⟨_, rfl, ?_⟩
    exact
      { x := inv.x.miss f (by rw [hz]; decide)
        y := inv.y.miss f (by rw [hz]; decide)
        z := CoordInv.hit "z" pre f hz hc hlen
        rgb := fun h => by simpa using inv.rgb_append f 0 h
        names := by rw [hsum1]; exact le_trans hnames (Nat.le_add_right _ _)
        decoded := by rw [hdec0]; exact inv.decoded
        rest := hrest1 }
  have hn31 : (s.propertyNames.length : Int) < 2 ^ 31 := by
    have : s.propertyNames.length < 2 ^ 31 := by omega
    exact_mod_cast this
  have hidx : toInt32 (pre.length : Int) = pre.length :=
    toInt32_of_lt (by omega) (by exact_mod_cast hlen)
  have hnidx : toInt32 (s.propertyNames.length : Int) = s.propertyNames.length :=
    toInt32_of_lt (by omega) hn31
  simp only [hx, hy, hz, if_false]
  by_cases hr : (f.name = "rgb" ∨ f.name = "rgba") ∧ f.datatype = PointField.FLOAT32
  · have hc : f.count = 1 := hassert (Or.inr hr)
    simp only [hr, and_self, if_true, hc]
    refine ⟨_, rfl, ?_⟩
    exact
      { x := inv.x.miss f hx
        y := inv.y.miss f hy
        z := inv.z.miss f hz
        rgb := fun _ => by
          refine ⟨⟨f, ?_, hr, hc⟩, ?_, ?_⟩
          · show (pre ++ [f])[(toInt32 (pre.length : Int)).toNat]? = some f
            rw [hidx]; simp
          · show 0 ≤ toInt32 (s.propertyNames.length : Int)
            rw [hnidx]; omega
          · show toInt32 (s.propertyNames.length : Int)
              < ((s.propertyNames ++ expandedNames f).length : Nat)
            rw [hnidx, List.length_append, expandedNames_length, hc]; push_cast; omega
        names := by
          show (s.propertyNames ++ expandedNames f).length ≤ _
          rw [List.length_append, expandedNames_length, hsum1]; omega
        decoded := by
          show decodedCount ((s.fieldmap.set pre.length _).set pre.length (-1)) (pre ++ [f]) 0
            ≤ (s.propertyNames ++ expandedNames f).length
          rw [decodedCount_append, decodedCount_set _ _ _ _ _ (by omega),
            decodedCount_set _ _ _ _ _ (by omega), Nat.zero_add, getD_set_neg_one,
            List.length_append]
          have := inv.decoded
          simp; omega
        rest := fun k hk => by
          show ((s.fieldmap.set pre.length _).set pre.length (-1)).getD k (-1) = -1
          simp only [List.length_append, List.length_singleton] at hk
          rw [getD_set_ne _ _ (by omega), getD_set_ne _ _ (by omega)]
          exact inv.rest k (by omega) }
  · simp only [hr, if_false]
    refine ⟨_, rfl, ?_⟩
    exact
      { x := inv.x.miss f hx
        y := inv.y.miss f hy
        z := inv.z.miss f hz
        rgb := fun h => by
          have := inv.rgb_append f (expandedNames f).length h
          rw [← List.length_append] at this
          exact this
        names := by
          show (s.propertyNames ++ expandedNames f).length ≤ _
          rw [List.length_append, expandedNames_length, hsum1]; omega
        decoded := by
          show decodedCount (s.fieldmap.set pre.length _) (pre ++ [f]) 0
            ≤ (s.propertyNames ++ expandedNames f).length
          rw [decodedCount_append, decodedCount_set _ _ _ _ _ (by omega),
            List.length_append, expandedNames_length]
          have := inv.decoded
          split <;> omega
        rest := fun k hk => by
          show (s.fieldmap.set pre.length _).getD k (-1) = -1
          simp only [List.length_append, List.length_singleton] at hk
          rw [getD_set_ne _ _ (by omega)]
          exact inv.rest k (by omega) }


theorem sum_count_le_append (pre fs : List PointField) :
    (pre.map fun g => g.count).sum ≤ ((pre ++ fs).map fun g => g.count).sum := by
  simp

theorem scanFields_ok :
    ∀ (fs pre : List PointField) (s : FieldScan), ScanInv pre s →
      (pre ++ fs).length < 2 ^ 31 → ((pre ++ fs).map fun g => g.count).sum < 2 ^ 31 →
      (∀ f ∈ fs, f.isCoordinate ∨ f.isRgbFloat → f.count = 1) →
      ∃ s1, scanFields fs pre.length s = .ok s1 ∧ ScanInv (pre ++ fs) s1 := by
  intro fs
  induction fs with
  | nil =>
    intro pre s inv _ _ _
    exact ⟨s, rfl, by simpa using inv⟩
  | cons f fs ih =>
    intro pre s inv hlen hsum hassert
    have e : pre ++ f :: fs = (pre ++ [f]) ++ fs := by simp
    rw [e] at hlen hsum
    obtain ⟨s1, h1, inv1⟩ := scanField_ok f inv
      (by simp only [List.length_append, List.length_singleton] at hlen; omega)
      (lt_of_le_of_lt (sum_count_le_append _ _) hsum)
      (hassert f (List.mem_cons_self _ _))
    obtain ⟨s2, h2, inv2⟩ := ih (pre ++ [f]) s1 inv1 hlen hsum
      (fun g hg => hassert g (List.mem_cons_of_mem _ hg))
    refine ⟨s2, ?_, by rw [e]; exact inv2⟩
    rw [scanFields, h1]
    simpa using h2

theorem scanInv_init (pc : PointCloud2) (kpc : PointCloud3D) :
    ScanInv [] (FieldScan.init pc kpc) where
  x := coordInv_init "x"
  y := coordInv_init "y"
  z := coordInv_init "z"
  rgb := fun h => by simp [FieldScan.init] at h
  names := by simp [FieldScan.init]
  decoded := by simp [FieldScan.init, decodedCount]
  rest := fun k _ => by
    simp only [FieldScan.init, List.getD_eq_getElem?_getD]
    by_cases h : k < pc.fields.length
    · simp [h]
    · rw [List.getElem?_eq_none (by simpa using h)]; rfl

/-- The scan of an accepted message succeeds, and its result satisfies the invariants. -/
theorem scan_ok (pc : PointCloud2) (kpc : PointCloud3D)
    (hassert : ∀ f ∈ pc.fields, f.isCoordinate ∨ f.isRgbFloat → f.count = 1)
    (hlen : pc.fields.length < 2 ^ 31)
    (hsum : (pc.fields.map fun g => g.count).sum < 2 ^ 31) :
    ∃ sc, scanFields pc.fields 0 (FieldScan.init pc kpc) = .ok sc ∧ ScanInv pc.fields sc := by
  simpa using scanFields_ok pc.fields [] (FieldScan.init pc kpc) (scanInv_init pc kpc)
    (by simpa using hlen) (by simpa using hsum) hassert


/-! ### One record: no fault -/

theorem mem_of_getElem?_some {l : List PointField} {i : Nat} {f : PointField}
    (h : l[i]? = some f) : f ∈ l := by
  rw [List.getElem?_eq_some_iff] at h
  obtain ⟨hi, hf⟩ := h
  rw [← hf]
  exact List.getElem_mem hi

theorem unpackCoordinate_ok {host : Host} {pc : PointCloud2} {idx : Int} {name : String}
    (inv : CoordInv name pc.fields idx) {vofs : Int} (c : Real) (swap : Bool)
    (hin : ∀ f ∈ pc.fields, ReadsInside host f pc.data.length vofs) :
    ∃ v, unpackCoordinate host pc idx vofs c swap = .ok v := by
  unfold unpackCoordinate
  by_cases h0 : 0 ≤ idx
  · obtain ⟨f, hf, hc⟩ := inv.2 h0
    obtain ⟨out1, ho⟩ := UNPACK_ok host f pc.data vofs [c] 0 swap
      (hin f (mem_of_getElem?_some hf))
      (Or.inr ⟨le_refl _, by simp [hc]⟩)
    simp [h0, hf, ho]
  · simp [h0]

theorem unpackRgb_ok {host : Host} {pc : PointCloud2} {sc : FieldScan}
    (inv : ScanInv pc.fields sc) {vofs : Int} {temp : List Real} (swap : Bool)
    (hlen : temp.length = sc.propertyNames.length)
    (hin : ∀ f ∈ pc.fields, ReadsInside host f pc.data.length vofs) :
    ∃ t1, unpackRgb host pc sc vofs temp swap = .ok t1 := by
  unfold unpackRgb
  by_cases h0 : 0 ≤ sc.rgbfloat_field
  · obtain ⟨⟨f, hf, hr, hc⟩, hp0, hp1⟩ := inv.rgb h0
    have hread := hin f (mem_of_getElem?_some hf)
    have hdt : f.datatype = 7 := hr.2
    unfold ReadsInside at hread
    rw [hdt, hc] at hread
    have hb : elementBytes 7 = 4 := by decide
    rw [hb] at hread
    have h1 := hread.resolve_left (by decide) 0 (by decide)
    simp only [Nat.cast_zero, zero_mul, add_zero] at h1
    obtain ⟨v, hv⟩ := load_ok host .uint pc.data (vofs + f.offset) h1.1
      (by simpa [CType.bits] using h1.2)
    obtain ⟨t1, ht⟩ := store_ok temp sc.rgbproperty
      (Real.ofInt ((Swap4If v swap).cast .uint).val) hp0 (by rw [hlen]; exact hp1)
    simp only [h0, if_true, hf, hv]
    exact ⟨t1, ht⟩
  · simp [h0]

theorem unpackProperties_ok (host : Host) (pc : PointCloud2) (sc : FieldScan) (vofs : Int)
    (swap : Bool) :
    ∀ (fs : List PointField) (k : Nat) (pofs : Int) (temp : List Real),
      (∀ f ∈ fs, ReadsInside host f pc.data.length vofs) → 0 ≤ pofs →
      pofs + decodedCount sc.fieldmap fs k ≤ temp.length → temp.length < 2 ^ 31 →
      ∃ t1, unpackProperties host pc sc vofs swap fs k pofs temp = .ok t1 := by
  intro fs
  induction fs with
  | nil => intro k pofs temp _ _ _ _; exact ⟨temp, rfl⟩
  | cons f fs ih =>
    intro k pofs temp hin h0 hle hlt
    rw [unpackProperties]
    rw [decodedCount] at hle
    by_cases hm : sc.fieldmap.getD k (-1) < 0
    · simp only [hm, if_true] at hle ⊢
      exact ih _ _ _ (fun g hg => hin g (List.mem_cons_of_mem _ hg)) h0
        (by simpa using hle) hlt
    · simp only [hm, if_false] at hle ⊢
      push_cast at hle
      obtain ⟨t1, ht⟩ := UNPACK_ok host f pc.data vofs temp pofs swap
        (hin f (List.mem_cons_self _ _))
        (Or.inr ⟨h0, by omega⟩)
      simp only [ht]
      have hl := UNPACK_length ht
      have hw : toInt32 (pofs + f.count) = pofs + f.count :=
        toInt32_of_lt (by omega) (by
          have : (temp.length : Int) < 2 ^ 31 := by exact_mod_cast hlt
          omega)
      rw [hw]
      exact ih _ _ _ (fun g hg => hin g (List.mem_cons_of_mem _ hg)) (by omega)
        (by rw [hl]; omega) (by rw [hl]; exact hlt)

theorem decodeRecord_ok {host : Host} {pc : PointCloud2} {sc : FieldScan}
    (inv : ScanInv pc.fields sc) (swap : Bool) {vofs : Int} (st : DecodeState)
    (hlen : st.propertyTemp.length = sc.propertyNames.length)
    (hsum : (pc.fields.map fun g => g.count).sum < 2 ^ 31)
    (hin : ∀ f ∈ pc.fields, ReadsInside host f pc.data.length vofs) :
    ∃ st1, decodeRecord host pc sc swap vofs st = .ok st1 := by
  unfold decodeRecord
  obtain ⟨x, hx⟩ := unpackCoordinate_ok inv.x st.pt.x swap hin
  obtain ⟨y, hy⟩ := unpackCoordinate_ok inv.y st.pt.y swap hin
  obtain ⟨z, hz⟩ := unpackCoordinate_ok inv.z st.pt.z swap hin
  simp only [hx, hy, hz]
  by_cases hf : (IsFinite x && IsFinite y && IsFinite z) = true
  · obtain ⟨t1, h1⟩ := unpackRgb_ok inv swap hlen hin
    have hl1 := unpackRgb_length h1
    have hn := inv.names
    obtain ⟨t2, h2⟩ := unpackProperties_ok host pc sc vofs swap pc.fields 0 0 t1 hin
      (le_refl _) (by have := inv.decoded; rw [hl1, hlen]; omega)
      (by rw [hl1, hlen]; omega)
    simp only [hf, if_true, h1, h2]
    exact ⟨_, rfl⟩
  · simp only [hf]
    exact ⟨_, rfl⟩


/-! ### One record: the point it contributes -/

theorem coordinateField_some {pc : PointCloud2} {name : String}
    (h : ∃ f ∈ pc.fields, f.name = name) :
    ∃ f, coordinateField pc name = some f ∧ f ∈ pc.fields ∧ f.name = name := by
  obtain ⟨g, hg, hn⟩ := h
  unfold coordinateField
  have hne : (pc.fields.filter fun f => f.name = name) ≠ [] := by
    intro hc
    have : g ∈ pc.fields.filter fun f => f.name = name := by
      simp [List.mem_filter, hg, hn]
    rw [hc] at this
    cases this
  refine ⟨(pc.fields.filter fun f => f.name = name).getLast hne,
    List.getLast?_eq_getLast _ hne, ?_⟩
  have hm := List.getLast_mem hne
  rw [List.mem_filter] at hm
  exact ⟨hm.1, by simpa using hm.2⟩

theorem unpackCoordinate_decodeAt {host : Host} {pc : PointCloud2} {idx : Int} {name : String}
    (inv : CoordInv name pc.fields idx) {f : PointField}
    (hf : coordinateField pc name = some f) (hc : f.count = 1)
    (hdt : elementBytes f.datatype ≠ 0) {start : Nat} {c v : Real}
    (h : unpackCoordinate host pc idx start c (host.bigEndian != pc.is_bigendian) = .ok v) :
    decodeAt host pc f start = some v := by
  obtain ⟨h0, hget⟩ := inv.1 f hf
  unfold unpackCoordinate at h
  simp only [h0, if_true, hget, UNPACK_single hc] at h
  unfold decodeAt
  cases hv : UNPACK.value host f.datatype pc.data ((start : Int) + (f.offset : Int))
      (host.bigEndian != pc.is_bigendian) with
  | error e => simp [hv] at h
  | ok o =>
    cases o with
    | none => exact absurd hv (UNPACK.value_ne_none hdt)
    | some w =>
      simp only [hv] at h
      simp only [Except.ok.injEq] at h
      simp at h
      rw [h]

theorem decodeRecord_points {host : Host} {pc : PointCloud2} {sc : FieldScan}
    (inv : ScanInv pc.fields sc) (hco : HasCoordinates pc) {start : Nat}
    {st st1 : DecodeState}
    (h : decodeRecord host pc sc (host.bigEndian != pc.is_bigendian) start st = .ok st1) :
    st1.points = st.points ++ (keptPoint host pc start).toList ∧
      st1.properties.length = st.properties.length + (keptPoint host pc start).toList.length := by
  obtain ⟨hex, hey, hez, hall⟩ := hco
  obtain ⟨fx, hfx, hmx, hnx⟩ := coordinateField_some hex
  obtain ⟨fy, hfy, hmy, hny⟩ := coordinateField_some hey
  obtain ⟨fz, hfz, hmz, hnz⟩ := coordinateField_some hez
  have hx1 := hall fx hmx (Or.inl hnx)
  have hy1 := hall fy hmy (Or.inr (Or.inl hny))
  have hz1 := hall fz hmz (Or.inr (Or.inr hnz))
  unfold decodeRecord at h
  cases hx : unpackCoordinate host pc sc.xfield start st.pt.x
      (host.bigEndian != pc.is_bigendian) with
  | error e => simp [hx] at h
  | ok x =>
  cases hy : unpackCoordinate host pc sc.yfield start st.pt.y
      (host.bigEndian != pc.is_bigendian) with
  | error e => simp [hx, hy] at h
  | ok y =>
  cases hz : unpackCoordinate host pc sc.zfield start st.pt.z
      (host.bigEndian != pc.is_bigendian) with
  | error e => simp [hx, hy, hz] at h
  | ok z =>
  have dx := unpackCoordinate_decodeAt inv.x hfx hx1.1 hx1.2 hx
  have dy := unpackCoordinate_decodeAt inv.y hfy hy1.1 hy1.2 hy
  have dz := unpackCoordinate_decodeAt inv.z hfz hz1.1 hz1.2 hz
  have hrp : recordPoint host pc start = some ⟨x, y, z⟩ := by
    simp [recordPoint, hfx, hfy, hfz, dx, dy, dz]
  simp only [hx, hy, hz] at h
  by_cases hf : (IsFinite x && IsFinite y && IsFinite z) = true
  · have hk : keptPoint host pc start = some ⟨x, y, z⟩ := by
      simp [keptPoint, hrp, Vector3.isFinite, hf]
    simp only [hf, if_true] at h
    cases h1 : unpackRgb host pc sc start st.propertyTemp
        (host.bigEndian != pc.is_bigendian) with
    | error e => simp [h1] at h
    | ok t1 =>
    simp only [h1] at h
    cases h2 : unpackProperties host pc sc start (host.bigEndian != pc.is_bigendian)
        pc.fields 0 0 t1 with
    | error e => simp [h2] at h
    | ok t2 =>
    simp only [h2] at h
    cases h
    simp [hk]
  · have hk : keptPoint host pc start = none := by
      simp [keptPoint, hrp, Vector3.isFinite, hf]
    simp only [hf] at h
    cases h
    simp [hk]


/-! ### The loops over columns and rows -/

theorem toList_append_filterMap {α β : Type} (g : α → Option β) (a : α) (l : List α) :
    (g a).toList ++ l.filterMap g = (a :: l).filterMap g := by
  cases h : g a <;> simp [List.filterMap_cons, h]

theorem decodeRow_spec {host : Host} {pc : PointCloud2} {sc : FieldScan}
    (inv : ScanInv pc.fields sc) (hsum : (pc.fields.map fun g => g.count).sum < 2 ^ 31)
    (ofs : Nat)
    (hin : ∀ c < pc.width, ∀ f ∈ pc.fields,
      ReadsInside host f pc.data.length ((ofs + c * pc.point_step : Nat) : Int))
    (hrange : ofs + pc.width * pc.point_step < 2 ^ 31) :
    ∀ (n j : Nat) (st : DecodeState), j + n = pc.width →
      st.Sized sc.propertyNames.length →
      ∃ st1, decodeRow host pc sc (host.bigEndian != pc.is_bigendian) n
          ((ofs + j * pc.point_step : Nat) : Int) st = .ok st1 ∧
        st1.Sized sc.propertyNames.length ∧
        (HasCoordinates pc →
          st1.points = st.points ++
            ((List.range' j n).map fun c => ofs + c * pc.point_step).filterMap
              (keptPoint host pc)) := by
  intro n
  induction n with
  | zero =>
    intro j st _ hs
    exact ⟨st, rfl, hs, fun _ => by simp⟩
  | succ n ih =>
    intro j st hj hs
    obtain ⟨st1, h1⟩ := decodeRecord_ok inv (host.bigEndian != pc.is_bigendian) st hs.2.1 hsum
      (hin j (by omega))
    have hs1 := decodeRecord_sized h1 hs
    have hle : (j + 1) * pc.point_step ≤ pc.width * pc.point_step :=
      Nat.mul_le_mul_right _ (by omega)
    have hnext : toInt32 (((ofs + j * pc.point_step : Nat) : Int) + (pc.point_step : Int))
        = ((ofs + (j + 1) * pc.point_step : Nat) : Int) := by
      have e : ((ofs + j * pc.point_step : Nat) : Int) + (pc.point_step : Int)
          = ((ofs + (j + 1) * pc.point_step : Nat) : Int) := by
        push_cast; ring
      rw [e]
      apply toInt32_of_lt (by omega)
      have : ofs + (j + 1) * pc.point_step < 2 ^ 31 := by omega
      exact_mod_cast this
    obtain ⟨st2, h2, hs2, hp2⟩ := ih (j + 1) st1 (by omega) hs1
    refine ⟨st2, ?_, hs2, ?_⟩
    · rw [decodeRow, h1]
      simp only [hnext]
      exact h2
    · intro hco
      rw [hp2 hco, (decodeRecord_points inv hco h1).1, List.range'_succ, List.map_cons,
        List.append_assoc, toList_append_filterMap]

theorem decodeRows_spec (host : Host) {pc : PointCloud2} {sc : FieldScan}
    (inv : ScanInv pc.fields sc) (hsum : (pc.fields.map fun g => g.count).sum < 2 ^ 31)
    (hin : ∀ r < pc.height, ∀ c < pc.width, ∀ f ∈ pc.fields,
      ReadsInside host f pc.data.length ((recordStart pc r c : Nat) : Int))
    (hrange : pc.height * pc.row_step + pc.width * pc.point_step < 2 ^ 31) :
    ∀ (n r : Nat) (st : DecodeState), r + n = pc.height →
      st.Sized sc.propertyNames.length →
      ∃ st1, decodeRows host pc sc (host.bigEndian != pc.is_bigendian) n
          ((r * pc.row_step : Nat) : Int) st = .ok st1 ∧
        st1.Sized sc.propertyNames.length ∧
        (HasCoordinates pc →
          st1.points = st.points ++
            ((List.range' r n).flatMap fun r =>
              (List.range pc.width).map fun c => recordStart pc r c).filterMap
              (keptPoint host pc)) := by
  intro n
  induction n with
  | zero =>
    intro r st _ hs
    exact ⟨st, rfl, hs, fun _ => by simp⟩
  | succ n ih =>
    intro r st hr hs
    have hle : (r + 1) * pc.row_step ≤ pc.height * pc.row_step :=
      Nat.mul_le_mul_right _ (by omega)
    have hle0 : r * pc.row_step ≤ (r + 1) * pc.row_step :=
      Nat.mul_le_mul_right _ (by omega)
    obtain ⟨st1, h1, hs1, hp1⟩ := decodeRow_spec inv hsum (r * pc.row_step)
      (fun c hc f hf => hin r (by omega) c hc f hf) (by omega) pc.width 0 st (by omega) hs
    simp only [Nat.zero_mul, Nat.add_zero] at h1
    have hnext : toInt32 (((r * pc.row_step : Nat) : Int) + (pc.row_step : Int))
        = (((r + 1) * pc.row_step : Nat) : Int) := by
      have e : ((r * pc.row_step : Nat) : Int) + (pc.row_step : Int)
          = (((r + 1) * pc.row_step : Nat) : Int) := by
        push_cast; ring
      rw [e]
      apply toInt32_of_lt (by omega)
      have : (r + 1) * pc.row_step < 2 ^ 31 := by omega
      exact_mod_cast this
    obtain ⟨st2, h2, hs2, hp2⟩ := ih (r + 1) st1 (by omega) hs1
    refine ⟨st2, ?_, hs2, ?_⟩
    · rw [decodeRows, h1]
      simp only [hnext]
      exact h2
    · intro hco
      rw [hp2 hco, hp1 hco, List.range'_succ, List.flatMap_cons, List.filterMap_append,
        List.append_assoc, List.range_eq_range']
      rfl


/-! ### The whole decoder -/

theorem mem_recordStarts {pc : PointCloud2} {r c : Nat} (hr : r < pc.height)
    (hc : c < pc.width) : recordStart pc r c ∈ recordStarts pc := by
  unfold recordStarts
  rw [List.mem_flatMap]
  exact ⟨r, List.mem_range.mpr hr, List.mem_map.mpr ⟨c, List.mem_range.mpr hc, rfl⟩⟩

theorem recordStarts_length (pc : PointCloud2) :
    (recordStarts pc).length = pc.width * pc.height := by
  unfold recordStarts
  rw [List.length_flatMap]
  simp [Function.comp_def, Nat.mul_comm]

theorem scanField_error {s : FieldScan} {i : Nat} {f : PointField} {e : Fault}
    (h : scanField s i f = .error e) : e = .assertion := by
  unfold scanField at h
  split_ifs at h <;> cases h <;> rfl

theorem scanFields_error :
    ∀ (fs : List PointField) (i : Nat) (s : FieldScan) (e : Fault),
      scanFields fs i s = .error e → e = .assertion := by
  intro fs
  induction fs with
  | nil => intro i s e h; cases h
  | cons f fs ih =>
    intro i s e h
    rw [scanFields] at h
    cases h1 : scanField s i f with
    | error e1 =>
      simp only [h1] at h
      cases h
      exact scanField_error h1
    | ok s1 =>
      simp only [h1] at h
      exact ih _ _ _ h

theorem scanField_asserts {s s1 : FieldScan} {i : Nat} {f : PointField}
    (h : scanField s i f = .ok s1) : f.isCoordinate ∨ f.isRgbFloat → f.count = 1 := by
  intro hc
  by_contra hne
  unfold scanField at h
  unfold PointField.isCoordinate PointField.isRgbFloat at hc
  by_cases hx : f.name = "x"
  · simp [hx, hne] at h
  by_cases hy : f.name = "y"
  · simp [hy, hne] at h
  by_cases hz : f.name = "z"
  · simp [hz, hne] at h
  rcases hc with hc | hc
  · simp [hx, hy, hz] at hc
  · simp [hx, hy, hz, hc, hne] at h

theorem scanFields_asserts :
    ∀ (fs : List PointField) (i : Nat) (s s1 : FieldScan),
      scanFields fs i s = .ok s1 → ∀ f ∈ fs, f.isCoordinate ∨ f.isRgbFloat → f.count = 1 := by
  intro fs
  induction fs with
  | nil => intro i s s1 _ f hf; cases hf
  | cons g fs ih =>
    intro i s s1 h f hf
    rw [scanFields] at h
    cases h1 : scanField s i g with
    | error e1 => simp [h1] at h
    | ok s2 =>
      simp only [h1] at h
      rcases List.mem_cons.mp hf with hf | hf
      · rw [hf]; exact scanField_asserts h1
      · exact ih _ _ _ h f hf

/-- An accepted message whose records lie inside the buffer is decoded without a fault,
the result satisfies the size invariant, and when the message has coordinate fields
the points are the finite records in row-major order. -/
theorem ROSToKlampt_spec (host : Host) (pc : PointCloud2) (kpc0 : PointCloud3D)
    (ha : PassesAsserts pc) (hr : InIntRange pc) (hin : RecordsInside host pc) :
    ∃ kpc, ROSToKlampt host pc kpc0 = .ok (true, kpc) ∧
      kpc.points.length = kpc.properties.length ∧
      (HasCoordinates pc → kpc.points = finitePoints host pc) := by
  obtain ⟨hlen, hsum, hrange⟩ := hr
  obtain ⟨sc, hsc, inv⟩ := scan_ok pc kpc0 ha.1 hlen hsum
  have hs0 : DecodeState.Sized sc.propertyNames.length
      { pt := ⟨⟨0⟩, ⟨0⟩, ⟨0⟩⟩
        propertyTemp := (List.range sc.propertyNames.length).map host.fresh
        points := kpc0.points.take 0, properties := kpc0.properties.take 0 } :=
    ⟨by simp, by simp, by simp⟩
  obtain ⟨st, hst, hs, hp⟩ := decodeRows_spec host inv hsum
    (fun r hr c hc f hf => hin _ (mem_recordStarts hr hc) f hf) hrange pc.height 0 _
    (by omega) hs0
  simp only [Nat.zero_mul, Nat.cast_zero] at hst
  refine ⟨⟨st.points, sc.propertyNames, st.properties⟩, ?_, hs.1, ?_⟩
  · unfold ROSToKlampt
    simp only [hsc, ha.2, if_true, hst]
  · intro hco
    have := hp hco
    simp only [List.take_zero, List.nil_append] at this
    rw [← List.range_eq_range'] at this
    exact this


/-! ## The claims -/

theorem length_filterMap_eq_countP {α β : Type} (g : α → Option β) (l : List α) :
    (l.filterMap g).length = l.countP fun a => (g a).isSome := by
  induction l with
  | nil => rfl
  | cons a l ih =>
    cases h : g a <;> simp [List.filterMap_cons, List.countP_cons, h, ih]

theorem keptPoint_isSome (host : Host) (pc : PointCloud2) (start : Nat) :
    (keptPoint host pc start).isSome = recordIsFinite host pc start := by
  unfold keptPoint recordIsFinite
  cases recordPoint host pc start with
  | none => rfl
  | some v => cases h : v.isFinite <;> simp [h]

theorem keptPoint_isFinite {host : Host} {pc : PointCloud2} {start : Nat} {v : Vector3}
    (h : keptPoint host pc start = some v) : v.isFinite = true := by
  unfold keptPoint at h
  cases hr : recordPoint host pc start with
  | none => simp [hr] at h
  | some w =>
    simp only [hr] at h
    by_cases hf : w.isFinite = true
    · simp only [hf, if_true, Option.some.injEq] at h
      rw [← h]; exact hf
    · simp [hf] at h

/-- C1. For every message whose fields `x`, `y`, `z` exist with count 1 and a supported
datatype, which passes the assertions, whose sizes are in `int` range and whose buffer
holds every record, `ROSToKlampt` returns `true` and keeps exactly the records with three
finite coordinates: the numbers of output points and of output property vectors both
equal the number of records, among the `width*height` ones, whose decoded `x`, `y`, `z`
are all finite, and every output point is finite. -/
theorem ROSToKlampt_keeps_finite (host : Host) (pc : PointCloud2) (kpc0 : PointCloud3D)
    (hco : HasCoordinates pc) (ha : PassesAsserts pc) (hr : InIntRange pc)
    (hin : RecordsInside host pc) :
    ∃ kpc, ROSToKlampt host pc kpc0 = .ok (true, kpc) ∧
      (recordStarts pc).length = pc.width * pc.height ∧
      kpc.points.length = (recordStarts pc).countP (recordIsFinite host pc) ∧
      kpc.properties.length = (recordStarts pc).countP (recordIsFinite host pc) ∧
      ∀ p ∈ kpc.points, p.isFinite = true := by
  obtain ⟨kpc, hk, hl, hp⟩ := ROSToKlampt_spec host pc kpc0 ha hr hin
  have hpts := hp hco
  have hcount : kpc.points.length = (recordStarts pc).countP (recordIsFinite host pc) := by
    rw [hpts, finitePoints, length_filterMap_eq_countP]
    congr 1
    funext s
    exact keptPoint_isSome host pc s
  refine ⟨kpc, hk, recordStarts_length pc, hcount, by rw [← hl, hcount], ?_⟩
  intro p hp1
  rw [hpts, finitePoints, List.mem_filterMap] at hp1
  obtain ⟨s, _, hs⟩ := hp1
  exact keptPoint_isFinite hs

/-- Witness of C1: the message with records `(1.0, 2.0, 3.0)` and `(NaN, 0, 0)` meets the
hypotheses; one of its two records is finite, and on a little-endian and on a big-endian
host it decodes to the single point `(1.0, 2.0, 3.0)` with an empty property vector. -/
theorem ROSToKlampt_keeps_finite_witness :
    (∃ kpc, ROSToKlampt littleEndianHost twoRecords emptyCloud = .ok (true, kpc) ∧
      (recordStarts twoRecords).length = twoRecords.width * twoRecords.height ∧
      kpc.points.length
        = (recordStarts twoRecords).countP (recordIsFinite littleEndianHost twoRecords) ∧
      kpc.properties.length
        = (recordStarts twoRecords).countP (recordIsFinite littleEndianHost twoRecords) ∧
      ∀ p ∈ kpc.points, p.isFinite = true) ∧
    (recordStarts twoRecords).countP (recordIsFinite littleEndianHost twoRecords) = 1 ∧
    ROSToKlampt littleEndianHost twoRecords emptyCloud
      = .ok (true, { points := [point123], propertyNames := [], properties := [[]] }) ∧
    ROSToKlampt bigEndianHost twoRecords emptyCloud
      = .ok (true, { points := [point123], propertyNames := [], properties := [[]] }) :=
  ⟨ROSToKlampt_keeps_finite littleEndianHost twoRecords emptyCloud (by decide) (by decide)
      (by decide) (by decide), by decide, by decide, by decide⟩

/-- C2 (code at the failing input). With the fields `x, y, z, rgb, i`, the property
named `rgb` has index 0, but the property vector of the kept point holds at index 0
the value 9 of field `i`; the value 1 of the `rgb` bytes is overwritten, and index 1,
the slot of `i`, keeps the content of the freshly allocated vector. -/
theorem ROSToKlampt_rgb_overwritten :
    ROSToKlampt littleEndianHost rgbThenIntensity emptyCloud
      = .ok (true, rgbDecoded) ∧
    rgbDecoded.propertyNames = ["rgb", "i"] ∧
    rgbDecoded.properties = [[Real.ofInt 9, littleEndianHost.fresh 1]] ∧
    Real.ofInt 9 ≠ Real.ofInt 1 := by
  decide

/-- C3 (code at the failing input). For a `UINT8` field (wire code 2) with count 2 at
offset 0 over the bytes 10, 20, 30, `UNPACK` outputs 10 and 30: element 1 is read at
byte `offset + 2`, the stride being `datasizes[2] = 2`, not at `offset + 1`. -/
theorem UNPACK_stride_off_by_one :
    UNPACK littleEndianHost ⟨"a", 0, PointField.UINT8, 2⟩ [10, 20, 30] 0 [⟨0⟩, ⟨0⟩] 0 false
      = .ok [Real.ofInt 10, Real.ofInt 30] ∧
    fieldStride littleEndianHost ⟨"a", 0, PointField.UINT8, 2⟩ = 2 ∧
    elementBytes PointField.UINT8 = 1 ∧
    Real.ofInt 30 ≠ Real.ofInt 20 := by
  decide

/-- C4 (code at the failing input). An `INT32` field whose four bytes are `FF` decodes
to 4294967295 with `swap_bigendian` clear and with it set: `Swap4If` applied to an `int`
has type `unsigned int` and is never negative, whatever the value and the condition.
An `INT16` field whose two bytes are `FF` decodes to 65535 when `swap_bigendian` is set,
because `Swap2Bytes` does not sign-extend. None of the three results is `-1`. -/
theorem UNPACK_signed_as_unsigned :
    UNPACK littleEndianHost ⟨"a", 0, PointField.INT32, 1⟩ [255, 255, 255, 255] 0 [⟨0⟩] 0 false
      = .ok [Real.ofInt 4294967295] ∧
    UNPACK littleEndianHost ⟨"a", 0, PointField.INT32, 1⟩ [255, 255, 255, 255] 0 [⟨0⟩] 0 true
      = .ok [Real.ofInt 4294967295] ∧
    UNPACK littleEndianHost ⟨"a", 0, PointField.INT16, 1⟩ [255, 255] 0 [⟨0⟩] 0 true
      = .ok [Real.ofInt 65535] ∧
    Real.ofInt 4294967295 ≠ Real.ofInt (-1) ∧ Real.ofInt 65535 ≠ Real.ofInt (-1) ∧
    (∀ (v : Int) (c : Bool), (Swap4If ⟨.int, v⟩ c).ty = CType.uint) ∧
    (∀ (v : Int) (c : Bool), 0 ≤ (Swap4If ⟨.int, v⟩ c).val) := by
  refine ⟨by decide, by decide, by decide, by decide, by decide, fun v c => rfl, ?_⟩
  intro v c
  show 0 ≤ CType.wrap CType.uint _
  unfold CType.wrap
  simp only [CType.isSigned]
  exact Int.emod_nonneg _ (by decide)

/-- C5 (code at the failing input). Encoding the cloud with the single point
`(1.0, 2.0, 3.0)` into a default-constructed message and decoding the result does not
give the cloud back: the `y` field of the encoded message has count 0, and the decoder
stops at `Assert(pc.fields[i].count==1)`. -/
theorem roundTrip_fails :
    roundTrip littleEndianHost onePoint = .error .assertion := by
  decide

/-- C6 (code at the failing input). For the cloud without properties, encoded into a
default-constructed message, the descriptors are `x` with datatype `FLOAT32`, count 1
and offset 8, and `y`, `z` with datatype 0, count 0 and offset 0. -/
theorem KlamptToROS_fields_stale :
    KlamptToROS littleEndianHost emptyCloud emptyMessage
      = .ok (true,
          { height := 1, width := 0,
            fields := [⟨"x", 8, PointField.FLOAT32, 1⟩, ⟨"y", 0, 0, 0⟩, ⟨"z", 0, 0, 0⟩],
            is_bigendian := false, point_step := 12, row_step := 0, data := [] }) := by
  decide

theorem recordsInside_of_fit {host : Host} {pc : PointCloud2}
    (hdata : pc.height * pc.row_step ≤ pc.data.length)
    (hw : pc.width * pc.point_step ≤ pc.row_step)
    (hf : ∀ f ∈ pc.fields, ReadsInside host f pc.point_step 0) : RecordsInside host pc := by
  intro start hs f hm
  unfold recordStarts at hs
  rw [List.mem_flatMap] at hs
  obtain ⟨r, hr, hs⟩ := hs
  rw [List.mem_map] at hs
  obtain ⟨c, hc, hs⟩ := hs
  rw [List.mem_range] at hr hc
  rcases hf f hm with h0 | h1
  · exact Or.inl h0
  · right
    intro i hi
    obtain ⟨ha, hb⟩ := h1 i hi
    have h1 : (c + 1) * pc.point_step ≤ pc.width * pc.point_step :=
      Nat.mul_le_mul_right _ (by omega)
    have h2 : (r + 1) * pc.row_step ≤ pc.height * pc.row_step :=
      Nat.mul_le_mul_right _ (by omega)
    have h3 : (c + 1) * pc.point_step = c * pc.point_step + pc.point_step := by ring
    have h4 : (r + 1) * pc.row_step = r * pc.row_step + pc.row_step := by ring
    have hstart : start + pc.point_step ≤ pc.data.length := by
      rw [← hs, recordStart]; omega
    constructor
    · omega
    · omega

/-- When the sizes are in `int` range, `width*point_step <= row_step`, and every element
that `UNPACK` dereferences, at the stride it uses, lies within `point_step` bytes of the
record start, the decoder reads no byte outside the buffer, and a message that passes the
assertions is decoded. -/
theorem ROSToKlampt_reads_at_stride (host : Host) (pc : PointCloud2) (kpc0 : PointCloud3D)
    (hr : InIntRange pc) (hw : pc.width * pc.point_step ≤ pc.row_step)
    (hf : ∀ f ∈ pc.fields, ReadsInside host f pc.point_step 0) :
    ROSToKlampt host pc kpc0 ≠ .error .readOutOfBounds ∧
      (PassesAsserts pc → ∃ kpc, ROSToKlampt host pc kpc0 = .ok (true, kpc)) := by
  have key : PassesAsserts pc → ∃ kpc, ROSToKlampt host pc kpc0 = .ok (true, kpc) := by
    intro ha
    have hd : pc.height * pc.row_step ≤ pc.data.length := by
      have h1 := ha.2
      have h2 := hr.2.2
      rw [Nat.mul_comm] at h1
      rw [Nat.mod_eq_of_lt (by omega)] at h1
      exact h1
    obtain ⟨kpc, hk, _⟩ := ROSToKlampt_spec host pc kpc0 ha hr (recordsInside_of_fit hd hw hf)
    exact ⟨kpc, hk⟩
  refine ⟨?_, key⟩
  intro hc
  cases hs : scanFields pc.fields 0 (FieldScan.init pc kpc0) with
  | error e =>
    have he := scanFields_error _ _ _ _ hs
    unfold ROSToKlampt at hc
    simp only [hs] at hc
    rw [he] at hc
    cases hc
  | ok sc =>
    by_cases hd : (pc.row_step * pc.height) % 2 ^ 32 ≤ pc.data.length
    · obtain ⟨kpc, hk⟩ := key ⟨scanFields_asserts _ _ _ _ hs, hd⟩
      rw [hk] at hc
      cases hc
    · unfold ROSToKlampt at hc
      simp only [hs, hd, if_false] at hc
      cases hc

theorem tableRead_of_lt (host : Host) (f : PointField) (h : f.datatype < 8) :
    UNPACK.tableRead f.datatype = .ok (fieldStride host f) := by
  unfold UNPACK.tableRead fieldStride
  have hl : f.datatype < datasizes.length := h
  rw [List.getD_eq_getElem?_getD, List.getElem?_eq_getElem hl]
  rfl

theorem fieldStride_of_strideIsWidth (host : Host) (f : PointField)
    (h : f.datatype = PointField.INT8 ∨ f.datatype = PointField.INT16 ∨
      f.datatype = PointField.INT32 ∨ f.datatype = PointField.UINT32) :
    fieldStride host f = (elementBytes f.datatype : Int) := by
  unfold fieldStride
  rcases h with h | h | h | h <;> rw [h] <;> rfl

theorem readsInside_of_fitsIn (host : Host) (f : PointField) (len : Nat)
    (hf : f.FitsIn len) (hs : f.StrideIsWidth) : ReadsInside host f len 0 := by
  unfold PointField.FitsIn at hf
  obtain ⟨_, hs⟩ := hs
  by_cases h0 : elementBytes f.datatype = 0
  · exact Or.inl h0
  · right
    intro i hi
    rcases hs with hc | hz | hw
    · have hi0 : i = 0 := by omega
      have hc1 : f.count = 1 := by omega
      subst hi0
      rw [hc1] at hf
      simp only [Nat.cast_zero, zero_mul, add_zero, zero_add]
      constructor
      · omega
      · have : f.offset + elementBytes f.datatype ≤ len := by omega
        exact_mod_cast this
    · exfalso
      apply h0
      rw [hz]
      rfl
    · rw [fieldStride_of_strideIsWidth host f hw]
      have hm : (i + 1) * elementBytes f.datatype ≤ f.count * elementBytes f.datatype :=
        Nat.mul_le_mul_right _ (by omega)
      have he : (i + 1) * elementBytes f.datatype =
          i * elementBytes f.datatype + elementBytes f.datatype := by ring
      have hn : f.offset + i * elementBytes f.datatype + elementBytes f.datatype ≤ len := by
        omega
      constructor
      · positivity
      · have : ((f.offset + i * elementBytes f.datatype + elementBytes f.datatype : Nat) : Int)
            ≤ (len : Int) := by exact_mod_cast hn
        push_cast at this
        omega

/-- C8. After every call of `ROSToKlampt` that returns, whatever `kpc` held before,
`points.size() == properties.size()` and every `properties[i].size()` equals
`propertyNames.size()`. -/
theorem ROSToKlampt_sized (host : Host) (pc : PointCloud2) (kpc0 kpc : PointCloud3D)
    (ret : Bool) (h : ROSToKlampt host pc kpc0 = .ok (ret, kpc)) :
    kpc.points.length = kpc.properties.length ∧
      ∀ (i : Nat) (hi : i < kpc.properties.length),
        kpc.properties[i].length = kpc.propertyNames.length := by
  unfold ROSToKlampt at h
  cases hsc : scanFields pc.fields 0 (FieldScan.init pc kpc0) with
  | error e => simp [hsc] at h
  | ok sc =>
    by_cases hd : (pc.row_step * pc.height) % 2 ^ 32 ≤ pc.data.length
    · simp only [hsc, hd, if_true] at h
      split at h
      · cases h
      · rename_i st hst
        have hs := decodeRows_sized _ _ _ _ sc.propertyNames.length _ _ _ _ hst
          ⟨by simp, by simp, by simp⟩
        cases h
        exact ⟨hs.1, fun i hi => hs.2.2 _ (List.getElem_mem hi)⟩
    · simp only [hsc, hd, if_false] at h
      cases h

/-- Witness of C8: the call on the message with the fields `x, y, z, rgb, i`, made on a
target that holds a point without a property vector, returns a cloud of equal sizes. -/
theorem ROSToKlampt_sized_witness :
    rgbDecoded.points.length = rgbDecoded.properties.length ∧
      ∀ (i : Nat) (hi : i < rgbDecoded.properties.length),
        rgbDecoded.properties[i].length = rgbDecoded.propertyNames.length :=
  ROSToKlampt_sized littleEndianHost rgbThenIntensity
    { points := [point123], propertyNames := [], properties := [] } rgbDecoded true
    (by decide)

set_option maxRecDepth 100000 in
/-- C9 (code at the failing input). A field `n` with count 11 contributes the names
`n0` .. `n9` and then `n:`, the character after `9`, where the decimal index gives
`n10`; and with count 257 the name at index 256 is `n0` again. -/
theorem ROSToKlampt_suffix_not_decimal :
    ROSToKlampt littleEndianHost elevenElements emptyCloud
      = .ok (true, { points := [],
                     propertyNames := ["n0", "n1", "n2", "n3", "n4", "n5", "n6", "n7", "n8",
                                       "n9", "n:"],
                     properties := [] }) ∧
    (expandedNames ⟨"n", 0, PointField.UINT8, 257⟩)[0]? = some "n0" ∧
    (expandedNames ⟨"n", 0, PointField.UINT8, 257⟩)[256]? = some "n0" := by
  decide

theorem keptPoint_decoded {host : Host} {pc : PointCloud2} {start : Nat} {v : Vector3}
    (h : keptPoint host pc start = some v) :
    ∃ fx fy fz, coordinateField pc "x" = some fx ∧ coordinateField pc "y" = some fy ∧
      coordinateField pc "z" = some fz ∧ decodeAt host pc fx start = some v.x ∧
      decodeAt host pc fy start = some v.y ∧ decodeAt host pc fz start = some v.z := by
  unfold keptPoint at h
  cases hr : recordPoint host pc start with
  | none => simp [hr] at h
  | some w =>
    simp only [hr] at h
    have hw : w = v := by
      by_cases hf : w.isFinite = true
      · simpa [hf] using h
      · simp [hf] at h
    subst hw
    unfold recordPoint at hr
    cases hx : coordinateField pc "x" with
    | none => simp [hx] at hr
    | some fx =>
    cases hy : coordinateField pc "y" with
    | none => simp [hx, hy] at hr
    | some fy =>
    cases hz : coordinateField pc "z" with
    | none => simp [hx, hy, hz] at hr
    | some fz =>
    simp only [hx, hy, hz] at hr
    cases dx : decodeAt host pc fx start with
    | none => simp [dx] at hr
    | some x =>
    cases dy : decodeAt host pc fy start with
    | none => simp [dx, dy] at hr
    | some y =>
    cases dz : decodeAt host pc fz start with
    | none => simp [dx, dy, dz] at hr
    | some z =>
    simp only [dx, dy, dz, Option.some.injEq] at hr
    subst hr
    exact ⟨fx, fy, fz, rfl, rfl, rfl, dx, dy, dz⟩

/-- C10. For every message whose fields `x`, `y`, `z` exist with count 1 and a supported
datatype, which passes the assertions, whose sizes are in `int` range and whose buffer
holds every record, the output points are, in this order, the records with three finite
coordinates met when going through rows `0..height-1` and, within a row, columns
`0..width-1`, the record of row `r`, column `c` starting at byte
`r*row_step + c*point_step`; the coordinates of a kept point are the values of the
fields `x`, `y`, `z` decoded at the start of its record plus the offset of the field. -/
theorem ROSToKlampt_row_major (host : Host) (pc : PointCloud2) (kpc0 : PointCloud3D)
    (hco : HasCoordinates pc) (ha : PassesAsserts pc) (hr : InIntRange pc)
    (hin : RecordsInside host pc) :
    ∃ kpc, ROSToKlampt host pc kpc0 = .ok (true, kpc) ∧
      kpc.points =
        ((List.range pc.height).flatMap fun r =>
          (List.range pc.width).map fun c => r * pc.row_step + c * pc.point_step).filterMap
            (keptPoint host pc) ∧
      ∀ start v, keptPoint host pc start = some v →
        v.isFinite = true ∧
        ∃ fx fy fz, coordinateField pc "x" = some fx ∧ coordinateField pc "y" = some fy ∧
          coordinateField pc "z" = some fz ∧ decodeAt host pc fx start = some v.x ∧
          decodeAt host pc fy start = some v.y ∧ decodeAt host pc fz start = some v.z := by
  obtain ⟨kpc, hk, _, hp⟩ := ROSToKlampt_spec host pc kpc0 ha hr hin
  exact ⟨kpc, hk, hp hco, fun start v h => ⟨keptPoint_isFinite h, keptPoint_decoded h⟩⟩

/-- Witness of C10: the message of two rows of two records meets the hypotheses; its
first and fourth records are kept, in this order. -/
theorem ROSToKlampt_row_major_witness :
    (∃ kpc, ROSToKlampt littleEndianHost twoByTwo emptyCloud = .ok (true, kpc) ∧
      kpc.points =
        ((List.range twoByTwo.height).flatMap fun r =>
          (List.range twoByTwo.width).map fun c =>
            r * twoByTwo.row_step + c * twoByTwo.point_step).filterMap
            (keptPoint littleEndianHost twoByTwo) ∧
      ∀ start v, keptPoint littleEndianHost twoByTwo start = some v →
        v.isFinite = true ∧
        ∃ fx fy fz, coordinateField twoByTwo "x" = some fx ∧
          coordinateField twoByTwo "y" = some fy ∧ coordinateField twoByTwo "z" = some fz ∧
          decodeAt littleEndianHost twoByTwo fx start = some v.x ∧
          decodeAt littleEndianHost twoByTwo fy start = some v.y ∧
          decodeAt littleEndianHost twoByTwo fz start = some v.z) ∧
    ROSToKlampt littleEndianHost twoByTwo emptyCloud
      = .ok (true, { points := [point123, ⟨Real.ofInt 3, Real.ofInt 2, Real.ofInt 1⟩],
                     propertyNames := [], properties := [[], []] }) :=
  ⟨ROSToKlampt_row_major littleEndianHost twoByTwo emptyCloud (by decide) (by decide)
      (by decide) (by decide), by decide⟩

/-! ### Failure reports of the point-cloud decoder -/

/-- Claim C11, as amended: `ROSToKlampt(PointCloud2, PointCloud3D)` never reports a
failed conversion; a call either stops at a fault or returns `true`, whatever fields the
message declares. -/
theorem ROSToKlampt_never_false (host : Host) (pc : PointCloud2) (kpc : PointCloud3D) :
    (∃ e, ROSToKlampt host pc kpc = .error e) ∨
      ∃ out, ROSToKlampt host pc kpc = .ok (true, out) := by
  unfold ROSToKlampt
  simp only
  cases scanFields pc.fields 0 (FieldScan.init pc kpc) with
  | error e => exact Or.inl ⟨e, rfl⟩
  | ok sc =>
    simp only
    split
    · split
      · rename_i e _; exact Or.inl ⟨e, rfl⟩
      · exact Or.inr ⟨_, rfl⟩
    · exact Or.inl ⟨_, rfl⟩

/-- Claim C11 fails at `noCoordinates`: the message has no field named `x`, `y` or `z`
and declares a field of a datatype that is none of the eight kinds, and the conversion
returns `true`, with one point `(0, 0, 0)` whose property is never written. -/
theorem ROSToKlampt_schema_unchecked :
    (¬ ∃ f ∈ noCoordinates.fields, f.isCoordinate) ∧
    (∃ f ∈ noCoordinates.fields, elementBytes f.datatype = 0) ∧
    ROSToKlampt littleEndianHost noCoordinates emptyCloud =
      .ok (true, { points := [⟨⟨0⟩, ⟨0⟩, ⟨0⟩⟩], propertyNames := ["i"],
                   properties := [[littleEndianHost.fresh 0]] }) := by
  decide

/-! ### The layout written by `KlamptToROS` -/

theorem hostBytes_length (host : Host) (p : Nat) : (hostBytes host p).length = 4 := by
  unfold hostBytes
  split <;> simp

theorem storeFloat_append (host : Host) (pre rest : List UInt8) (v : Real)
    (h : 4 ≤ rest.length) :
    storeFloat host (pre ++ rest) (pre.length : Int) v =
      .ok ((pre ++ hostBytes host v.toFloat32) ++ rest.drop 4) := by
  unfold storeFloat
  rw [if_pos (by simp; omega)]
  simp [List.take_append_eq_append_take, List.drop_append_eq_append_drop]

theorem floatBytes_cons (host : Host) (v : Real) (vs : List Real) :
    floatBytes host (v :: vs) = hostBytes host v.toFloat32 ++ floatBytes host vs := by
  simp [floatBytes]

theorem floatBytes_length (host : Host) (vs : List Real) :
    (floatBytes host vs).length = 4 * vs.length := by
  induction vs with
  | nil => simp [floatBytes]
  | cons v vs ih => rw [floatBytes_cons, List.length_append, hostBytes_length, ih]; simp; omega

theorem encodeProperties_append (host : Host) (props : List Real) :
    ∀ (n j : Nat) (pre rest : List UInt8), j + n ≤ props.length → 4 * n ≤ rest.length →
      pre.length + 4 * n < 2 ^ 31 →
      encodeProperties host props n j (pre.length : Int) (pre ++ rest) =
        .ok ((pre ++ floatBytes host ((props.drop j).take n)) ++ rest.drop (4 * n),
          ((pre.length + 4 * n : Nat) : Int)) := by
  intro n
  induction n with
  | zero => intro j pre rest _ _ _; simp [encodeProperties, floatBytes]
  | succ n ih =>
    intro j pre rest hj hr hlt
    have hjl : j < props.length := by omega
    unfold encodeProperties
    rw [List.getElem?_eq_getElem hjl]
    simp only
    rw [storeFloat_append host pre rest _ (by omega)]
    simp only
    have hofs : toInt32 ((pre.length : Int) + 4)
        = ((pre ++ hostBytes host (props[j]).toFloat32).length : Int) := by
      rw [toInt32_of_lt (by omega) (by omega), List.length_append, hostBytes_length]
      push_cast; rfl
    rw [hofs, ih (j + 1) _ _ (by omega) (by simp; omega)
      (by rw [List.length_append, hostBytes_length]; omega)]
    rw [List.drop_eq_getElem_cons hjl, List.take_succ_cons, floatBytes_cons, List.drop_drop,
      List.length_append, hostBytes_length]
    simp only [List.append_assoc]
    have e1 : 4 + 4 * n = 4 * (n + 1) := by omega
    have e2 : pre.length + 4 + 4 * n = pre.length + 4 * (n + 1) := by omega
    rw [e1, e2]

theorem ofs_step (pre b : List UInt8) (hb : b.length = 4) (h : pre.length + 4 < 2 ^ 31) :
    toInt32 ((pre.length : Int) + 4) = ((pre ++ b).length : Int) := by
  rw [toInt32_of_lt (by omega) (by omega), List.length_append, hb]
  push_cast; rfl

theorem encodePoints_cons (host : Host) (kpc : PointCloud3D) (pt : Vector3)
    (pts : List Vector3) (i : Nat) (ofs ofs1 ofs2 ofs3 : Int) (data data1 data2 data3 : List UInt8)
    (h1 : storeFloat host data ofs pt.x = .ok data1) (e1 : toInt32 (ofs + 4) = ofs1)
    (h2 : storeFloat host data1 ofs1 pt.y = .ok data2) (e2 : toInt32 (ofs1 + 4) = ofs2)
    (h3 : storeFloat host data2 ofs2 pt.z = .ok data3) (e3 : toInt32 (ofs2 + 4) = ofs3) :
    encodePoints host kpc (pt :: pts) i ofs data =
      if kpc.propertyNames.length = 0 then encodePoints host kpc pts (i + 1) ofs3 data3
      else
        match kpc.properties[i]? with
        | none => .error .readOutOfBounds
        | some props =>
          match encodeProperties host props kpc.propertyNames.length 0 ofs3 data3 with
          | .error e => .error e
          | .ok (data4, ofs4) => encodePoints host kpc pts (i + 1) ofs4 data4 := by
  rw [encodePoints, h1]
  dsimp only
  rw [e1, h2]
  dsimp only
  rw [e2, h3]
  dsimp only
  rw [e3]

theorem values_of_point {kpc : PointCloud3D} {i : Nat} {pt : Vector3} {props : List Real}
    (hp : kpc.points[i]? = some pt) (hq : kpc.properties[i]? = some props) :
    kpc.values i = [pt.x, pt.y, pt.z] ++ props := by
  unfold PointCloud3D.values
  rw [hp]
  simp [List.getD_eq_getElem?_getD, hq]

theorem encodePoints_append (host : Host) (kpc : PointCloud3D) (hs : kpc.Sized) :
    ∀ (pts : List Vector3) (i : Nat) (pre rest : List UInt8), kpc.points.drop i = pts →
      pts.length * (4 * (3 + kpc.propertyNames.length)) ≤ rest.length →
      pre.length + pts.length * (4 * (3 + kpc.propertyNames.length)) < 2 ^ 31 →
      encodePoints host kpc pts i (pre.length : Int) (pre ++ rest) =
        .ok ((pre ++ (List.range' i pts.length).flatMap fun k => floatBytes host (kpc.values k))
          ++ rest.drop (pts.length * (4 * (3 + kpc.propertyNames.length)))) := by
  intro pts
  induction pts with
  | nil => intro i pre rest _ _ _; simp [encodePoints]
  | cons pt pts ih =>
    intro i pre rest hd hr hlt
    have hpt : kpc.points[i]? = some pt := by
      have := congrArg (fun l => l[0]?) hd
      simpa using this
    have hdrop : kpc.points.drop (i + 1) = pts := by
      have := congrArg List.tail hd
      simpa using this
    have hi : i < kpc.properties.length := by
      rw [hs.1]
      by_contra hc
      rw [List.getElem?_eq_none (by omega)] at hpt
      cases hpt
    have hlen : (kpc.properties[i]).length = kpc.propertyNames.length :=
      hs.2 _ (List.getElem_mem hi)
    have hq : kpc.properties[i]? = some kpc.properties[i] := List.getElem?_eq_getElem hi
    generalize kpc.properties[i] = props at hlen hq
    simp only [List.length_cons] at hr hlt
    have hr12 : 12 + 4 * kpc.propertyNames.length ≤ rest.length := by
      have : (pts.length + 1) * (4 * (3 + kpc.propertyNames.length))
          = pts.length * (4 * (3 + kpc.propertyNames.length))
            + (12 + 4 * kpc.propertyNames.length) := by ring
      omega
    have hlt12 : pre.length + (12 + 4 * kpc.propertyNames.length)
        + pts.length * (4 * (3 + kpc.propertyNames.length)) < 2 ^ 31 := by
      have : (pts.length + 1) * (4 * (3 + kpc.propertyNames.length))
          = pts.length * (4 * (3 + kpc.propertyNames.length))
            + (12 + 4 * kpc.propertyNames.length) := by ring
      omega
    have hb : ∀ v : Real, (hostBytes host v.toFloat32).length = 4 :=
      fun v => hostBytes_length host _
    have hofs1 := ofs_step pre (hostBytes host pt.x.toFloat32) (hb _) (by omega)
    have hofs2 := ofs_step (pre ++ hostBytes host pt.x.toFloat32)
      (hostBytes host pt.y.toFloat32) (hb _) (by rw [List.length_append, hb]; omega)
    have hofs3 := ofs_step ((pre ++ hostBytes host pt.x.toFloat32)
      ++ hostBytes host pt.y.toFloat32) (hostBytes host pt.z.toFloat32) (hb _)
      (by rw [List.length_append, List.length_append, hb, hb]; omega)
    rw [encodePoints_cons host kpc pt pts i _ _ _ _ _ _ _ _
      (storeFloat_append host pre rest _ (by omega)) hofs1
      (storeFloat_append host _ _ _ (by rw [List.length_drop]; omega)) hofs2
      (storeFloat_append host _ _ _ (by rw [List.length_drop, List.length_drop]; omega)) hofs3]
    have hv := values_of_point hpt hq
    have hr3 : pts.length * (4 * (3 + kpc.propertyNames.length)) + 4 * kpc.propertyNames.length
        ≤ (List.drop 4 (List.drop 4 (List.drop 4 rest))).length := by
      rw [List.length_drop, List.length_drop, List.length_drop]
      have : (pts.length + 1) * (4 * (3 + kpc.propertyNames.length))
          = pts.length * (4 * (3 + kpc.propertyNames.length))
            + (12 + 4 * kpc.propertyNames.length) := by ring
      omega
    have hl3 : (((pre ++ hostBytes host pt.x.toFloat32) ++ hostBytes host pt.y.toFloat32)
        ++ hostBytes host pt.z.toFloat32).length = pre.length + 12 := by
      rw [List.length_append, List.length_append, List.length_append, hb, hb, hb]
    by_cases hP : kpc.propertyNames.length = 0
    · rw [if_pos hP, ih (i + 1) _ _ hdrop (by omega) (by omega)]
      have hnil : props = [] := List.length_eq_zero.mp (by omega)
      rw [hnil] at hv
      rw [List.length_cons, List.range'_succ, List.flatMap_cons, hv]
      simp only [floatBytes_cons, floatBytes, List.flatMap_nil, List.append_nil,
        List.append_assoc, List.drop_drop, hP]
      have e : 4 + 4 + 4 + pts.length * (4 * (3 + 0)) = (pts.length + 1) * (4 * (3 + 0)) := by
        ring
      rw [e]
      simp only [List.flatMap_cons, List.flatMap_nil, List.append_nil, List.append_assoc]
    · rw [if_neg hP, hq]
      dsimp only
      rw [encodeProperties_append host props kpc.propertyNames.length 0 _ _ (by omega)
        (by omega) (by omega)]
      dsimp only
      have htake : List.take kpc.propertyNames.length (List.drop 0 props) = props := by
        rw [List.drop_zero, List.take_of_length_le (by omega)]
      have hofs4 : (((((pre ++ hostBytes host pt.x.toFloat32) ++ hostBytes host pt.y.toFloat32)
          ++ hostBytes host pt.z.toFloat32).length + 4 * kpc.propertyNames.length : Nat) : Int)
          = ((((pre ++ hostBytes host pt.x.toFloat32) ++ hostBytes host pt.y.toFloat32)
          ++ hostBytes host pt.z.toFloat32) ++ floatBytes host props).length := by
        rw [List.length_append _ (floatBytes host props), floatBytes_length, hlen]
      rw [htake, hofs4, ih (i + 1) _ _ hdrop (by rw [List.length_drop]; omega)
        (by rw [List.length_append _ (floatBytes host props), floatBytes_length, hlen]; omega)]
      rw [List.length_cons, List.range'_succ, List.flatMap_cons, hv]
      simp only [floatBytes_cons, floatBytes, List.flatMap_nil, List.append_nil,
        List.append_assoc, List.drop_drop, List.flatMap_append, List.flatMap_cons]
      have e : 4 + 4 + 4 + 4 * kpc.propertyNames.length
          + pts.length * (4 * (3 + kpc.propertyNames.length))
          = (pts.length + 1) * (4 * (3 + kpc.propertyNames.length)) := by ring
      rw [e]

theorem flatMap_block {α β : Type} (f : α → List β) (L : Nat) :
    ∀ (xs : List α) (k : Nat) (x : α), (∀ y ∈ xs, (f y).length = L) → xs[k]? = some x →
      ((xs.flatMap f).drop (k * L)).take L = f x := by
  intro xs
  induction xs with
  | nil => intro k x _ h; simp at h
  | cons y ys ih =>
    intro k x hL h
    have hy : (f y).length = L := hL y (List.mem_cons_self _ _)
    cases k with
    | zero =>
      simp only [List.getElem?_cons_zero, Option.some.injEq] at h
      subst h
      rw [List.flatMap_cons, Nat.zero_mul, List.drop_zero, List.take_left' hy]
    | succ k =>
      rw [List.getElem?_cons_succ] at h
      have e : (k + 1) * L = (f y).length + k * L := by rw [hy]; ring
      rw [List.flatMap_cons, e, List.drop_append]
      exact ih k x (fun z hz => hL z (List.mem_cons_of_mem _ hz)) h

theorem take_drop_block {β : Type} (l b : List β) (a L m c : Nat)
    (h : (l.drop a).take L = b) (hm : m + c ≤ L) :
    (l.drop (a + m)).take c = (b.drop m).take c := by
  rw [← h, List.drop_take, List.take_take, List.drop_drop, Nat.min_eq_left (by omega),
    Nat.add_comm]

theorem values_length {kpc : PointCloud3D} (hs : kpc.Sized) {i : Nat}
    (hi : i < kpc.points.length) : (kpc.values i).length = 3 + kpc.propertyNames.length := by
  have hi2 : i < kpc.properties.length := by rw [hs.1]; exact hi
  rw [values_of_point (List.getElem?_eq_getElem hi) (List.getElem?_eq_getElem hi2),
    List.length_append, hs.2 _ (List.getElem_mem hi2)]
  rfl

theorem cloudBytes_at (host : Host) (kpc : PointCloud3D) (hs : kpc.Sized) (i j : Nat) (v : Real)
    (h : (kpc.values i)[j]? = some v) :
    ((cloudBytes host kpc).drop (i * (4 * (3 + kpc.propertyNames.length)) + 4 * j)).take 4 =
      hostBytes host v.toFloat32 := by
  have hi : i < kpc.points.length := by
    by_contra hc
    unfold PointCloud3D.values at h
    rw [List.getElem?_eq_none (l := kpc.points) (by omega)] at h
    simp at h
  have hj : j < (kpc.values i).length := by
    by_contra hc
    rw [List.getElem?_eq_none (by omega)] at h
    cases h
  rw [values_length hs hi] at hj
  have h1 := flatMap_block (fun i => floatBytes host (kpc.values i))
    (4 * (3 + kpc.propertyNames.length)) (List.range kpc.points.length) i i
    (fun y hy => by
      rw [floatBytes_length, values_length hs (List.mem_range.mp hy)])
    (by rw [List.getElem?_range hi])
  have h2 := flatMap_block (fun v : Real => hostBytes host v.toFloat32) 4 (kpc.values i) j v
    (fun y _ => hostBytes_length host _) h
  unfold cloudBytes
  rw [take_drop_block _ _ _ _ (4 * j) 4 h1 (by omega), Nat.mul_comm 4 j]
  exact h2

theorem resizeData_length (data : List UInt8) (n : Nat) : (resizeData data n).length = n := by
  unfold resizeData
  rw [List.length_append, List.length_take, List.length_replicate]
  omega

theorem flatMap_length_const {α β : Type} (f : α → List β) (L : Nat) :
    ∀ xs : List α, (∀ y ∈ xs, (f y).length = L) → (xs.flatMap f).length = xs.length * L := by
  intro xs
  induction xs with
  | nil => intro _; simp
  | cons y ys ih =>
    intro hL
    rw [List.flatMap_cons, List.length_append, hL y (List.mem_cons_self _ _),
      ih (fun z hz => hL z (List.mem_cons_of_mem _ hz)), List.length_cons]
    ring

theorem cloudBytes_length (host : Host) (kpc : PointCloud3D) (hs : kpc.Sized) :
    (cloudBytes host kpc).length
      = kpc.points.length * (4 * (3 + kpc.propertyNames.length)) := by
  unfold cloudBytes
  rw [flatMap_length_const _ (4 * (3 + kpc.propertyNames.length)) _ (fun y hy => by
    rw [floatBytes_length, values_length hs (List.mem_range.mp hy)]), List.length_range]

/-- Claim C12: for a cloud that satisfies the size invariant (with sizes in range),
`KlamptToROS` returns with height 1, width `n`, point_step `4*(3+P)`, row_step
`n*point_step` and a buffer of exactly row_step bytes which is the concatenation, point
after point, of the 4-byte floats of `x`, `y`, `z` and the `P` properties: value `j` of
point `i` sits at byte `i*point_step + 4*j`. -/
theorem KlamptToROS_layout (host : Host) (kpc : PointCloud3D) (pc0 : PointCloud2)
    (hs : kpc.Sized) (hr : kpc.InIntRange) :
    ∃ pc, KlamptToROS host kpc pc0 = .ok (true, pc) ∧ pc.height = 1 ∧
      pc.width = kpc.points.length ∧ pc.point_step = 4 * (3 + kpc.propertyNames.length) ∧
      pc.row_step = kpc.points.length * pc.point_step ∧ pc.data.length = pc.row_step ∧
      pc.data = cloudBytes host kpc ∧
      ∀ i j v, (kpc.values i)[j]? = some v →
        (pc.data.drop (i * pc.point_step + 4 * j)).take 4 = hostBytes host v.toFloat32 := by
  obtain ⟨hr1, hr2⟩ := hr
  have hn : kpc.points.length < 2 ^ 32 := by
    have : kpc.points.length * 1 ≤ kpc.points.length * (4 * (3 + kpc.propertyNames.length)) :=
      Nat.mul_le_mul_left _ (by omega)
    omega
  have hw : kpc.points.length % 2 ^ 32 = kpc.points.length := Nat.mod_eq_of_lt hn
  have hp : (4 * (3 + kpc.propertyNames.length)) % 2 ^ 32
      = 4 * (3 + kpc.propertyNames.length) := Nat.mod_eq_of_lt hr1
  have hrow : (kpc.points.length * (4 * (3 + kpc.propertyNames.length))) % 2 ^ 32
      = kpc.points.length * (4 * (3 + kpc.propertyNames.length)) :=
    Nat.mod_eq_of_lt (by omega)
  have henc := encodePoints_append host kpc hs kpc.points 0 []
    (resizeData pc0.data (kpc.points.length * (4 * (3 + kpc.propertyNames.length))))
    (List.drop_zero _) (by rw [resizeData_length]) (by simpa using hr2)
  rw [List.drop_of_length_le (by rw [resizeData_length]), List.append_nil, List.nil_append,
    ← List.range_eq_range'] at henc
  unfold KlamptToROS
  simp only [hw, hp, hrow]
  rw [show ((([] : List UInt8).length : Nat) : Int) = 0 from rfl] at henc
  rw [List.nil_append] at henc
  rw [henc]
  refine ⟨_, rfl, rfl, rfl, rfl, rfl, ?_, rfl, ?_⟩
  · exact cloudBytes_length host kpc hs
  · intro i j v h
    exact cloudBytes_at host kpc hs i j v h

/-- The layout of the message written for `twoPoints`: 2 points, 1 property. -/
theorem KlamptToROS_layout_witness :
    twoPoints.Sized ∧ twoPoints.InIntRange ∧
    ∃ pc, KlamptToROS littleEndianHost twoPoints emptyMessage = .ok (true, pc) ∧ pc.height = 1 ∧
      pc.width = twoPoints.points.length ∧
      pc.point_step = 4 * (3 + twoPoints.propertyNames.length) ∧
      pc.row_step = twoPoints.points.length * pc.point_step ∧ pc.data.length = pc.row_step ∧
      pc.data = cloudBytes littleEndianHost twoPoints ∧
      ∀ i j v, (twoPoints.values i)[j]? = some v →
        (pc.data.drop (i * pc.point_step + 4 * j)).take 4
          = hostBytes littleEndianHost v.toFloat32 :=
  ⟨by decide, by decide,
    KlamptToROS_layout littleEndianHost twoPoints emptyMessage (by decide) (by decide)⟩

/-- The bytes written for `twoPoints` on a little-endian host. -/
theorem twoPoints_bytes :
    (KlamptToROS littleEndianHost twoPoints emptyMessage).map (fun r => r.2.data) =
      .ok [0, 0, 0x80, 0x3f, 0, 0, 0, 0x40, 0, 0, 0x40, 0x40, 0, 0, 0x10, 0x41,
           0, 0, 0x40, 0x40, 0, 0, 0, 0x40, 0, 0, 0x80, 0x3f, 0, 0, 0xe0, 0x40] := by
  decide

/-! ### The byte-swap macros -/

/-- Masking with a byte at bit `k` selects that byte. -/
theorem and_byte_mask (x k : Nat) : x &&& (255 * 2 ^ k) = (x / 2 ^ k % 256) * 2 ^ k := by
  apply Nat.eq_of_testBit_eq
  intro i
  have h255 : (255 : Nat) = 2 ^ 8 - 1 := by norm_num
  have h256 : (256 : Nat) = 2 ^ 8 := by norm_num
  rw [Nat.testBit_and, Nat.mul_comm 255, Nat.mul_comm _ (2 ^ k), Nat.testBit_mul_pow_two,
    Nat.testBit_mul_pow_two, h255, h256, Nat.testBit_two_pow_sub_one, Nat.testBit_mod_two_pow,
    ← Nat.shiftRight_eq_div_pow, Nat.testBit_shiftRight]
  by_cases hk : k ≤ i
  · have : k + (i - k) = i := by omega
    simp [hk, this, Bool.and_comm]
  · simp [hk]

theorem or_disjoint (a b k : Nat) (h : a < 2 ^ k) : a ||| (b * 2 ^ k) = a + b * 2 ^ k := by
  rw [Nat.lor_comm, Nat.mul_comm b, ← Nat.mul_add_lt_is_or h]; omega

theorem and_mask (tx tm : CType) (v : Int) (m : Nat)
    (hM : 255 * 2 ^ m < 2 ^ (CType.common tx tm).bits) :
    CInt.and ⟨tx, v⟩ ⟨tm, ((255 * 2 ^ m : Nat) : Int)⟩ =
      ⟨CType.common tx tm, (CType.common tx tm).wrap
        ((((v % 2 ^ (CType.common tx tm).bits).toNat / 2 ^ m % 256) * 2 ^ m : Nat) : Int)⟩ := by
  unfold CInt.and CInt.pattern
  simp only
  have h : ((((255 * 2 ^ m : Nat) : Int)) % 2 ^ (CType.common tx tm).bits).toNat = 255 * 2 ^ m := by
    rw [Int.emod_eq_of_lt (by positivity) (by exact_mod_cast hM)]
    exact Int.toNat_natCast _
  rw [h, and_byte_mask]

theorem or_nat (t1 t2 : CType) (n1 b k : Nat) (h1 : n1 < 2 ^ k)
    (h2 : n1 + b * 2 ^ k <
      if (CType.common t1 t2).isSigned then 2 ^ ((CType.common t1 t2).bits - 1)
      else 2 ^ (CType.common t1 t2).bits) :
    CInt.or ⟨t1, (n1 : Int)⟩ ⟨t2, ((b * 2 ^ k : Nat) : Int)⟩ =
      ⟨CType.common t1 t2, ((n1 + b * 2 ^ k : Nat) : Int)⟩ := by
  unfold CInt.or CInt.pattern
  simp only
  generalize CType.common t1 t2 = t at h2 ⊢
  have hB : (2 : Nat) ^ (t.bits - 1) * 2 = 2 ^ t.bits := by
    cases t <;> rfl
  have hlt : n1 + b * 2 ^ k < 2 ^ t.bits := by
    split at h2 <;> omega
  have hn1 : n1 < 2 ^ t.bits := by omega
  have hn2 : b * 2 ^ k < 2 ^ t.bits := by omega
  have e1 : (((n1 : Int)) % 2 ^ t.bits).toNat = n1 := by
    rw [Int.emod_eq_of_lt (by positivity) (by exact_mod_cast hn1)]; exact Int.toNat_natCast _
  have e2 : ((((b * 2 ^ k : Nat) : Int)) % 2 ^ t.bits).toNat = b * 2 ^ k := by
    rw [Int.emod_eq_of_lt (by positivity) (by exact_mod_cast hn2)]; exact Int.toNat_natCast _
  rw [e1, e2, or_disjoint _ _ _ h1]
  congr 1
  have hB' : (2 : Int) ^ (t.bits - 1) * 2 = 2 ^ t.bits := by exact_mod_cast hB
  have hlt' : ((n1 + b * 2 ^ k : Nat) : Int) < 2 ^ t.bits := by exact_mod_cast hlt
  unfold CType.wrap
  split
  · rename_i hs
    rw [if_pos hs] at h2
    have hs' : ((n1 + b * 2 ^ k : Nat) : Int) < 2 ^ (t.bits - 1) := by exact_mod_cast h2
    rw [Int.emod_eq_of_lt (by positivity) (by omega)]; omega
  · exact Int.emod_eq_of_lt (by positivity) hlt'

theorem shr_mk (t : CType) (v : Int) (k : Nat) :
    CInt.shr ⟨t, v⟩ k = ⟨t.promote, v / 2 ^ k⟩ := by
  unfold CInt.shr; rw [Int.shiftRight_eq_div_pow]; simp

theorem shl_mk (t : CType) (v : Int) (k : Nat) :
    CInt.shl ⟨t, v⟩ k = ⟨t.promote, t.promote.wrap (v * 2 ^ k)⟩ := rfl

theorem toNat_byte (a : Int) : ((a % 256).toNat : Int) = a % 256 :=
  Int.toNat_of_nonneg (Int.emod_nonneg _ (by norm_num))

theorem toNat_byte_lt (a : Int) : (a % 256).toNat < 2 ^ 8 := by omega

theorem Swap2Bytes_term0 (t : CType) (ht : t = .short ∨ t = .ushort ∨ t = .int) (v : Int) :
    (CInt.shr ⟨t, v⟩ 8).and (CInt.lit 255)
      = ⟨.int, ((((v / 2 ^ 8 % 256).toNat : Nat)) : Int)⟩ := by
  have l : CInt.lit 255 = ⟨.int, ((255 * 2 ^ 0 : Nat) : Int)⟩ := by decide
  rcases ht with rfl | rfl | rfl
  all_goals
    rw [l, shr_mk, and_mask _ _ _ _ (by decide)]
    simp only [CType.wrap, CType.common, CType.promote, CType.rank, CType.bits,
      CType.isSigned, le_refl, reduceIte, Nat.reduceLeDiff, Nat.zero_le, Bool.false_eq_true]
    refine congrArg (CInt.mk _) ?_
    omega

theorem Swap2Bytes_term1 (t : CType) (ht : t = .short ∨ t = .ushort ∨ t = .int) (v : Int) :
    (CInt.shl ⟨t, v⟩ 8).and (CInt.lit 65280)
      = ⟨.int, ((((v % 256).toNat * 2 ^ 8 : Nat)) : Int)⟩ := by
  have l : CInt.lit 65280 = ⟨.int, ((255 * 2 ^ 8 : Nat) : Int)⟩ := by decide
  rcases ht with rfl | rfl | rfl
  all_goals
    rw [l, shl_mk, and_mask _ _ _ _ (by decide)]
    simp only [CType.wrap, CType.common, CType.promote, CType.rank, CType.bits,
      CType.isSigned, le_refl, reduceIte, Nat.reduceLeDiff, Nat.zero_le, Bool.false_eq_true]
    refine congrArg (CInt.mk _) ?_
    omega

theorem Swap2Bytes_val (t : CType) (ht : t = .short ∨ t = .ushort ∨ t = .int) (v : Int) :
    Swap2Bytes ⟨t, v⟩ =
      ⟨.int, ((((v / 2 ^ 8 % 256).toNat + (v % 256).toNat * 2 ^ 8 : Nat)) : Int)⟩ := by
  unfold Swap2Bytes
  rw [Swap2Bytes_term0 t ht v, Swap2Bytes_term1 t ht v]
  have b0 := toNat_byte_lt v
  generalize (v % 256).toNat = x0 at b0 ⊢
  have b1 := toNat_byte_lt (v / 2 ^ 8)
  generalize (v / 2 ^ 8 % 256).toNat = x1 at b1 ⊢
  rcases ht with rfl | rfl | rfl
  all_goals
    rw [or_nat _ _ _ _ _ b1 (by
        simp only [CType.common, CType.promote, CType.rank, CType.bits, CType.isSigned, le_refl,
          reduceIte, Nat.reduceLeDiff, Nat.zero_le, Bool.false_eq_true]
        omega)]
    simp only [CType.common, CType.promote, CType.rank, le_refl,
      reduceIte, Nat.reduceLeDiff, Nat.zero_le]

theorem bytes2 (x0 x1 : Nat) (b0 : x0 < 256) (b1 : x1 < 256)
    (w : Int) (hw : w = ((x1 + x0 * 2 ^ 8 : Nat) : Int)) :
    (w / 2 ^ 8 % 256).toNat = x0 ∧ (w % 256).toNat = x1 := by
  subst hw
  refine ⟨?_, ?_⟩ <;> omega

theorem split2 (v : Int) : v % 2 ^ 16 = v % 256 + v / 2 ^ 8 % 256 * 2 ^ 8 := by
  have s1 : v % 2 ^ 16 = v % 2 ^ 8 + (v / 2 ^ 8 % 256) * 2 ^ 8 := by omega
  omega

theorem Swap2Bytes_twice (t : CType) (ht : t = .short ∨ t = .ushort ∨ t = .int) (v : Int) :
    (Swap2Bytes (Swap2Bytes ⟨t, v⟩)).val = v % 2 ^ 16 := by
  rw [Swap2Bytes_val t ht v, Swap2Bytes_val .int (Or.inr (Or.inr rfl)) _]
  simp only
  obtain ⟨h0, h1⟩ := bytes2 _ _ (toNat_byte_lt _) (toNat_byte_lt _) _ rfl
  rw [h0, h1, split2 v]
  push_cast
  rw [toNat_byte, toNat_byte]

theorem Swap4Bytes_term0 (t : CType) (ht : t = .int ∨ t = .uint) (v : Int) :
    (CInt.shr ⟨t, v⟩ 24).and (CInt.lit 255)
      = ⟨t, ((((v / 2 ^ 24 % 256).toNat : Nat)) : Int)⟩ := by
  have l : CInt.lit 255 = ⟨.int, ((255 * 2 ^ 0 : Nat) : Int)⟩ := by decide
  rcases ht with rfl | rfl
  all_goals
    rw [l, shr_mk, and_mask _ _ _ _ (by decide)]
    simp only [CType.wrap, CType.common, CType.promote, CType.rank, CType.bits,
      CType.isSigned, le_refl, reduceIte, Nat.reduceLeDiff, Nat.zero_le, Bool.false_eq_true]
    refine congrArg (CInt.mk _) ?_
    omega

theorem Swap4Bytes_term1 (t : CType) (ht : t = .int ∨ t = .uint) (v : Int) :
    (CInt.shr ⟨t, v⟩ 8).and (CInt.lit 65280)
      = ⟨t, ((((v / 2 ^ 16 % 256).toNat * 2 ^ 8 : Nat)) : Int)⟩ := by
  have l : CInt.lit 65280 = ⟨.int, ((255 * 2 ^ 8 : Nat) : Int)⟩ := by decide
  rcases ht with rfl | rfl
  all_goals
    rw [l, shr_mk, and_mask _ _ _ _ (by decide)]
    simp only [CType.wrap, CType.common, CType.promote, CType.rank, CType.bits,
      CType.isSigned, le_refl, reduceIte, Nat.reduceLeDiff, Nat.zero_le, Bool.false_eq_true]
    refine congrArg (CInt.mk _) ?_
    omega

theorem Swap4Bytes_term2 (t : CType) (ht : t = .int ∨ t = .uint) (v : Int) :
    (CInt.shl ⟨t, v⟩ 8).and (CInt.lit 16711680)
      = ⟨t, ((((v / 2 ^ 8 % 256).toNat * 2 ^ 16 : Nat)) : Int)⟩ := by
  have l : CInt.lit 16711680 = ⟨.int, ((255 * 2 ^ 16 : Nat) : Int)⟩ := by decide
  rcases ht with rfl | rfl
  all_goals
    rw [l, shl_mk, and_mask _ _ _ _ (by decide)]
    simp only [CType.wrap, CType.common, CType.promote, CType.rank, CType.bits,
      CType.isSigned, le_refl, reduceIte, Nat.reduceLeDiff, Nat.zero_le, Bool.false_eq_true]
    refine congrArg (CInt.mk _) ?_
    omega

theorem Swap4Bytes_term3 (t : CType) (ht : t = .int ∨ t = .uint) (v : Int) :
    (CInt.shl ⟨t, v⟩ 24).and (CInt.lit 4278190080)
      = ⟨.uint, ((((v % 256).toNat * 2 ^ 24 : Nat)) : Int)⟩ := by
  have l : CInt.lit 4278190080 = ⟨.uint, ((255 * 2 ^ 24 : Nat) : Int)⟩ := by decide
  rcases ht with rfl | rfl
  all_goals
    rw [l, shl_mk, and_mask _ _ _ _ (by decide)]
    simp only [CType.wrap, CType.common, CType.promote, CType.rank, CType.bits,
      CType.isSigned, le_refl, reduceIte, Nat.reduceLeDiff, Nat.zero_le, Bool.false_eq_true]
    refine congrArg (CInt.mk _) ?_
    omega

theorem Swap4Bytes_val (t : CType) (ht : t = .int ∨ t = .uint) (v : Int) :
    Swap4Bytes ⟨t, v⟩ =
      ⟨.uint, ((((v / 2 ^ 24 % 256).toNat + (v / 2 ^ 16 % 256).toNat * 2 ^ 8
          + (v / 2 ^ 8 % 256).toNat * 2 ^ 16 + (v % 256).toNat * 2 ^ 24 : Nat)) : Int)⟩ := by
  unfold Swap4Bytes
  rw [Swap4Bytes_term0 t ht v, Swap4Bytes_term1 t ht v, Swap4Bytes_term2 t ht v,
      Swap4Bytes_term3 t ht v]
  have b0 := toNat_byte_lt v
  generalize (v % 256).toNat = x0 at b0 ⊢
  have b1 := toNat_byte_lt (v / 2 ^ 8)
  generalize (v / 2 ^ 8 % 256).toNat = x1 at b1 ⊢
  have b2 := toNat_byte_lt (v / 2 ^ 16)
  generalize (v / 2 ^ 16 % 256).toNat = x2 at b2 ⊢
  have b3 := toNat_byte_lt (v / 2 ^ 24)
  generalize (v / 2 ^ 24 % 256).toNat = x3 at b3 ⊢
  rcases ht with rfl | rfl
  all_goals
    rw [or_nat _ _ _ _ _ b3 (by
        simp only [CType.common, CType.promote, CType.rank, CType.bits, CType.isSigned, le_refl,
          reduceIte, Nat.reduceLeDiff, Nat.zero_le, Bool.false_eq_true]
        omega),
      or_nat _ _ _ _ _ (by omega) (by
        simp only [CType.common, CType.promote, CType.rank, CType.bits, CType.isSigned, le_refl,
          reduceIte, Nat.reduceLeDiff, Nat.zero_le, Bool.false_eq_true]
        omega),
      or_nat _ _ _ _ _ (by omega) (by
        simp only [CType.common, CType.promote, CType.rank, CType.bits, CType.isSigned, le_refl,
          reduceIte, Nat.reduceLeDiff, Nat.zero_le, Bool.false_eq_true]
        omega)]
    simp only [CType.common, CType.promote, CType.rank, le_refl,
      reduceIte, Nat.reduceLeDiff, Nat.zero_le]

theorem bytes4 (x0 x1 x2 x3 : Nat) (b0 : x0 < 256) (b1 : x1 < 256) (b2 : x2 < 256) (b3 : x3 < 256)
    (w : Int) (hw : w = ((x3 + x2 * 2 ^ 8 + x1 * 2 ^ 16 + x0 * 2 ^ 24 : Nat) : Int)) :
    (w / 2 ^ 24 % 256).toNat = x0 ∧ (w / 2 ^ 16 % 256).toNat = x1 ∧ (w / 2 ^ 8 % 256).toNat = x2
        ∧ (w % 256).toNat = x3 := by
  subst hw
  refine ⟨?_, ?_, ?_, ?_⟩ <;> omega

theorem split4 (v : Int) : v % 2 ^ 32 = v % 256 + v / 2 ^ 8 % 256 * 2 ^ 8
    + v / 2 ^ 16 % 256 * 2 ^ 16 + v / 2 ^ 24 % 256 * 2 ^ 24 := by
  have s1 : v % 2 ^ 16 = v % 2 ^ 8 + (v / 2 ^ 8 % 256) * 2 ^ 8 := by omega
  have s2 : v % 2 ^ 24 = v % 2 ^ 16 + (v / 2 ^ 16 % 256) * 2 ^ 16 := by omega
  have s3 : v % 2 ^ 32 = v % 2 ^ 24 + (v / 2 ^ 24 % 256) * 2 ^ 24 := by omega
  omega

theorem Swap4Bytes_twice (t : CType) (ht : t = .int ∨ t = .uint) (v : Int) :
    (Swap4Bytes (Swap4Bytes ⟨t, v⟩)).val = v % 2 ^ 32 := by
  rw [Swap4Bytes_val t ht v, Swap4Bytes_val .uint (Or.inr rfl) _]
  simp only
  obtain ⟨h0, h1, h2,
      h3⟩ := bytes4 _ _ _ _ (toNat_byte_lt _) (toNat_byte_lt _) (toNat_byte_lt _) (toNat_byte_lt _) _ rfl
  rw [h0, h1, h2, h3, split4 v]
  push_cast
  rw [toNat_byte, toNat_byte, toNat_byte, toNat_byte]

theorem Swap8Bytes_term0 (t : CType) (ht : t = .long ∨ t = .ulong) (v : Int) :
    (CInt.shr ⟨t, v⟩ 56).and (CInt.lit 255)
      = ⟨t, ((((v / 2 ^ 56 % 256).toNat : Nat)) : Int)⟩ := by
  have l : CInt.lit 255 = ⟨.int, ((255 * 2 ^ 0 : Nat) : Int)⟩ := by decide
  rcases ht with rfl | rfl
  all_goals
    rw [l, shr_mk, and_mask _ _ _ _ (by decide)]
    simp only [CType.wrap, CType.common, CType.promote, CType.rank, CType.bits,
      CType.isSigned, le_refl, reduceIte, Nat.reduceLeDiff, Nat.zero_le, Bool.false_eq_true]
    refine congrArg (CInt.mk _) ?_
    omega

theorem Swap8Bytes_term1 (t : CType) (ht : t = .long ∨ t = .ulong) (v : Int) :
    (CInt.shr ⟨t, v⟩ 40).and (CInt.lit 65280)
      = ⟨t, ((((v / 2 ^ 48 % 256).toNat * 2 ^ 8 : Nat)) : Int)⟩ := by
  have l : CInt.lit 65280 = ⟨.int, ((255 * 2 ^ 8 : Nat) : Int)⟩ := by decide
  rcases ht with rfl | rfl
  all_goals
    rw [l, shr_mk, and_mask _ _ _ _ (by decide)]
    simp only [CType.wrap, CType.common, CType.promote, CType.rank, CType.bits,
      CType.isSigned, le_refl, reduceIte, Nat.reduceLeDiff, Nat.zero_le, Bool.false_eq_true]
    refine congrArg (CInt.mk _) ?_
    omega

theorem Swap8Bytes_term2 (t : CType) (ht : t = .long ∨ t = .ulong) (v : Int) :
    (CInt.shr ⟨t, v⟩ 24).and (CInt.lit 16711680)
      = ⟨t, ((((v / 2 ^ 40 % 256).toNat * 2 ^ 16 : Nat)) : Int)⟩ := by
  have l : CInt.lit 16711680 = ⟨.int, ((255 * 2 ^ 16 : Nat) : Int)⟩ := by decide
  rcases ht with rfl | rfl
  all_goals
    rw [l, shr_mk, and_mask _ _ _ _ (by decide)]
    simp only [CType.wrap, CType.common, CType.promote, CType.rank, CType.bits,
      CType.isSigned, le_refl, reduceIte, Nat.reduceLeDiff, Nat.zero_le, Bool.false_eq_true]
    refine congrArg (CInt.mk _) ?_
    omega

theorem Swap8Bytes_term3 (t : CType) (ht : t = .long ∨ t = .ulong) (v : Int) :
    (CInt.shr ⟨t, v⟩ 8).and (CInt.lit 4278190080)
      = ⟨t, ((((v / 2 ^ 32 % 256).toNat * 2 ^ 24 : Nat)) : Int)⟩ := by
  have l : CInt.lit 4278190080 = ⟨.uint, ((255 * 2 ^ 24 : Nat) : Int)⟩ := by decide
  rcases ht with rfl | rfl
  all_goals
    rw [l, shr_mk, and_mask _ _ _ _ (by decide)]
    simp only [CType.wrap, CType.common, CType.promote, CType.rank, CType.bits,
      CType.isSigned, le_refl, reduceIte, Nat.reduceLeDiff, Nat.zero_le, Bool.false_eq_true]
    refine congrArg (CInt.mk _) ?_
    omega

theorem Swap8Bytes_term4 (t : CType) (ht : t = .long ∨ t = .ulong) (v : Int) :
    (CInt.shl ⟨t, v⟩ 8).and (CInt.lit 1095216660480)
      = ⟨t, ((((v / 2 ^ 24 % 256).toNat * 2 ^ 32 : Nat)) : Int)⟩ := by
  have l : CInt.lit 1095216660480 = ⟨.long, ((255 * 2 ^ 32 : Nat) : Int)⟩ := by decide
  rcases ht with rfl | rfl
  all_goals
    rw [l, shl_mk, and_mask _ _ _ _ (by decide)]
    simp only [CType.wrap, CType.common, CType.promote, CType.rank, CType.bits,
      CType.isSigned, le_refl, reduceIte, Nat.reduceLeDiff, Nat.zero_le, Bool.false_eq_true]
    refine congrArg (CInt.mk _) ?_
    omega

theorem Swap8Bytes_term5 (t : CType) (ht : t = .long ∨ t = .ulong) (v : Int) :
    (CInt.shl ⟨t, v⟩ 24).and (CInt.lit 280375465082880)
      = ⟨t, ((((v / 2 ^ 16 % 256).toNat * 2 ^ 40 : Nat)) : Int)⟩ := by
  have l : CInt.lit 280375465082880 = ⟨.long, ((255 * 2 ^ 40 : Nat) : Int)⟩ := by decide
  rcases ht with rfl | rfl
  all_goals
    rw [l, shl_mk, and_mask _ _ _ _ (by decide)]
    simp only [CType.wrap, CType.common, CType.promote, CType.rank, CType.bits,
      CType.isSigned, le_refl, reduceIte, Nat.reduceLeDiff, Nat.zero_le, Bool.false_eq_true]
    refine congrArg (CInt.mk _) ?_
    omega

theorem Swap8Bytes_term6 (t : CType) (ht : t = .long ∨ t = .ulong) (v : Int) :
    (CInt.shl ⟨t, v⟩ 40).and (CInt.lit 71776119061217280)
      = ⟨t, ((((v / 2 ^ 8 % 256).toNat * 2 ^ 48 : Nat)) : Int)⟩ := by
  have l : CInt.lit 71776119061217280 = ⟨.long, ((255 * 2 ^ 48 : Nat) : Int)⟩ := by decide
  rcases ht with rfl | rfl
  all_goals
    rw [l, shl_mk, and_mask _ _ _ _ (by decide)]
    simp only [CType.wrap, CType.common, CType.promote, CType.rank, CType.bits,
      CType.isSigned, le_refl, reduceIte, Nat.reduceLeDiff, Nat.zero_le, Bool.false_eq_true]
    refine congrArg (CInt.mk _) ?_
    omega

theorem Swap8Bytes_term7 (t : CType) (ht : t = .long ∨ t = .ulong) (v : Int) :
    (CInt.shl ⟨t, v⟩ 56).and (CInt.lit 18374686479671623680)
      = ⟨.ulong, ((((v % 256).toNat * 2 ^ 56 : Nat)) : Int)⟩ := by
  have l : CInt.lit 18374686479671623680 = ⟨.ulong, ((255 * 2 ^ 56 : Nat) : Int)⟩ := by decide
  rcases ht with rfl | rfl
  all_goals
    rw [l, shl_mk, and_mask _ _ _ _ (by decide)]
    simp only [CType.wrap, CType.common, CType.promote, CType.rank, CType.bits,
      CType.isSigned, le_refl, reduceIte, Nat.reduceLeDiff, Nat.zero_le, Bool.false_eq_true]
    refine congrArg (CInt.mk _) ?_
    omega

theorem Swap8Bytes_val (t : CType) (ht : t = .long ∨ t = .ulong) (v : Int) :
    Swap8Bytes ⟨t, v⟩ =
      ⟨.ulong, ((((v / 2 ^ 56 % 256).toNat + (v / 2 ^ 48 % 256).toNat * 2 ^ 8
          + (v / 2 ^ 40 % 256).toNat * 2 ^ 16 + (v / 2 ^ 32 % 256).toNat * 2 ^ 24
          + (v / 2 ^ 24 % 256).toNat * 2 ^ 32 + (v / 2 ^ 16 % 256).toNat * 2 ^ 40
          + (v / 2 ^ 8 % 256).toNat * 2 ^ 48 + (v % 256).toNat * 2 ^ 56 : Nat)) : Int)⟩ := by
  unfold Swap8Bytes
  rw [Swap8Bytes_term0 t ht v, Swap8Bytes_term1 t ht v, Swap8Bytes_term2 t ht v,
      Swap8Bytes_term3 t ht v, Swap8Bytes_term4 t ht v, Swap8Bytes_term5 t ht v,
      Swap8Bytes_term6 t ht v, Swap8Bytes_term7 t ht v]
  have b0 := toNat_byte_lt v
  generalize (v % 256).toNat = x0 at b0 ⊢
  have b1 := toNat_byte_lt (v / 2 ^ 8)
  generalize (v / 2 ^ 8 % 256).toNat = x1 at b1 ⊢
  have b2 := toNat_byte_lt (v / 2 ^ 16)
  generalize (v / 2 ^ 16 % 256).toNat = x2 at b2 ⊢
  have b3 := toNat_byte_lt (v / 2 ^ 24)
  generalize (v / 2 ^ 24 % 256).toNat = x3 at b3 ⊢
  have b4 := toNat_byte_lt (v / 2 ^ 32)
  generalize (v / 2 ^ 32 % 256).toNat = x4 at b4 ⊢
  have b5 := toNat_byte_lt (v / 2 ^ 40)
  generalize (v / 2 ^ 40 % 256).toNat = x5 at b5 ⊢
  have b6 := toNat_byte_lt (v / 2 ^ 48)
  generalize (v / 2 ^ 48 % 256).toNat = x6 at b6 ⊢
  have b7 := toNat_byte_lt (v / 2 ^ 56)
  generalize (v / 2 ^ 56 % 256).toNat = x7 at b7 ⊢
  rcases ht with rfl | rfl
  all_goals
    rw [or_nat _ _ _ _ _ b7 (by
        simp only [CType.common, CType.promote, CType.rank, CType.bits, CType.isSigned, le_refl,
          reduceIte, Nat.reduceLeDiff, Nat.zero_le, Bool.false_eq_true]
        omega),
      or_nat _ _ _ _ _ (by omega) (by
        simp only [CType.common, CType.promote, CType.rank, CType.bits, CType.isSigned, le_refl,
          reduceIte, Nat.reduceLeDiff, Nat.zero_le, Bool.false_eq_true]
        omega),
      or_nat _ _ _ _ _ (by omega) (by
        simp only [CType.common, CType.promote, CType.rank, CType.bits, CType.isSigned, le_refl,
          reduceIte, Nat.reduceLeDiff, Nat.zero_le, Bool.false_eq_true]
        omega),
      or_nat _ _ _ _ _ (by omega) (by
        simp only [CType.common, CType.promote, CType.rank, CType.bits, CType.isSigned, le_refl,
          reduceIte, Nat.reduceLeDiff, Nat.zero_le, Bool.false_eq_true]
        omega),
      or_nat _ _ _ _ _ (by omega) (by
        simp only [CType.common, CType.promote, CType.rank, CType.bits, CType.isSigned, le_refl,
          reduceIte, Nat.reduceLeDiff, Nat.zero_le, Bool.false_eq_true]
        omega),
      or_nat _ _ _ _ _ (by omega) (by
        simp only [CType.common, CType.promote, CType.rank, CType.bits, CType.isSigned, le_refl,
          reduceIte, Nat.reduceLeDiff, Nat.zero_le, Bool.false_eq_true]
        omega),
      or_nat _ _ _ _ _ (by omega) (by
        simp only [CType.common, CType.promote, CType.rank, CType.bits, CType.isSigned, le_refl,
          reduceIte, Nat.reduceLeDiff, Nat.zero_le, Bool.false_eq_true]
        omega)]
    simp only [CType.common, CType.promote, CType.rank, le_refl,
      reduceIte, Nat.reduceLeDiff, Nat.zero_le]

theorem bytes8 (x0 x1 x2 x3 x4 x5 x6 x7 : Nat) (b0 : x0 < 256) (b1 : x1 < 256) (b2 : x2 < 256) (b3 : x3 < 256) (b4 : x4 < 256) (b5 : x5 < 256) (b6 : x6 < 256) (b7 : x7 < 256)
    (w : Int) (hw : w = ((x7 + x6 * 2 ^ 8 + x5 * 2 ^ 16 + x4 * 2 ^ 24 + x3 * 2 ^ 32 + x2 * 2 ^ 40
        + x1 * 2 ^ 48 + x0 * 2 ^ 56 : Nat) : Int)) :
    (w / 2 ^ 56 % 256).toNat = x0 ∧ (w / 2 ^ 48 % 256).toNat = x1 ∧ (w / 2 ^ 40 % 256).toNat = x2
        ∧ (w / 2 ^ 32 % 256).toNat = x3 ∧ (w / 2 ^ 24 % 256).toNat = x4
        ∧ (w / 2 ^ 16 % 256).toNat = x5 ∧ (w / 2 ^ 8 % 256).toNat = x6 ∧ (w % 256).toNat = x7 := by
  subst hw
  refine ⟨?_, ?_, ?_, ?_, ?_, ?_, ?_, ?_⟩ <;> omega

theorem split8 (v : Int) : v % 2 ^ 64 = v % 256 + v / 2 ^ 8 % 256 * 2 ^ 8
    + v / 2 ^ 16 % 256 * 2 ^ 16 + v / 2 ^ 24 % 256 * 2 ^ 24 + v / 2 ^ 32 % 256 * 2 ^ 32
    + v / 2 ^ 40 % 256 * 2 ^ 40 + v / 2 ^ 48 % 256 * 2 ^ 48 + v / 2 ^ 56 % 256 * 2 ^ 56 := by
  have s1 : v % 2 ^ 16 = v % 2 ^ 8 + (v / 2 ^ 8 % 256) * 2 ^ 8 := by omega
  have s2 : v % 2 ^ 24 = v % 2 ^ 16 + (v / 2 ^ 16 % 256) * 2 ^ 16 := by omega
  have s3 : v % 2 ^ 32 = v % 2 ^ 24 + (v / 2 ^ 24 % 256) * 2 ^ 24 := by omega
  have s4 : v % 2 ^ 40 = v % 2 ^ 32 + (v / 2 ^ 32 % 256) * 2 ^ 32 := by omega
  have s5 : v % 2 ^ 48 = v % 2 ^ 40 + (v / 2 ^ 40 % 256) * 2 ^ 40 := by omega
  have s6 : v % 2 ^ 56 = v % 2 ^ 48 + (v / 2 ^ 48 % 256) * 2 ^ 48 := by omega
  have s7 : v % 2 ^ 64 = v % 2 ^ 56 + (v / 2 ^ 56 % 256) * 2 ^ 56 := by omega
  omega

theorem Swap8Bytes_twice (t : CType) (ht : t = .long ∨ t = .ulong) (v : Int) :
    (Swap8Bytes (Swap8Bytes ⟨t, v⟩)).val = v % 2 ^ 64 := by
  rw [Swap8Bytes_val t ht v, Swap8Bytes_val .ulong (Or.inr rfl) _]
  simp only
  obtain ⟨h0, h1, h2, h3, h4, h5, h6,
      h7⟩ := bytes8 _ _ _ _ _ _ _ _ (toNat_byte_lt _) (toNat_byte_lt _) (toNat_byte_lt _) (toNat_byte_lt _) (toNat_byte_lt _) (toNat_byte_lt _) (toNat_byte_lt _) (toNat_byte_lt _) _ rfl
  rw [h0, h1, h2, h3, h4, h5, h6, h7, split8 v]
  push_cast
  rw [toNat_byte, toNat_byte, toNat_byte, toNat_byte, toNat_byte, toNat_byte, toNat_byte,
      toNat_byte]

theorem CType.bits_eq_16 {t : CType} (h : t.bits = 16) : t = .short ∨ t = .ushort := by
  cases t <;> simp [CType.bits] at h ⊢

theorem CType.bits_eq_32 {t : CType} (h : t.bits = 32) : t = .int ∨ t = .uint := by
  cases t <;> simp [CType.bits] at h ⊢

theorem CType.bits_eq_64 {t : CType} (h : t.bits = 64) : t = .long ∨ t = .ulong := by
  cases t <;> simp [CType.bits] at h ⊢

/-- Claim C13: byte swapping is an involution on bit patterns. For a value `v` of a
16-bit type, `Swap2Bytes(Swap2Bytes(v))` is the 16-bit pattern of `v` (that is, `v`
modulo `2^16`); for a value of a 32-bit type, `Swap4Bytes(Swap4Bytes(v))` is `v` modulo
`2^32`; for a value of a 64-bit type, `Swap8Bytes(Swap8Bytes(v))` is `v` modulo `2^64`. -/
theorem Swap_involution :
    (∀ (t : CType) (v : Int), t.bits = 16 →
      (Swap2Bytes (Swap2Bytes ⟨t, v⟩)).val = v % 2 ^ 16) ∧
    (∀ (t : CType) (v : Int), t.bits = 32 →
      (Swap4Bytes (Swap4Bytes ⟨t, v⟩)).val = v % 2 ^ 32) ∧
    (∀ (t : CType) (v : Int), t.bits = 64 →
      (Swap8Bytes (Swap8Bytes ⟨t, v⟩)).val = v % 2 ^ 64) := by
  refine ⟨fun t v h => ?_, fun t v h => Swap4Bytes_twice t (CType.bits_eq_32 h) v,
    fun t v h => Swap8Bytes_twice t (CType.bits_eq_64 h) v⟩
  rcases CType.bits_eq_16 h with rfl | rfl
  · exact Swap2Bytes_twice _ (Or.inl rfl) v
  · exact Swap2Bytes_twice _ (Or.inr (Or.inl rfl)) v

/-- The involution at `0x1234` and `-2` as `short`, `-2` as `int`, `2^63 + 5` as
`unsigned long`. -/
theorem Swap_involution_witness :
    (Swap2Bytes (Swap2Bytes ⟨.short, 0x1234⟩)).val = 0x1234 % 2 ^ 16 ∧
    (Swap2Bytes (Swap2Bytes ⟨.short, -2⟩)).val = -2 % 2 ^ 16 ∧
    (Swap4Bytes (Swap4Bytes ⟨.int, -2⟩)).val = -2 % 2 ^ 32 ∧
    (Swap8Bytes (Swap8Bytes ⟨.ulong, 2 ^ 63 + 5⟩)).val = (2 ^ 63 + 5) % 2 ^ 64 :=
  ⟨Swap_involution.1 .short 0x1234 rfl, Swap_involution.1 .short (-2) rfl,
    Swap_involution.2.1 .int (-2) rfl, Swap_involution.2.2 .ulong (2 ^ 63 + 5) rfl⟩

/-! ### The registry -/

namespace Map

variable {α : Type}

theorem find_nil (k : String) : find ([] : Map α) k = none := rfl

theorem find_cons (e : String × α) (m : Map α) (k : String) :
    find (e :: m) k = if e.1 = k then some e.2 else find m k := by
  unfold find
  rw [List.find?_cons]
  by_cases h : e.1 = k
  · simp [h]
  · have hb : (e.1 == k) = false := by simpa using h
    simp [h, hb]

theorem count_eq_zero {m : Map α} {k : String} : m.count k = 0 ↔ m.find k = none := by
  unfold count
  cases m.find k <;> simp

theorem count_ne_zero {m : Map α} {k : String} : m.count k ≠ 0 ↔ ∃ v, m.find k = some v := by
  unfold count
  cases m.find k <;> simp

theorem find_insertNew (k : String) (v : α) (k' : String) :
    ∀ m : Map α, m.find k = none →
      (insertNew k v m).find k' = if k' = k then some v else m.find k' := by
  intro m
  induction m with
  | nil =>
    intro _
    rw [insertNew, find_cons, find_nil]
    by_cases h : k' = k
    · simp [h]
    · have : ¬ k = k' := fun e => h e.symm
      simp [h, this, find_nil]
  | cons e m ih =>
    intro hk
    rw [find_cons] at hk
    by_cases he : e.1 = k
    · simp [he] at hk
    · rw [if_neg he] at hk
      rw [insertNew]
      split
      · rw [find_cons]
        by_cases h : k' = k
        · simp [h]
        · have : ¬ k = k' := fun e => h e.symm
          simp [h, this]
      · rw [find_cons, ih hk, find_cons]
        by_cases h : k' = k
        · subst h
          simp [he]
        · simp [h]

theorem find_replace (k : String) (v : α) (k' : String) :
    ∀ m : Map α, (find (m.map fun e => if e.1 == k then (e.1, v) else e) k') =
      if k' = k then (m.find k).map (fun _ => v) else m.find k' := by
  intro m
  induction m with
  | nil => simp [find_nil]
  | cons e m ih =>
    rw [List.map_cons, find_cons, find_cons, find_cons, ih]
    by_cases he : e.1 = k
    · have hb : (e.1 == k) = true := by simpa using he
      by_cases hk : k' = k
      · simp [hb, he, hk]
      · have : ¬ k = k' := fun e => hk e.symm
        simp [hb, he, hk, this]
    · have hb : (e.1 == k) = false := by simpa using he
      by_cases hk : k' = k
      · simp [hb, he, hk]
      · simp [hb, hk]

theorem find_assign (m : Map α) (k : String) (v : α) (k' : String) :
    (m.assign k v).find k' = if k' = k then some v else m.find k' := by
  unfold assign
  split
  · rename_i h
    exact find_insertNew k v k' m (count_eq_zero.mp h)
  · rename_i h
    obtain ⟨w, hw⟩ := count_ne_zero.mp h
    rw [find_replace, hw]
    rfl

theorem length_insertNew (k : String) (v : α) :
    ∀ m : Map α, (insertNew k v m).length = m.length + 1 := by
  intro m
  induction m with
  | nil => rfl
  | cons e m ih =>
    rw [insertNew]
    split
    · rfl
    · rw [List.length_cons, ih, List.length_cons]

theorem size_assign (m : Map α) (k : String) (v : α) :
    (m.assign k v).size = if m.count k = 0 then m.size + 1 else m.size := by
  unfold assign size
  split
  · exact length_insertNew k v m
  · rw [List.length_map]

theorem find_erase (k k' : String) :
    ∀ m : Map α, (m.erase k).find k' = if k' = k then none else m.find k' := by
  intro m
  induction m with
  | nil => simp [erase, find_nil]
  | cons e m ih =>
    unfold erase at ih ⊢
    rw [List.filter_cons]
    by_cases he : e.1 = k
    · have hb : (e.1 == k) = true := by simpa using he
      simp only [hb, Bool.not_true, Bool.false_eq_true, if_false]
      rw [ih, find_cons]
      by_cases hk : k' = k
      · simp [hk]
      · have : ¬ e.1 = k' := fun h => hk (h.symm.trans he)
        simp [hk, this]
    · have hb : (e.1 == k) = false := by simpa using he
      simp only [hb, Bool.not_false, if_true]
      rw [find_cons, find_cons, ih]
      by_cases hk : k' = k
      · subst hk
        simp [he]
      · simp [hk]

theorem find_mem {k : String} {v : α} : ∀ {m : Map α}, m.find k = some v → (k, v) ∈ m := by
  intro m
  induction m with
  | nil => intro h; simp [find_nil] at h
  | cons e m ih =>
    intro h
    rw [find_cons] at h
    by_cases he : e.1 = k
    · rw [if_pos he] at h
      simp only [Option.some.injEq] at h
      have : e = (k, v) := by rw [← he, ← h]
      rw [this]
      exact List.mem_cons_self _ _
    · rw [if_neg he] at h
      exact List.mem_cons_of_mem _ (ih h)

theorem mem_insertNew {k : String} {v : α} {e : String × α} :
    ∀ {m : Map α}, e ∈ insertNew k v m → e = (k, v) ∨ e ∈ m := by
  intro m
  induction m with
  | nil => intro h; simpa [insertNew] using h
  | cons a m ih =>
    intro h
    rw [insertNew] at h
    split at h
    · simpa using h
    · rcases List.mem_cons.mp h with h1 | h1
      · exact Or.inr (h1 ▸ List.mem_cons_self _ _)
      · rcases ih h1 with h2 | h2
        · exact Or.inl h2
        · exact Or.inr (List.mem_cons_of_mem _ h2)

theorem mem_assign {k : String} {v : α} {e : String × α} {m : Map α}
    (h : e ∈ m.assign k v) : e = (k, v) ∨ e ∈ m := by
  unfold assign at h
  split at h
  · exact mem_insertNew h
  · obtain ⟨a, ha, rfl⟩ := List.mem_map.mp h
    by_cases hk : a.1 = k
    · left
      have hb : (a.1 == k) = true := by simpa using hk
      simp [hb, hk]
    · right
      have hb : (a.1 == k) = false := by simpa using hk
      simpa [hb] using ha

theorem keys_replace (k : String) (v : α) (m : Map α) :
    (m.map fun e => if e.1 == k then (e.1, v) else e).map Prod.fst = m.map Prod.fst := by
  rw [List.map_map]
  apply List.map_congr_left
  intro e _
  simp only [Function.comp]
  split <;> rfl

theorem keys_insertNew (k : String) (v : α) :
    ∀ m : Map α, ((insertNew k v m).map Prod.fst).Perm (k :: m.map Prod.fst) := by
  intro m
  induction m with
  | nil => exact List.Perm.refl _
  | cons e m ih =>
    rw [insertNew]
    split
    · exact List.Perm.refl _
    · rw [List.map_cons, List.map_cons]
      exact (List.Perm.cons _ ih).trans (List.Perm.swap _ _ _)

theorem find_eq_none {k : String} : ∀ {m : Map α}, m.find k = none ↔ k ∉ m.map Prod.fst := by
  intro m
  induction m with
  | nil => simp [find_nil]
  | cons e m ih =>
    rw [find_cons, List.map_cons, List.mem_cons]
    by_cases he : e.1 = k
    · simp [he]
    · have : ¬ k = e.1 := fun h => he h.symm
      simp [he, this, ih]

theorem nodup_assign {m : Map α} (k : String) (v : α) (h : (m.map Prod.fst).Nodup) :
    ((m.assign k v).map Prod.fst).Nodup := by
  unfold assign
  split
  · rename_i hc
    rw [(keys_insertNew k v m).nodup_iff, List.nodup_cons]
    exact ⟨find_eq_none.mp (count_eq_zero.mp hc), h⟩
  · rw [keys_replace]
    exact h

theorem find_of_mem {m : Map α} (h : (m.map Prod.fst).Nodup) :
    ∀ {e : String × α}, e ∈ m → m.find e.1 = some e.2 := by
  induction m with
  | nil => intro e he; simp at he
  | cons a m ih =>
    intro e he
    rw [List.map_cons, List.nodup_cons] at h
    rw [find_cons]
    rcases List.mem_cons.mp he with rfl | hm
    · simp
    · have hne : a.1 ≠ e.1 := by
        intro heq
        exact h.1 (heq ▸ List.mem_map_of_mem Prod.fst hm)
      rw [if_neg hne]
      exact ih h.2 hm

end Map

section BridgeTheorems

variable {Obj Body : Type}

/-! ### Delivery of messages -/

/-- The two ways in which a delivery returns: no callback runs and the state is as it
was, or the callback of the handle under the topic runs. -/
theorem deliver_cases (cv : Converters Obj Body) (s s1 : Bridge Obj Body)
    (d : String × Message Body) (h : deliver cv s d = .ok s1) :
    (decodeOutcome cv s d = none ∧ s.isSubscribed d.1 = false ∧ s1 = s) ∨
    ∃ h0 payload obj r o, s.gSubscribers.find d.1 = some (some h0) ∧
      h0.cls = .message payload obj ∧ h0.sub = true ∧
      cv.ROSToKlampt payload d.2.body (s.objects obj) = .ok (r, o) ∧
      decodeOutcome cv s d = some r ∧ s.isSubscribed d.1 = true ∧
      s1.objects = Function.update s.objects obj o ∧
      s1.gSubscribers = s.gSubscribers.assign d.1
        (some { h0 with numMessages := toInt32 (h0.numMessages + 1), header := d.2.header,
                        error := !r }) ∧
      s1.gRosSubscribeError = (s.gRosSubscribeError || !r) ∧
      s1.gRosSubscribeErrorWhere = (if r then s.gRosSubscribeErrorWhere else h0.topic) ∧
      s1.gPublishers = s.gPublishers ∧ s1.sent = s.sent := by
  unfold deliver at h
  unfold decodeOutcome Bridge.isSubscribed Subscriber.isLive
  cases hf : s.gSubscribers.find d.1 with
  | none =>
    rw [hf] at h
    simp only [Except.ok.injEq] at h
    exact Or.inl ⟨rfl, rfl, h.symm⟩
  | some oh =>
    cases oh with
    | none =>
      rw [hf] at h
      simp only [Except.ok.injEq] at h
      exact Or.inl ⟨rfl, rfl, h.symm⟩
    | some h0 =>
      rw [hf] at h
      dsimp only at h ⊢
      cases hc : h0.cls with
      | tf transforms =>
        rw [hc] at h
        simp only [Except.ok.injEq] at h
        exact Or.inl ⟨rfl, by simp, h.symm⟩
      | message payload obj =>
        rw [hc] at h
        dsimp only at h ⊢
        cases hsub : h0.sub with
        | false =>
          rw [hsub] at h
          simp only [Bool.false_eq_true, if_false, Except.ok.injEq] at h
          exact Or.inl ⟨by simp, by simp, h.symm⟩
        | true =>
          rw [hsub] at h
          simp only [if_true] at h
          unfold ROSSubscriber.callback at h
          cases hcv : cv.ROSToKlampt payload d.2.body (s.objects obj) with
          | error e => rw [hcv] at h; simp at h
          | ok ro =>
            obtain ⟨r, o⟩ := ro
            rw [hcv] at h
            dsimp only at h
            refine Or.inr ⟨h0, payload, obj, r, o, rfl, hc, hsub, hcv, by simp [hcv], by simp, ?_⟩
            cases r with
            | false =>
              simp only [Bool.not_false, if_true, Except.ok.injEq] at h
              subst h
              exact ⟨rfl, rfl, by simp, by simp, rfl, rfl⟩
            | true =>
              simp only [Bool.not_true, Bool.false_eq_true, if_false, Except.ok.injEq] at h
              subst h
              exact ⟨rfl, rfl, by simp, by simp, rfl, rfl⟩

theorem deliver_error (cv : Converters Obj Body) (s s1 : Bridge Obj Body)
    (d : String × Message Body) (hw : s.TopicsMatch) (h : deliver cv s d = .ok s1) :
    s1.gRosSubscribeError
        = (s.gRosSubscribeError || decide (decodeOutcome cv s d = some false)) ∧
      s1.gRosSubscribeErrorWhere
        = (if decodeOutcome cv s d = some false then d.1 else s.gRosSubscribeErrorWhere) ∧
      s1.TopicsMatch := by
  rcases deliver_cases cv s s1 d h with ⟨ho, _, rfl⟩ |
    ⟨h0, payload, obj, r, o, hf, hc, hsub, hcv, ho, _, _, hsubs, he, hwh, _, _⟩
  · rw [ho]
    exact ⟨by simp, by simp, hw⟩
  · have ht : h0.topic = d.1 := hw (d.1, some h0) (Map.find_mem hf) h0 rfl hsub
    rw [ho, he, hwh]
    refine ⟨by cases r <;> simp, by cases r <;> simp [ht], ?_⟩
    intro e hemem h1 hh1 hs1
    rw [hsubs] at hemem
    rcases Map.mem_assign hemem with rfl | hm
    · simp only [Option.mem_def, Option.some.injEq] at hh1
      subst hh1
      exact ht
    · exact hw e hm h1 hh1 hs1

theorem spinOnce_errors (cv : Converters Obj Body) :
    ∀ (ds : List (String × Message Body)) (s s1 : Bridge Obj Body), s.TopicsMatch →
      spinOnce cv ds s = .ok s1 →
      s1.gRosSubscribeError = (s.gRosSubscribeError || !(failedTopics cv ds s).isEmpty) ∧
      s1.gRosSubscribeErrorWhere
        = (failedTopics cv ds s).getLast?.getD s.gRosSubscribeErrorWhere ∧
      s1.TopicsMatch := by
  intro ds
  induction ds with
  | nil =>
    intro s s1 hw h
    simp only [spinOnce, Except.ok.injEq] at h
    subst h
    exact ⟨by simp [failedTopics], by simp [failedTopics], hw⟩
  | cons d ds ih =>
    intro s s1 hw h
    rw [spinOnce] at h
    cases hd : deliver cv s d with
    | error e => simp [hd] at h
    | ok s2 =>
      rw [hd] at h
      dsimp only at h
      obtain ⟨e1, e2, e3⟩ := deliver_error cv s s2 d hw hd
      obtain ⟨i1, i2, i3⟩ := ih s2 s1 e3 h
      rw [failedTopics, hd]
      dsimp only
      refine ⟨?_, ?_, i3⟩
      · rw [i1, e1]
        by_cases ho : decodeOutcome cv s d = some false
        · simp [ho]
        · simp [ho]
      · rw [i2, e2]
        by_cases ho : decodeOutcome cv s d = some false
        · rw [if_pos ho, if_pos ho]
          cases hF : failedTopics cv ds s2 with
          | nil => simp
          | cons a l => simp [List.getLast?_append, List.getLast?_cons_cons,
              List.getLast?_eq_getLast]
        · rw [if_neg ho, if_neg ho, List.nil_append]

/-- Claim C19: over the messages that one `spinOnce` delivers, the global error flag is
set afterwards iff it was set before or at least one delivered message failed to decode
(so, from a cleared flag, iff at least one failed, whatever decodes later), and the
recorded topic is the topic of the last delivered message that failed. -/
theorem spinOnce_error_sticky (cv : Converters Obj Body) (ds : List (String × Message Body))
    (s s1 : Bridge Obj Body) (hw : s.TopicsMatch) (h : spinOnce cv ds s = .ok s1) :
    (s.gRosSubscribeError = false →
      (s1.gRosSubscribeError = true ↔ failedTopics cv ds s ≠ [])) ∧
    (s.gRosSubscribeError = true → s1.gRosSubscribeError = true) ∧
    (∀ t, (failedTopics cv ds s).getLast? = some t → s1.gRosSubscribeErrorWhere = t) ∧
    (failedTopics cv ds s = [] → s1.gRosSubscribeErrorWhere = s.gRosSubscribeErrorWhere) := by
  obtain ⟨i1, i2, _⟩ := spinOnce_errors cv ds s s1 hw h
  refine ⟨?_, ?_, ?_, ?_⟩
  · intro h0
    rw [i1, h0]
    cases failedTopics cv ds s <;> simp
  · intro h0
    rw [i1, h0]
    rfl
  · intro t ht
    rw [i2, ht]
    rfl
  · intro h0
    rw [i2, h0]
    rfl

/-! ### Subscribing -/

theorem RosSubscribe_ok (payload : Payload) (obj : Nat) (topic : String) (binds : Bool)
    (s s1 : Bridge Obj Body) (h : RosSubscribe payload obj topic binds s = .ok (true, s1)) :
    binds = true ∧ s.gSubscribers.find topic ≠ some none ∧
      s1.gSubscribers =
        (if s.gSubscribers.find topic = none then s.gSubscribers
          else s.gSubscribers.assign topic none).assign topic
          (some (ROSSubscriber.new payload obj topic true)) ∧
      s1.objects = s.objects := by
  unfold RosSubscribe ROSInit at h
  simp only [Bool.not_true, Bool.false_eq_true, if_false] at h
  cases hf : s.gSubscribers.find topic with
  | none =>
    rw [hf] at h
    dsimp only at h
    cases binds with
    | false => simp [ROSSubscriber.new] at h
    | true =>
      simp only [ROSSubscriber.new, Bool.not_true, Bool.false_eq_true, if_false,
        Except.ok.injEq, Prod.mk.injEq, true_and] at h
      subst h
      exact ⟨rfl, by simp, by simp [ROSSubscriber.new], rfl⟩
  | some oh =>
    cases oh with
    | none => rw [hf] at h; simp at h
    | some h0 =>
      rw [hf] at h
      dsimp only at h
      cases binds with
      | false => simp [ROSSubscriber.new] at h
      | true =>
        simp only [ROSSubscriber.new, Bool.not_true, Bool.false_eq_true, if_false,
          Except.ok.injEq, Prod.mk.injEq, true_and] at h
        subst h
        exact ⟨rfl, by simp, by simp [ROSSubscriber.new], rfl⟩

theorem RosSubscribe_find (payload : Payload) (obj : Nat) (topic : String) (binds : Bool)
    (s s1 : Bridge Obj Body) (h : RosSubscribe payload obj topic binds s = .ok (true, s1))
    (k : String) :
    s1.gSubscribers.find k =
      if k = topic then some (some (ROSSubscriber.new payload obj topic true))
      else s.gSubscribers.find k := by
  obtain ⟨_, _, hs, _⟩ := RosSubscribe_ok payload obj topic binds s s1 h
  rw [hs, Map.find_assign]
  by_cases hk : k = topic
  · simp [hk]
  · rw [if_neg hk, if_neg hk]
    split
    · rfl
    · rw [Map.find_assign, if_neg hk]

theorem deliver_objects (cv : Converters Obj Body) (s s1 : Bridge Obj Body)
    (d : String × Message Body) (a : Nat) (hn : s.NoTarget a) (h : deliver cv s d = .ok s1) :
    s1.objects a = s.objects a ∧ s1.NoTarget a := by
  rcases deliver_cases cv s s1 d h with ⟨_, _, rfl⟩ |
    ⟨h0, payload, obj, r, o, hf, hc, _, _, _, _, hobj, hsubs, _, _, _, _⟩
  · exact ⟨rfl, hn⟩
  · have hne : a ≠ obj := by
      intro heq
      exact hn d.1 h0 payload hf (heq ▸ hc)
    refine ⟨by rw [hobj, Function.update_noteq hne], ?_⟩
    intro k h1 p hk
    rw [hsubs, Map.find_assign] at hk
    by_cases hkd : k = d.1
    · rw [if_pos hkd] at hk
      simp only [Option.some.injEq] at hk
      subst hk
      exact hn d.1 h0 p hf
    · rw [if_neg hkd] at hk
      exact hn k h1 p hk

theorem spinOnce_objects (cv : Converters Obj Body) (a : Nat) :
    ∀ (ds : List (String × Message Body)) (s s1 : Bridge Obj Body), s.NoTarget a →
      spinOnce cv ds s = .ok s1 → s1.objects a = s.objects a := by
  intro ds
  induction ds with
  | nil =>
    intro s s1 _ h
    simp only [spinOnce, Except.ok.injEq] at h
    rw [h]
  | cons d ds ih =>
    intro s s1 hn h
    rw [spinOnce] at h
    cases hd : deliver cv s d with
    | error e => simp [hd] at h
    | ok s2 =>
      rw [hd] at h
      dsimp only at h
      obtain ⟨e1, e2⟩ := deliver_objects cv s s2 d a hn hd
      rw [ih s2 s1 e2 h, e1]

/-- Claim C14: after two subscribe calls on one topic that both return `true`, first with
the object at address `A`, then with the object at `B`, the registry is as large as
after the first call and holds, under the topic, one entry: the handle of the second
call, bound to `B` with a valid subscription. A message delivered on the topic is decoded
into `B` and leaves every other object as it is; if `A` is not `B` and no handle of
another topic refers to `A`, no sequence of deliveries changes `A`. -/
theorem RosSubscribe_twice (cv : Converters Obj Body) (pa pb : Payload) (A B : Nat)
    (topic : String) (ba bb : Bool) (s0 s1 s2 : Bridge Obj Body) (hu : s0.UniqueTopics)
    (h1 : RosSubscribe pa A topic ba s0 = .ok (true, s1))
    (h2 : RosSubscribe pb B topic bb s1 = .ok (true, s2)) :
    ROSNumSubscribedTopics s2 = ROSNumSubscribedTopics s1 ∧
    s2.gSubscribers.find topic = some (some (ROSSubscriber.new pb B topic true)) ∧
    (s2.gSubscribers.map Prod.fst).count topic = 1 ∧
    (∀ msg r o, cv.ROSToKlampt pb msg.body (s2.objects B) = .ok (r, o) →
      ∃ s3, deliver cv s2 (topic, msg) = .ok s3 ∧ s3.objects B = o ∧
        ∀ X, X ≠ B → s3.objects X = s2.objects X) ∧
    (A ≠ B → (∀ k h p, s2.gSubscribers.find k = some (some h) → h.cls = .message p A →
        k = topic) →
      ∀ ds s3, spinOnce cv ds s2 = .ok s3 → s3.objects A = s2.objects A) := by
  obtain ⟨_, _, hs1, _⟩ := RosSubscribe_ok pa A topic ba s0 s1 h1
  obtain ⟨_, _, hs2, _⟩ := RosSubscribe_ok pb B topic bb s1 s2 h2
  have hf1 := RosSubscribe_find pa A topic ba s0 s1 h1 topic
  have hf2 := RosSubscribe_find pb B topic bb s1 s2 h2 topic
  rw [if_pos rfl] at hf1 hf2
  have hc1 : s1.gSubscribers.count topic ≠ 0 := Map.count_ne_zero.mpr ⟨_, hf1⟩
  have hu1 : s1.UniqueTopics := by
    unfold Bridge.UniqueTopics at hu ⊢
    rw [hs1]
    apply Map.nodup_assign
    split
    · exact hu
    · exact Map.nodup_assign _ _ hu
  have hu2 : s2.UniqueTopics := by
    unfold Bridge.UniqueTopics at hu1 ⊢
    rw [hs2]
    apply Map.nodup_assign
    split
    · exact hu1
    · exact Map.nodup_assign _ _ hu1
  refine ⟨?_, hf2, ?_, ?_, ?_⟩
  · unfold ROSNumSubscribedTopics
    rw [hs2, if_neg (by rw [hf1]; simp), Map.size_assign, Map.size_assign, if_neg hc1,
      if_neg (Map.count_ne_zero.mpr ⟨_, by rw [Map.find_assign, if_pos rfl]⟩)]
  · exact List.count_eq_one_of_mem hu2
      (List.mem_map_of_mem Prod.fst (Map.find_mem hf2))
  · intro msg r o hcv
    have hd : deliver cv s2 (topic, msg) =
        ROSSubscriber.callback cv topic (ROSSubscriber.new pb B topic true) pb B msg s2 := by
      unfold deliver
      simp only [hf2, ROSSubscriber.new, if_true]
    rw [hd]
    unfold ROSSubscriber.callback
    rw [hcv]
    dsimp only
    split
    · exact ⟨_, rfl, by simp, fun X hX => by simp [Function.update_noteq hX]⟩
    · exact ⟨_, rfl, by simp, fun X hX => by simp [Function.update_noteq hX]⟩
  · intro hAB hA ds s3 hsp
    apply spinOnce_objects cv A ds s2 s3 _ hsp
    intro k h p hk hcls
    have hkt := hA k h p hk hcls
    subst hkt
    rw [hf2] at hk
    simp only [Option.some.injEq] at hk
    subst hk
    simp only [ROSSubscriber.new, SubscriberClass.message.injEq] at hcls
    exact hAB hcls.2.symm

/-! ### One round of `ROSSubscribeUpdate` -/

theorem keys_assign_of_find {α : Type} {m : Map α} {k : String} {w : α} (v : α)
    (h : m.find k = some w) : (m.assign k v).map Prod.fst = m.map Prod.fst := by
  unfold Map.assign
  rw [if_neg (Map.count_ne_zero.mpr ⟨w, h⟩), Map.keys_replace]

/-- What one delivery does to the entry of the topic `k`. -/
theorem deliver_find (cv : Converters Obj Body) (s s1 : Bridge Obj Body)
    (d : String × Message Body) (h : deliver cv s d = .ok s1) (k : String) :
    (s.gSubscribers.find k = none → s1.gSubscribers.find k = none) ∧
    (s.gSubscribers.find k = some none → s1.gSubscribers.find k = some none) ∧
    (∀ h0, s.gSubscribers.find k = some (some h0) →
      ∃ h1, s1.gSubscribers.find k = some (some h1) ∧ h1.sub = h0.sub ∧ h1.cls = h0.cls ∧
        h1.numMessages =
          if k = d.1 ∧ h0.isLive = true then toInt32 (h0.numMessages + 1)
          else h0.numMessages) ∧
    s1.gSubscribers.map Prod.fst = s.gSubscribers.map Prod.fst := by
  rcases deliver_cases cv s s1 d h with ⟨_, hns, rfl⟩ |
    ⟨h0, payload, obj, r, o, hf, hc, hsub, _, _, _, _, hsubs, _, _, _, _⟩
  · refine ⟨id, id, ?_, rfl⟩
    intro h0 hk
    refine ⟨h0, hk, rfl, rfl, ?_⟩
    rw [if_neg]
    rintro ⟨rfl, hl⟩
    unfold Bridge.isSubscribed at hns
    rw [hk] at hns
    simp only at hns
    rw [hl] at hns
    cases hns
  · rw [hsubs]
    refine ⟨?_, ?_, ?_, keys_assign_of_find _ hf⟩
    · intro hk
      rw [Map.find_assign, if_neg (by rintro rfl; rw [hf] at hk; cases hk)]
      exact hk
    · intro hk
      rw [Map.find_assign, if_neg (by rintro rfl; rw [hf] at hk; cases hk)]
      exact hk
    · intro h2 hk
      rw [Map.find_assign]
      by_cases hkd : k = d.1
      · subst hkd
        rw [hf] at hk
        simp only [Option.some.injEq] at hk
        subst hk
        rw [if_pos rfl]
        refine ⟨_, rfl, rfl, rfl, ?_⟩
        rw [if_pos ⟨rfl, by simp [Subscriber.isLive, hsub, hc]⟩]
      · rw [if_neg hkd]
        exact ⟨h2, hk, rfl, rfl, by rw [if_neg (fun hh => hkd hh.1)]⟩

theorem isLive_congr {h0 h1 : Subscriber} (hs : h1.sub = h0.sub) (hc : h1.cls = h0.cls) :
    h1.isLive = h0.isLive := by
  unfold Subscriber.isLive
  rw [hs, hc]

/-- What the deliveries of one `spinOnce` do to the entry of the topic `k`: the counter
of a handle with a valid subscription rises by the number of messages on `k`. -/
theorem spinOnce_find (cv : Converters Obj Body) (k : String) :
    ∀ (ds : List (String × Message Body)) (s s1 : Bridge Obj Body),
      spinOnce cv ds s = .ok s1 →
      (s.gSubscribers.find k = none → s1.gSubscribers.find k = none) ∧
      (s.gSubscribers.find k = some none → s1.gSubscribers.find k = some none) ∧
      (∀ h0, s.gSubscribers.find k = some (some h0) →
        ∃ h1, s1.gSubscribers.find k = some (some h1) ∧ h1.sub = h0.sub ∧ h1.cls = h0.cls ∧
          (0 ≤ h0.numMessages → h0.numMessages + ds.length < 2 ^ 31 →
            h1.numMessages = h0.numMessages +
              if h0.isLive = true then ((ds.filter fun d => d.1 == k).length : Int) else 0)) ∧
      s1.gSubscribers.map Prod.fst = s.gSubscribers.map Prod.fst := by
  intro ds
  induction ds with
  | nil =>
    intro s s1 h
    simp only [spinOnce, Except.ok.injEq] at h
    subst h
    refine ⟨id, id, ?_, rfl⟩
    intro h0 hk
    exact ⟨h0, hk, rfl, rfl, fun _ _ => by simp⟩
  | cons d ds ih =>
    intro s s1 h
    rw [spinOnce] at h
    cases hd : deliver cv s d with
    | error e => simp [hd] at h
    | ok s2 =>
      rw [hd] at h
      dsimp only at h
      obtain ⟨a1, a2, a3, a4⟩ := deliver_find cv s s2 d hd k
      obtain ⟨b1, b2, b3, b4⟩ := ih s2 s1 h
      refine ⟨fun hk => b1 (a1 hk), fun hk => b2 (a2 hk), ?_, b4.trans a4⟩
      intro h0 hk
      obtain ⟨h2, hk2, hs2, hc2, hn2⟩ := a3 h0 hk
      obtain ⟨h1, hk1, hs1, hc1, hn1⟩ := b3 h2 hk2
      refine ⟨h1, hk1, hs1.trans hs2, hc1.trans hc2, ?_⟩
      intro h0pos hlt
      rw [List.length_cons] at hlt
      push_cast at hlt
      have hl2 : h2.isLive = h0.isLive := isLive_congr hs2 hc2
      rw [List.filter_cons]
      by_cases hkd : k = d.1
      · subst hkd
        simp only [beq_self_eq_true, if_true, List.length_cons]
        by_cases hl : h0.isLive = true
        · rw [if_pos ⟨rfl, hl⟩, toInt32_of_lt (by omega) (by omega)] at hn2
          rw [hn1 (by omega) (by omega), hn2, hl2, if_pos hl, if_pos hl]
          push_cast
          omega
        · rw [if_neg (fun hh => hl hh.2)] at hn2
          rw [hn1 (by omega) (by omega), hn2, hl2, if_neg hl, if_neg hl]
      · have hb : (d.1 == k) = false := by
          simpa using fun hh : d.1 = k => hkd hh.symm
        rw [if_neg (fun hh => hkd hh.1)] at hn2
        simp only [hb, Bool.false_eq_true, if_false]
        rw [hn1 (by omega) (by omega), hn2, hl2]

theorem resetCounters_eq :
    ∀ (m m1 : Map (Option Subscriber)), resetCounters m = .ok m1 →
      m1 = m.map fun e => (e.1, e.2.map fun h => { h with numMessages := 0 }) := by
  intro m
  induction m with
  | nil =>
    intro m1 h
    simp only [resetCounters, Except.ok.injEq] at h
    rw [← h]
    rfl
  | cons e m ih =>
    intro m1 h
    obtain ⟨k, oh⟩ := e
    cases oh with
    | none => simp [resetCounters] at h
    | some h0 =>
      rw [resetCounters] at h
      cases hr : resetCounters m with
      | error e => simp [hr] at h
      | ok m2 =>
        rw [hr] at h
        simp only [Except.ok.injEq] at h
        rw [← h, ih m2 hr]
        rfl

theorem find_mapValues {α β : Type} (f : α → β) (k : String) :
    ∀ m : Map α, Map.find (m.map fun e => (e.1, f e.2)) k = (m.find k).map f := by
  intro m
  induction m with
  | nil => rfl
  | cons e m ih =>
    rw [List.map_cons, Map.find_cons, Map.find_cons, ih]
    split <;> rfl

theorem anyUpdated_eq :
    ∀ (m : Map (Option Subscriber)) (u : Bool), anyUpdated m = .ok u →
      (u = true ↔ ∃ e ∈ m, ∃ h, e.2 = some h ∧ 0 < h.numMessages) := by
  intro m
  induction m with
  | nil =>
    intro u h
    simp only [anyUpdated, Except.ok.injEq] at h
    subst h
    simp
  | cons e m ih =>
    intro u h
    obtain ⟨k, oh⟩ := e
    cases oh with
    | none => simp [anyUpdated] at h
    | some h0 =>
      rw [anyUpdated] at h
      cases hr : anyUpdated m with
      | error e => simp [hr] at h
      | ok u1 =>
        rw [hr] at h
        simp only [Except.ok.injEq] at h
        subst h
        have := ih u1 hr
        simp only [Bool.or_eq_true, decide_eq_true_eq, this, List.mem_cons, exists_eq_or_imp,
          Option.some.injEq, exists_eq_left']

theorem update_flag (cv : Converters Obj Body) (lookupTransform : String → Option Body) :
    ∀ (transforms : Map Nat) (s s1 : Bridge Obj Body),
      ROSTfSubscriber.update cv lookupTransform transforms s = .ok s1 →
      s1.gSubscribers = s.gSubscribers ∧
      (s1.gRosSubscribeError = true ↔
        s.gRosSubscribeError = true ∨ ∃ e ∈ transforms, lookupTransform e.1 = none) := by
  intro transforms
  induction transforms with
  | nil =>
    intro s s1 h
    simp only [ROSTfSubscriber.update, Except.ok.injEq] at h
    subst h
    simp
  | cons e rest ih =>
    intro s s1 h
    obtain ⟨frame, addr⟩ := e
    rw [ROSTfSubscriber.update] at h
    cases hl : lookupTransform frame with
    | none =>
      rw [hl] at h
      simp only [Except.ok.injEq] at h
      subst h
      simp [hl]
    | some t =>
      rw [hl] at h
      dsimp only at h
      cases hc : cv.ROSToKlamptTransform t (s.objects addr) with
      | error e => simp [hc] at h
      | ok ro =>
        obtain ⟨r, o⟩ := ro
        rw [hc] at h
        dsimp only at h
        obtain ⟨i1, i2⟩ := ih _ s1 h
        refine ⟨i1, ?_⟩
        rw [i2]
        simp [hl]

theorem deliver_flag (cv : Converters Obj Body) (s s1 : Bridge Obj Body)
    (d : String × Message Body) (h : deliver cv s d = .ok s1) :
    s1.gRosSubscribeError
      = (s.gRosSubscribeError || decide (decodeOutcome cv s d = some false)) := by
  rcases deliver_cases cv s s1 d h with ⟨ho, _, rfl⟩ |
    ⟨h0, payload, obj, r, o, _, _, _, _, ho, _, _, _, he, _, _, _⟩
  · rw [ho]; simp
  · rw [ho, he]; cases r <;> simp

theorem spinOnce_flag (cv : Converters Obj Body) :
    ∀ (ds : List (String × Message Body)) (s s1 : Bridge Obj Body),
      spinOnce cv ds s = .ok s1 →
      s1.gRosSubscribeError = (s.gRosSubscribeError || !(failedTopics cv ds s).isEmpty) := by
  intro ds
  induction ds with
  | nil =>
    intro s s1 h
    simp only [spinOnce, Except.ok.injEq] at h
    subst h
    simp [failedTopics]
  | cons d ds ih =>
    intro s s1 h
    rw [spinOnce] at h
    cases hd : deliver cv s d with
    | error e => simp [hd] at h
    | ok s2 =>
      rw [hd] at h
      dsimp only at h
      rw [ih s2 s1 h, deliver_flag cv s s2 d hd, failedTopics, hd]
      dsimp only
      by_cases ho : decodeOutcome cv s d = some false
      · simp [ho]
      · simp [ho]

theorem updateTransforms_flag (cv : Converters Obj Body) (round : Round Body)
    (s s2 s3 : Bridge Obj Body)
    (hnone : s.gSubscribers.find "tf" = none → s2.gSubscribers.find "tf" = none)
    (hnull : s.gSubscribers.find "tf" = some none → s2.gSubscribers.find "tf" = some none)
    (hsome : ∀ h0, s.gSubscribers.find "tf" = some (some h0) →
      ∃ h1, s2.gSubscribers.find "tf" = some (some h1) ∧ h1.cls = h0.cls)
    (h : updateTransforms cv round s2 = .ok s3) :
    s3.gSubscribers = s2.gSubscribers ∧
    (s3.gRosSubscribeError = true ↔ s2.gRosSubscribeError = true ∨ tfLookupFails round s) := by
  unfold updateTransforms at h
  unfold tfLookupFails
  cases hf : s.gSubscribers.find "tf" with
  | none =>
    rw [if_neg (by rw [Map.count_eq_zero.mpr (hnone hf)]; simp)] at h
    simp only [Except.ok.injEq] at h
    subst h
    simp
  | some oh =>
    cases oh with
    | none =>
      rw [hnull hf] at h
      simp only [ite_self, Except.ok.injEq] at h
      subst h
      simp
    | some h0 =>
      obtain ⟨h1, hf1, hc⟩ := hsome h0 hf
      rw [hf1, if_pos (Map.count_ne_zero.mpr ⟨_, hf1⟩)] at h
      dsimp only at h ⊢
      rw [hc] at h
      cases hcls : h0.cls with
      | message p a =>
        rw [hcls] at h
        simp only [Except.ok.injEq] at h
        subst h
        simp
      | tf transforms =>
        rw [hcls] at h
        dsimp only at h ⊢
        exact update_flag cv round.lookupTransform transforms s2 s3 h

/-- What one round does to the entry of the topic `k`, from the state in which
`ROSSubscribeUpdate` is called. -/
theorem round_find (cv : Converters Obj Body) (k : String) (ds : List (String × Message Body))
    (s s2 : Bridge Obj Body) (hl : ds.length < 2 ^ 31)
    (hsp : spinOnce cv ds s.roundStart = .ok s2) :
    (s.gSubscribers.find k = none → s2.gSubscribers.find k = none) ∧
    (s.gSubscribers.find k = some none → s2.gSubscribers.find k = some none) ∧
    (∀ h0, s.gSubscribers.find k = some (some h0) →
      ∃ h1, s2.gSubscribers.find k = some (some h1) ∧ h1.sub = h0.sub ∧ h1.cls = h0.cls ∧
        h1.numMessages =
          if h0.isLive = true then ((ds.filter fun d => d.1 == k).length : Int) else 0) ∧
    s2.gSubscribers.map Prod.fst = s.gSubscribers.map Prod.fst := by
  obtain ⟨a1, a2, a3, a4⟩ := spinOnce_find cv k ds s.roundStart s2 hsp
  have hfs : s.roundStart.gSubscribers.find k
      = (s.gSubscribers.find k).map (Option.map fun h => { h with numMessages := 0 }) :=
    find_mapValues _ k s.gSubscribers
  have hkeys : s.roundStart.gSubscribers.map Prod.fst = s.gSubscribers.map Prod.fst := by
    unfold Bridge.roundStart
    simp only [List.map_map]
    rfl
  refine ⟨fun hk => a1 (by rw [hfs, hk]; rfl), fun hk => a2 (by rw [hfs, hk]; rfl), ?_,
    a4.trans hkeys⟩
  intro h0 hk
  obtain ⟨h1, hk1, hs1, hc1, hn1⟩ := a3 { h0 with numMessages := 0 } (by rw [hfs, hk]; rfl)
  refine ⟨h1, hk1, hs1, hc1, ?_⟩
  have hn := hn1 (le_refl _) (by simp only [Int.zero_add]; exact_mod_cast hl)
  rw [hn, Int.zero_add]
  rfl

/-- Claim C18: `ROSSubscribeUpdate` returns `false` at once when both registries are
empty. Otherwise, when it returns, the messages of the round have been dispatched from
the state in which every counter is zero and the error flag is cleared; afterwards the
counter of every handle is the number of messages delivered to its topic in this round
(zero for a handle without a valid subscription), and the returned value is `true`
exactly when some subscribed topic received a message in this round, no delivered message
failed to decode, and no transform lookup failed. -/
theorem ROSSubscribeUpdate_round (cv : Converters Obj Body) (round : Round Body)
    (s : Bridge Obj Body) (hu : s.UniqueTopics) (hl : round.delivered.length < 2 ^ 31) :
    ((s.gSubscribers.size = 0 ∧ s.gPublishers.size = 0) →
      ROSSubscribeUpdate cv round s = .ok (false, s)) ∧
    (¬ (s.gSubscribers.size = 0 ∧ s.gPublishers.size = 0) → ∀ r s1,
      ROSSubscribeUpdate cv round s = .ok (r, s1) →
      (∃ s2, spinOnce cv round.delivered s.roundStart = .ok s2) ∧
      (∀ k h1, s1.gSubscribers.find k = some (some h1) →
        h1.numMessages =
          if s.isSubscribed k = true then
            ((round.delivered.filter fun d => d.1 == k).length : Int)
          else 0) ∧
      (r = true ↔ (∃ d ∈ round.delivered, s.isSubscribed d.1 = true) ∧
        failedTopics cv round.delivered s.roundStart = [] ∧ ¬ tfLookupFails round s)) := by
  refine ⟨fun he => by unfold ROSSubscribeUpdate; rw [if_pos he], ?_⟩
  intro hne r s1 h
  unfold ROSSubscribeUpdate at h
  rw [if_neg hne] at h
  cases hr : resetCounters s.gSubscribers with
  | error e => simp [hr] at h
  | ok subs =>
    rw [hr] at h
    dsimp only at h
    have hs1 : ({ s with gSubscribers := subs, gRosSubscribeError := false } : Bridge Obj Body)
        = s.roundStart := by
      rw [resetCounters_eq _ _ hr]
      rfl
    rw [hs1] at h
    cases hsp : spinOnce cv round.delivered s.roundStart with
    | error e => simp [hsp] at h
    | ok s2 =>
      rw [hsp] at h
      dsimp only at h
      cases hut : updateTransforms cv round s2 with
      | error e => simp [hut] at h
      | ok s3 =>
        rw [hut] at h
        dsimp only at h
        cases hau : anyUpdated s3.gSubscribers with
        | error e => simp [hau] at h
        | ok u =>
          rw [hau] at h
          dsimp only at h
          have hfind := fun k => round_find cv k round.delivered s s2 hl hsp
          obtain ⟨hg, hflag⟩ := updateTransforms_flag cv round s s2 s3 (hfind "tf").1
            (hfind "tf").2.1
            (fun h0 hk => by
              obtain ⟨h1, hk1, _, hc1, _⟩ := (hfind "tf").2.2.1 h0 hk
              exact ⟨h1, hk1, hc1⟩) hut
          have hs2flag := spinOnce_flag cv round.delivered s.roundStart s2 hsp
          have hres : r = (!s3.gRosSubscribeError && u) ∧ s1 = s3 := by
            cases he : s3.gRosSubscribeError <;> rw [he] at h <;>
              simp only [Bool.false_eq_true, if_false, if_true, Except.ok.injEq,
                Prod.mk.injEq] at h <;> simp [h.1.symm, h.2.symm]
          obtain ⟨hr1, rfl⟩ := hres
          have hcount : ∀ k h1, s2.gSubscribers.find k = some (some h1) →
              h1.numMessages =
                if s.isSubscribed k = true then
                  ((round.delivered.filter fun d => d.1 == k).length : Int)
                else 0 := by
            intro k h1 hk1
            obtain ⟨b1, b2, b3, _⟩ := hfind k
            unfold Bridge.isSubscribed
            cases hk : s.gSubscribers.find k with
            | none => rw [b1 hk] at hk1; cases hk1
            | some oh =>
              cases oh with
              | none => rw [b2 hk] at hk1; cases hk1
              | some h0 =>
                obtain ⟨h2, hk2, _, _, hn2⟩ := b3 h0 hk
                rw [hk2] at hk1
                simp only [Option.some.injEq] at hk1
                subst hk1
                exact hn2
          refine ⟨⟨s2, rfl⟩, by rw [hg]; exact hcount, ?_⟩
          have hupd : u = true ↔ ∃ d ∈ round.delivered, s.isSubscribed d.1 = true := by
            rw [anyUpdated_eq _ _ hau, hg]
            constructor
            · rintro ⟨e, he, h1, he2, hpos⟩
              have hu2 : (s2.gSubscribers.map Prod.fst).Nodup := by
                rw [(hfind "tf").2.2.2]; exact hu
              have hk1 : s2.gSubscribers.find e.1 = some (some h1) := by
                rw [Map.find_of_mem hu2 he, he2]
              have hn := hcount e.1 h1 hk1
              by_cases hsub : s.isSubscribed e.1 = true
              · rw [if_pos hsub] at hn
                rw [hn] at hpos
                have hpos2 : 0 < (round.delivered.filter fun d => d.1 == e.1).length := by
                  exact_mod_cast hpos
                obtain ⟨d, hd⟩ := List.exists_mem_of_length_pos hpos2
                obtain ⟨hd1, hd2⟩ := List.mem_filter.mp hd
                have hd3 : d.1 = e.1 := by simpa using hd2
                exact ⟨d, hd1, by rw [hd3]; exact hsub⟩
              · rw [if_neg hsub] at hn
                rw [hn] at hpos
                exact absurd hpos (lt_irrefl _)
            · rintro ⟨d, hd, hsub⟩
              obtain ⟨_, _, b3, _⟩ := hfind d.1
              have hsub2 := hsub
              unfold Bridge.isSubscribed at hsub
              cases hk : s.gSubscribers.find d.1 with
              | none => rw [hk] at hsub; cases hsub
              | some oh =>
                cases oh with
                | none => rw [hk] at hsub; cases hsub
                | some h0 =>
                  obtain ⟨h2, hk2, _, _, _⟩ := b3 h0 hk
                  have hn := hcount d.1 h2 hk2
                  rw [if_pos hsub2] at hn
                  refine ⟨(d.1, some h2), Map.find_mem hk2, h2, rfl, ?_⟩
                  rw [hn]
                  have : 0 < (round.delivered.filter fun d1 => d1.1 == d.1).length :=
                    List.length_pos_of_mem (List.mem_filter.mpr ⟨hd, by simp⟩)
                  exact_mod_cast this
          have hflag2 : s1.gRosSubscribeError = false ↔
              failedTopics cv round.delivered s.roundStart = [] ∧ ¬ tfLookupFails round s := by
            rw [← Bool.not_eq_true, hflag, hs2flag]
            have h0 : s.roundStart.gRosSubscribeError = false := rfl
            rw [h0]
            cases failedTopics cv round.delivered s.roundStart <;> simp
          rw [hr1, Bool.and_eq_true, Bool.not_eq_true', hflag2, hupd]
          tauto

/-! ### A round returns unless it meets a null entry or a conversion that does not return -/

theorem deliver_returns (cv : Converters Obj Body)
    (hcv : ∀ p b o, ∃ r, cv.ROSToKlampt p b o = .ok r) (s : Bridge Obj Body)
    (d : String × Message Body) : ∃ s1, deliver cv s d = .ok s1 := by
  unfold deliver
  split
  · split
    · split
      · unfold ROSSubscriber.callback
        rename_i payload obj _ _
        obtain ⟨r, hr⟩ := hcv payload d.2.body (s.objects obj)
        rw [hr]
        dsimp only
        split <;> exact ⟨_, rfl⟩
      · exact ⟨_, rfl⟩
    · exact ⟨_, rfl⟩
  · exact ⟨_, rfl⟩

theorem deliver_noNull (cv : Converters Obj Body) (s s1 : Bridge Obj Body)
    (d : String × Message Body) (hn : s.NoNullSubscriber) (h : deliver cv s d = .ok s1) :
    s1.NoNullSubscriber := by
  rcases deliver_cases cv s s1 d h with ⟨_, _, rfl⟩ |
    ⟨h0, payload, obj, r, o, _, _, _, _, _, _, _, hsubs, _, _, _, _⟩
  · exact hn
  · intro e he
    rw [hsubs] at he
    rcases Map.mem_assign he with rfl | hm
    · simp
    · exact hn e hm

theorem spinOnce_returns (cv : Converters Obj Body)
    (hcv : ∀ p b o, ∃ r, cv.ROSToKlampt p b o = .ok r) :
    ∀ (ds : List (String × Message Body)) (s : Bridge Obj Body), s.NoNullSubscriber →
      ∃ s1, spinOnce cv ds s = .ok s1 ∧ s1.NoNullSubscriber := by
  intro ds
  induction ds with
  | nil => intro s hn; exact ⟨s, rfl, hn⟩
  | cons d ds ih =>
    intro s hn
    obtain ⟨s2, h2⟩ := deliver_returns cv hcv s d
    obtain ⟨s1, h1, hn1⟩ := ih s2 (deliver_noNull cv s s2 d hn h2)
    exact ⟨s1, by rw [spinOnce, h2]; exact h1, hn1⟩

theorem resetCounters_returns :
    ∀ m : Map (Option Subscriber), (∀ e ∈ m, e.2 ≠ none) → ∃ m1, resetCounters m = .ok m1 := by
  intro m
  induction m with
  | nil => intro _; exact ⟨_, rfl⟩
  | cons e m ih =>
    intro hn
    obtain ⟨k, oh⟩ := e
    cases oh with
    | none => exact absurd rfl (hn (k, none) (List.mem_cons_self _ _))
    | some h0 =>
      obtain ⟨m1, h1⟩ := ih fun e he => hn e (List.mem_cons_of_mem _ he)
      exact ⟨_, by rw [resetCounters, h1]⟩

theorem anyUpdated_returns :
    ∀ m : Map (Option Subscriber), (∀ e ∈ m, e.2 ≠ none) → ∃ u, anyUpdated m = .ok u := by
  intro m
  induction m with
  | nil => intro _; exact ⟨_, rfl⟩
  | cons e m ih =>
    intro hn
    obtain ⟨k, oh⟩ := e
    cases oh with
    | none => exact absurd rfl (hn (k, none) (List.mem_cons_self _ _))
    | some h0 =>
      obtain ⟨u, h1⟩ := ih fun e he => hn e (List.mem_cons_of_mem _ he)
      exact ⟨_, by rw [anyUpdated, h1]⟩

theorem update_returns (cv : Converters Obj Body) (lookupTransform : String → Option Body)
    (hcv : ∀ b o, ∃ r, cv.ROSToKlamptTransform b o = .ok r) :
    ∀ (transforms : Map Nat) (s : Bridge Obj Body),
      ∃ s1, ROSTfSubscriber.update cv lookupTransform transforms s = .ok s1 := by
  intro transforms
  induction transforms with
  | nil => intro s; exact ⟨s, rfl⟩
  | cons e rest ih =>
    intro s
    obtain ⟨frame, addr⟩ := e
    rw [ROSTfSubscriber.update]
    cases hl : lookupTransform frame with
    | none => exact ⟨_, rfl⟩
    | some t =>
      obtain ⟨r, hr⟩ := hcv t (s.objects addr)
      dsimp only
      rw [hr]
      exact ih _

/-- A round returns when no entry of the subscriber registry is null and the conversions
it calls return. -/
theorem ROSSubscribeUpdate_returns (cv : Converters Obj Body) (round : Round Body)
    (s : Bridge Obj Body) (hn : s.NoNullSubscriber)
    (hcv : ∀ p b o, ∃ r, cv.ROSToKlampt p b o = .ok r)
    (hcvt : ∀ b o, ∃ r, cv.ROSToKlamptTransform b o = .ok r) :
    ∃ r s1, ROSSubscribeUpdate cv round s = .ok (r, s1) := by
  unfold ROSSubscribeUpdate
  split
  · exact ⟨_, _, rfl⟩
  · obtain ⟨subs, hsubs⟩ := resetCounters_returns s.gSubscribers hn
    rw [hsubs]
    dsimp only
    have hn1 : Bridge.NoNullSubscriber
        ({ s with gSubscribers := subs, gRosSubscribeError := false } : Bridge Obj Body) := by
      intro e he
      rw [resetCounters_eq _ _ hsubs] at he
      obtain ⟨a, ha, rfl⟩ := List.mem_map.mp he
      have := hn a ha
      cases h2 : a.2 with
      | none => exact absurd h2 this
      | some h0 => simp
    obtain ⟨s2, h2, hn2⟩ := spinOnce_returns cv hcv round.delivered _ hn1
    rw [h2]
    dsimp only
    have h3 : ∃ s3, updateTransforms cv round s2 = .ok s3 ∧ s3.gSubscribers = s2.gSubscribers := by
      unfold updateTransforms
      split
      · split
        · split
          · rename_i transforms _
            obtain ⟨s3, hs3⟩ := update_returns cv round.lookupTransform hcvt transforms s2
            exact ⟨s3, hs3, (update_flag cv round.lookupTransform transforms s2 s3 hs3).1⟩
          · exact ⟨_, rfl, rfl⟩
        · exact ⟨_, rfl, rfl⟩
      · exact ⟨_, rfl, rfl⟩
    obtain ⟨s3, hs3, hg⟩ := h3
    rw [hs3]
    dsimp only
    obtain ⟨u, hu⟩ := anyUpdated_returns s3.gSubscribers (by rw [hg]; exact hn2)
    rw [hu]
    dsimp only
    split <;> exact ⟨_, _, rfl⟩

/-! ### Sequence numbers of a publisher -/

theorem publish_no_peers (cv : Converters Obj Body) (p : Publisher Body) (obj : Obj) (now : Nat) :
    p.publish cv obj 0 now = .ok (p, none) := by
  unfold Publisher.publish
  rw [if_pos rfl]

theorem publish_some (cv : Converters Obj Body) (p p1 : Publisher Body) (obj : Obj)
    (peers now : Nat) (out : Option (Message Body))
    (h : p.publish cv obj peers now = .ok (p1, out)) :
    (peers = 0 ∧ p1 = p ∧ out = none) ∨
      (peers ≠ 0 ∧ p1.msg.header.seq = (p.msg.header.seq + 1) % 2 ^ 32 ∧ out = some p1.msg) := by
  unfold Publisher.publish at h
  by_cases hp : peers = 0
  · rw [if_pos hp] at h
    cases h
    exact Or.inl ⟨hp, rfl, rfl⟩
  · rw [if_neg hp] at h
    cases hc : cv.KlamptToROS p.cls obj p.msg.body with
    | error e => simp [hc] at h
    | ok r =>
      obtain ⟨b, body⟩ := r
      simp only [hc] at h
      cases h
      exact Or.inr ⟨hp, rfl, rfl⟩

theorem publishAll_seq (cv : Converters Obj Body) :
    ∀ (calls : List (PublishCall Obj)) (p p1 : Publisher Body) (sent : List (Message Body)),
      p.msg.header.seq < 2 ^ 32 → publishAll cv calls p = .ok (p1, sent) →
      sent.length = calls.countP (fun c => decide (c.peers ≠ 0)) ∧
      p1.msg.header.seq = (p.msg.header.seq + sent.length) % 2 ^ 32 ∧
      ∀ k m, sent[k]? = some m → m.header.seq = (p.msg.header.seq + (k + 1)) % 2 ^ 32 := by
  intro calls
  induction calls with
  | nil =>
    intro p p1 sent hp h
    simp only [publishAll, Except.ok.injEq, Prod.mk.injEq] at h
    obtain ⟨rfl, rfl⟩ := h
    refine ⟨rfl, ?_, ?_⟩
    · rw [List.length_nil, Nat.add_zero, Nat.mod_eq_of_lt hp]
    · intro k m hk
      simp at hk
  | cons c cs ih =>
    intro p p1 sent hp h
    rw [publishAll] at h
    cases h1 : p.publish cv c.obj c.peers c.now with
    | error e => simp [h1] at h
    | ok r1 =>
      obtain ⟨q, out⟩ := r1
      rw [h1] at h
      dsimp only at h
      cases h2 : publishAll cv cs q with
      | error e => simp [h2] at h
      | ok r2 =>
        obtain ⟨q2, outs⟩ := r2
        rw [h2] at h
        simp only [Except.ok.injEq, Prod.mk.injEq] at h
        obtain ⟨rfl, rfl⟩ := h
        rcases publish_some cv p q c.obj c.peers c.now out h1 with ⟨h0, hqp, rfl⟩ | ⟨h0, hq, rfl⟩
        · rw [hqp] at h2
          obtain ⟨i1, i2, i3⟩ := ih p q2 outs hp h2
          refine ⟨?_, ?_, ?_⟩
          · rw [List.countP_cons_of_neg _ _ (by simp [h0])]
            simpa using i1
          · simpa using i2
          · intro k m hk
            exact i3 k m (by simpa using hk)
        · have hq32 : q.msg.header.seq < 2 ^ 32 := by
            rw [hq]; exact Nat.mod_lt _ (by norm_num)
          obtain ⟨i1, i2, i3⟩ := ih q q2 outs hq32 h2
          refine ⟨?_, ?_, ?_⟩
          · rw [List.countP_cons_of_pos _ _ (by simp [h0])]
            simp [i1]
          · rw [i2, hq]
            simp only [Option.toList_some, List.singleton_append, List.length_cons]
            omega
          · intro k m hk
            cases k with
            | zero =>
              simp only [Option.toList_some, List.singleton_append, List.getElem?_cons_zero,
                Option.some.injEq] at hk
              subst hk
              exact hq
            | succ k =>
              simp only [Option.toList_some, List.singleton_append, List.getElem?_cons_succ]
                at hk
              rw [i3 k m hk, hq]
              omega

/-- Claim C20: a `publish` call made while the publisher has no peer returns without
encoding or sending and leaves the handle, hence its sequence number, as it is; over a
sequence of calls that return, the messages sent are those of the calls with a peer,
and the `k`-th of them (counted from 1) carries the sequence number of the handle plus
`k` (a `uint32`), that is `k` for a handle fresh from its constructor. -/
theorem publish_sequence (cv : Converters Obj Body) (calls : List (PublishCall Obj))
    (p p1 : Publisher Body) (sent : List (Message Body)) (hp : p.msg.header.seq < 2 ^ 32)
    (h : publishAll cv calls p = .ok (p1, sent)) :
    (∀ (q : Publisher Body) (obj : Obj) (now : Nat), q.publish cv obj 0 now = .ok (q, none)) ∧
    sent.length = calls.countP (fun c => decide (c.peers ≠ 0)) ∧
    (∀ k m, sent[k]? = some m → m.header.seq = (p.msg.header.seq + (k + 1)) % 2 ^ 32) ∧
    (p.msg.header.seq = 0 → ∀ k m, sent[k]? = some m → k + 1 < 2 ^ 32 →
      m.header.seq = k + 1) ∧
    (∀ k m m1, sent[k]? = some m → sent[k + 1]? = some m1 →
      m1.header.seq = (m.header.seq + 1) % 2 ^ 32) := by
  obtain ⟨i1, _, i3⟩ := publishAll_seq cv calls p p1 sent hp h
  refine ⟨publish_no_peers cv, i1, i3, ?_, ?_⟩
  · intro h0 k m hk hlt
    rw [i3 k m hk, h0, Nat.zero_add, Nat.mod_eq_of_lt hlt]
  · intro k m m1 hk hk1
    rw [i3 k m hk, i3 (k + 1) m1 hk1]
    omega

/-- The sequence numbers of the two messages sent by `threeCalls` on a fresh publisher
are 1 and 2, and the handle ends with sequence number 2. -/
theorem publish_sequence_witness :
    cloudPublisher.msg.header.seq < 2 ^ 32 ∧
    publishAll testConverters threeCalls cloudPublisher = .ok afterThreeCalls ∧
    afterThreeCalls.2.map (fun m => m.header.seq) = [1, 2] ∧
    afterThreeCalls.1.msg.header.seq = 2 ∧
    (∀ k m, afterThreeCalls.2[k]? = some m → k + 1 < 2 ^ 32 → m.header.seq = k + 1) :=
  ⟨by decide, by decide, by decide, by decide,
    (publish_sequence testConverters threeCalls cloudPublisher afterThreeCalls.1
      afterThreeCalls.2 (by decide) (by decide)).2.2.2.1 (by decide)⟩

/-! ### Detaching a topic -/

/-- Claim C17: `ROSDetach(topic)` on a topic that has no subscriber handle, in particular
on a topic that was never subscribed or published, returns `false` and leaves the whole
state as it is: both registries, hence `ROSNumSubscribedTopics` and
`ROSNumPublishedTopics`, and the error flag with its topic. -/
theorem ROSDetach_unbound (topic : String) (s : Bridge Obj Body)
    (hs : s.gSubscribers.find topic = none) (_hp : s.gPublishers.find topic = none) :
    ROSDetach topic s = (false, s) ∧
    ROSNumSubscribedTopics (ROSDetach topic s).2 = ROSNumSubscribedTopics s ∧
    ROSNumPublishedTopics (ROSDetach topic s).2 = ROSNumPublishedTopics s ∧
    (ROSDetach topic s).2.gRosSubscribeError = s.gRosSubscribeError ∧
    (ROSDetach topic s).2.gRosSubscribeErrorWhere = s.gRosSubscribeErrorWhere := by
  have h : ROSDetach topic s = (false, s) := by
    unfold ROSDetach
    rw [if_neg (by rw [Map.count_eq_zero.mpr hs]; simp)]
  rw [h]
  exact ⟨rfl, rfl, rfl, rfl, rfl⟩

/-- Detaching the topic `scan`, which `subscribedA` does not know. -/
theorem ROSDetach_unbound_witness :
    subscribedA.gSubscribers.find "scan" = none ∧ subscribedA.gPublishers.find "scan" = none ∧
    ROSDetach "scan" subscribedA = (false, subscribedA) :=
  ⟨by decide, by decide, (ROSDetach_unbound "scan" subscribedA (by decide) (by decide)).1⟩

end BridgeTheorems

/-- In `mixedRound` the messages that fail to decode are the first on `joints` and the
one on `arm`: the flag is set although `joints` decodes a message afterwards, and the
recorded topic is `arm`. -/
theorem spinOnce_error_sticky_witness :
    twoTopics.TopicsMatch ∧ spinOnce testConverters mixedRound twoTopics = .ok afterMixedRound ∧
    twoTopics.gRosSubscribeError = false ∧
    failedTopics testConverters mixedRound twoTopics = ["joints", "arm"] ∧
    afterMixedRound.gRosSubscribeError = true ∧
    afterMixedRound.gRosSubscribeErrorWhere = "arm" :=
  ⟨by decide, rfl, rfl, by decide,
    ((spinOnce_error_sticky testConverters mixedRound twoTopics afterMixedRound (by decide)
      rfl).1 rfl).mpr (by decide),
    (spinOnce_error_sticky testConverters mixedRound twoTopics afterMixedRound (by decide)
      rfl).2.2.1 "arm" (by decide)⟩

/-- The second subscription to `joints`, of the robot at address 1, replaces the first. -/
theorem RosSubscribe_twice_witness :
    initialBridge.UniqueTopics ∧
    RosSubscribe .jointState 0 "joints" true initialBridge = .ok (true, subscribedA) ∧
    RosSubscribe .jointState 1 "joints" true subscribedA = .ok (true, subscribedB) ∧
    ROSNumSubscribedTopics subscribedB = ROSNumSubscribedTopics subscribedA ∧
    subscribedB.gSubscribers.find "joints"
      = some (some (ROSSubscriber.new .jointState 1 "joints" true)) ∧
    (subscribedB.gSubscribers.map Prod.fst).count "joints" = 1 :=
  ⟨by decide, rfl, rfl,
    (RosSubscribe_twice testConverters .jointState .jointState 0 1 "joints" true true
      initialBridge subscribedA subscribedB (by decide) rfl rfl).1,
    by decide, by decide⟩

/-- Two messages delivered on `joints` after the second subscription: the first decodes,
the second names an unknown link after setting link `b`. The robot at address 0 is as
it was, the robot at address 1 has link `b` at position 2, and the handle has counted
two messages and holds the header of the second. -/
theorem subscribedB_delivery :
    (spinOnce testConverters [("joints", goodJoints), ("joints", badJoints)] subscribedB).map
        (fun s => (s.gSubscribers, s.objects 0, s.objects 1)) =
      .ok ([("joints", some { sub := true, topic := "joints", error := true,
                              header := badJoints.header, numMessages := 2,
                              cls := .message .jointState 1 })],
           .robot twoLinks, .robot { twoLinks with q := [⟨0⟩, Real.ofInt 2] }) := by
  decide

/-- A round called with counters 2 and 1 and the error flag set: the counters restart
from zero, `joints` counts its one message, `arm` none, and the round returns `true`;
with both registries empty the call returns `false`. -/
theorem ROSSubscribeUpdate_round_witness :
    afterMixedRound.UniqueTopics ∧ goodRound.delivered.length < 2 ^ 31 ∧
    afterMixedRound.gRosSubscribeError = true ∧
    (afterMixedRound.gSubscribers.map fun e => e.2.map fun h => h.numMessages)
      = [some 1, some 2] ∧
    ROSSubscribeUpdate testConverters goodRound afterMixedRound = .ok (true, afterGoodRound) ∧
    (afterGoodRound.gSubscribers.map fun e => e.2.map fun h => h.numMessages)
      = [some 0, some 1] ∧
    (true = true ↔ (∃ d ∈ goodRound.delivered, afterMixedRound.isSubscribed d.1 = true) ∧
      failedTopics testConverters goodRound.delivered afterMixedRound.roundStart = [] ∧
      ¬ tfLookupFails goodRound afterMixedRound) ∧
    ROSSubscribeUpdate testConverters goodRound initialBridge = .ok (false, initialBridge) :=
  ⟨by decide, by decide, by decide, by decide, rfl, by decide,
    ((ROSSubscribeUpdate_round testConverters goodRound afterMixedRound (by decide)
      (by decide)).2 (by decide) true afterGoodRound rfl).2.2,
    (ROSSubscribeUpdate_round testConverters goodRound initialBridge (by decide)
      (by decide)).1 (by decide)⟩

/-- Claim C16 fails at a topic bound by a publish call: after
`ROSPublishPointCloud(onePoint, "cloud")`, `ROSDetach("cloud")` returns `false` and the
publisher registry still holds the handle, while `ROSDetach("joints")`, for the topic
bound by a subscribe call, returns `true` and removes the entry. -/
theorem ROSDetach_ignores_publishers :
    RosPublish testConverters (.message .pointCloud) (.cloud onePoint) "cloud" 0 5 subscribedA
      = .ok (true, publishedCloud) ∧
    ROSDetach "cloud" publishedCloud = (false, publishedCloud) ∧
    ROSNumPublishedTopics (ROSDetach "cloud" publishedCloud).2 = 1 ∧
    (ROSDetach "cloud" publishedCloud).2.gPublishers.find "cloud" = some (some cloudPublisher) ∧
    (ROSDetach "joints" publishedCloud).1 = true ∧
    (ROSDetach "joints" publishedCloud).2.gSubscribers = [] ∧
    ROSNumSubscribedTopics publishedCloud = 1 ∧
    ROSNumSubscribedTopics (ROSDetach "joints" publishedCloud).2 = 0 :=
  ⟨rfl, rfl, by decide, by decide, by decide, by decide, by decide, by decide⟩

/-- Claim C15 fails at a second subscribe call whose subscription does not bind: made in
`subscribedA`, it returns `false` and leaves the entry of the topic null, the previous
handle being gone; the next `ROSSubscribeUpdate` then dereferences the null entry. A
publish call on a topic bound to another kind of publisher, by contrast, returns `false`
and leaves the registry with the existing handle as it is. -/
theorem RosSubscribe_failure_drops_handle :
    RosSubscribe .jointState 0 "joints" true initialBridge = .ok (true, subscribedA) ∧
    subscribedA.gSubscribers.find "joints"
      = some (some (ROSSubscriber.new .jointState 0 "joints" true)) ∧
    RosSubscribe .jointState 1 "joints" false subscribedA = .ok (false, subscribeFailed) ∧
    subscribeFailed.gSubscribers.find "joints" = some none ∧
    ROSNumSubscribedTopics subscribeFailed = 1 ∧
    (ROSSubscribeUpdate testConverters idleRound subscribeFailed).map Prod.fst
      = .error .nullPointer ∧
    RosPublish testConverters (.message .jointState) (.robot twoLinks) "cloud" 1 5
        publishedCloud = .ok (false, publishedCloud) :=
  ⟨rfl, by decide, rfl, by decide, by decide, by decide, rfl⟩

section PublishTheorems

variable {Obj Body : Type}

/-! ### Publishing on a bound and on an unbound topic -/

theorem RosPublish_eq (cv : Converters Obj Body) (cls : PublisherClass) (obj : Obj)
    (topic : String) (peers now : Nat) (s : Bridge Obj Body) (pub pub1 : Publisher Body)
    (out : Option (Message Body))
    (hf : s.gPublishers.find topic = none ∧ pub = ROSPublisher.new cv cls topic ∨
      s.gPublishers.find topic = some (some pub) ∧ pub.cls = cls)
    (hp : pub.publish cv obj peers now = .ok (pub1, out)) :
    RosPublish cv cls obj topic peers now s =
      .ok (true, { (ROSInit s).2 with
        gPublishers := s.gPublishers.assign topic (some pub1)
        sent := s.sent ++ (out.toList.map fun m => (topic, m)) }) := by
  unfold RosPublish ROSInit
  simp only [Bool.not_true, Bool.false_eq_true, if_false]
  rcases hf with ⟨hf, rfl⟩ | ⟨hf, hc⟩
  · rw [hf]
    dsimp only
    rw [hp]
  · rw [hf]
    dsimp only
    rw [if_pos hc]
    dsimp only
    rw [hp]

/-- Claim C21: a publish call on a topic whose handle is of another publisher class
returns `false` and leaves the registry of publishers, with that handle and its message,
and the list of messages sent as they are. A publish call on an unbound topic, when the
`publish` of the new handle returns, returns `true` and enters that one handle, so the
registry grows by one; a publish call of the class of the handle that the topic has
returns `true` and leaves the size of the registry as it is. -/
theorem RosPublish_registry (cv : Converters Obj Body) (cls : PublisherClass) (obj : Obj)
    (topic : String) (peers now : Nat) (s : Bridge Obj Body) :
    (∀ p, s.gPublishers.find topic = some (some p) → p.cls ≠ cls →
      ∃ s1, RosPublish cv cls obj topic peers now s = .ok (false, s1) ∧
        s1.gPublishers = s.gPublishers ∧ s1.sent = s.sent ∧
        s1.gPublishers.find topic = some (some p)) ∧
    (s.gPublishers.find topic = none → ∀ p1 out,
      (ROSPublisher.new cv cls topic).publish cv obj peers now = .ok (p1, out) →
      ∃ s1, RosPublish cv cls obj topic peers now s = .ok (true, s1) ∧
        s1.gPublishers.size = s.gPublishers.size + 1 ∧
        s1.gPublishers.find topic = some (some p1) ∧ p1.cls = cls ∧
        ∀ k, k ≠ topic → s1.gPublishers.find k = s.gPublishers.find k) ∧
    (∀ p, s.gPublishers.find topic = some (some p) → p.cls = cls → ∀ p1 out,
      p.publish cv obj peers now = .ok (p1, out) →
      ∃ s1, RosPublish cv cls obj topic peers now s = .ok (true, s1) ∧
        s1.gPublishers.size = s.gPublishers.size ∧
        s1.gPublishers.find topic = some (some p1) ∧ p1.cls = cls ∧
        ∀ k, k ≠ topic → s1.gPublishers.find k = s.gPublishers.find k) := by
  refine ⟨?_, ?_, ?_⟩
  · intro p hf hc
    refine ⟨(ROSInit s).2, ?_, rfl, rfl, hf⟩
    unfold RosPublish ROSInit
    simp only [Bool.not_true, Bool.false_eq_true, if_false]
    rw [hf]
    dsimp only
    rw [if_neg hc]
  · intro hf p1 out hp
    refine ⟨_, RosPublish_eq cv cls obj topic peers now s _ p1 out (Or.inl ⟨hf, rfl⟩) hp,
      ?_, ?_, ?_, ?_⟩
    · show (s.gPublishers.assign topic (some p1)).size = _
      rw [Map.size_assign, if_pos (Map.count_eq_zero.mpr hf)]
    · show (s.gPublishers.assign topic (some p1)).find topic = _
      rw [Map.find_assign, if_pos rfl]
    · rcases publish_some cv _ p1 obj peers now out hp with ⟨_, h1, _⟩ | ⟨_, _, _⟩
      · rw [h1]; rfl
      · unfold Publisher.publish at hp
        split at hp
        · cases hp; rfl
        · split at hp
          · cases hp
          · cases hp; rfl
    · intro k hk
      show (s.gPublishers.assign topic (some p1)).find k = _
      rw [Map.find_assign, if_neg hk]
  · intro p hf hc p1 out hp
    refine ⟨_, RosPublish_eq cv cls obj topic peers now s p p1 out (Or.inr ⟨hf, hc⟩) hp,
      ?_, ?_, ?_, ?_⟩
    · show (s.gPublishers.assign topic (some p1)).size = _
      rw [Map.size_assign, if_neg (Map.count_ne_zero.mpr ⟨_, hf⟩)]
    · show (s.gPublishers.assign topic (some p1)).find topic = _
      rw [Map.find_assign, if_pos rfl]
    · unfold Publisher.publish at hp
      split at hp
      · cases hp; exact hc
      · split at hp
        · cases hp
        · cases hp; exact hc
    · intro k hk
      show (s.gPublishers.assign topic (some p1)).find k = _
      rw [Map.find_assign, if_neg hk]

/-- Witness for claim C21 in the state `publishedCloud`, whose topic `cloud` has a handle
for point clouds: a publish of commanded joint states on `cloud`, a publish of a cloud
on the unbound topic `scan`, and a publish of a cloud on `cloud`. -/
theorem RosPublish_registry_witness :
    (∃ s1, RosPublish testConverters .commanded (.robot twoLinks) "cloud" 1 5 publishedCloud =
        .ok (false, s1) ∧
      s1.gPublishers = publishedCloud.gPublishers ∧ s1.sent = publishedCloud.sent ∧
      s1.gPublishers.find "cloud" = some (some cloudPublisher)) ∧
    (∃ s1, RosPublish testConverters (.message .pointCloud) (.cloud onePoint) "scan" 0 5
        publishedCloud = .ok (true, s1) ∧
      s1.gPublishers.size = publishedCloud.gPublishers.size + 1 ∧
      s1.gPublishers.find "scan" =
        some (some (ROSPublisher.new testConverters (.message .pointCloud) "scan")) ∧
      (ROSPublisher.new testConverters (.message .pointCloud) "scan").cls =
        .message .pointCloud ∧
      ∀ k, k ≠ "scan" → s1.gPublishers.find k = publishedCloud.gPublishers.find k) ∧
    (∃ s1, RosPublish testConverters (.message .pointCloud) (.cloud onePoint) "cloud" 0 5
        publishedCloud = .ok (true, s1) ∧
      s1.gPublishers.size = publishedCloud.gPublishers.size ∧
      s1.gPublishers.find "cloud" = some (some cloudPublisher) ∧
      cloudPublisher.cls = .message .pointCloud ∧
      ∀ k, k ≠ "cloud" → s1.gPublishers.find k = publishedCloud.gPublishers.find k) :=
  ⟨(RosPublish_registry testConverters .commanded (.robot twoLinks) "cloud" 1 5
      publishedCloud).1 cloudPublisher (by decide) (by decide),
   (RosPublish_registry testConverters (.message .pointCloud) (.cloud onePoint) "scan" 0 5
      publishedCloud).2.1 (by decide) _ none rfl,
   (RosPublish_registry testConverters (.message .pointCloud) (.cloud onePoint) "cloud" 0 5
      publishedCloud).2.2 cloudPublisher (by decide) (by decide) cloudPublisher none rfl⟩

end PublishTheorems

/-! ### The trajectory encoder with an index list -/

/-- Claim C26 fails at the index `robot.q.n`: for the robot `twoLinks`, whose
configuration has as many entries as it has link names, the index list `[2]` passes the
test `indices[i] < 0 || indices[i] > robot.q.n` and `robot.linkNames[2]` is read, past
the end of the names, where the claim has the function return `false`; the indices `-1`
and `3` are refused, and the indices `0` and `1` name the joints `a` and `b`. -/
theorem KlamptToROS_index_off_by_one :
    twoLinks.q.length = twoLinks.linkNames.length ∧
    KlamptToROSIndexedPath wholeSeconds twoLinks [2] oneMilestone emptyTrajectory
      = .error .readOutOfBounds ∧
    KlamptToROSIndexedPath wholeSeconds twoLinks [-1] oneMilestone emptyTrajectory
      = .ok (false, { joint_names := [""], points := [] }) ∧
    KlamptToROSIndexedPath wholeSeconds twoLinks [3] oneMilestone emptyTrajectory
      = .ok (false, { joint_names := [""], points := [] }) ∧
    KlamptToROSIndexedPath wholeSeconds twoLinks [1] oneMilestone emptyTrajectory
      = .ok (true, { joint_names := ["b"],
                     points := [{ positions := [Real.ofInt 5], time_from_start := ⟨1, 0⟩ }] }) := by
  decide

/-! ### Broadcasting the transforms of a world -/

/-- Claim C27 fails at a robot with two links: for the world `armWorld` the frame
`w/arm/b` of the second link is sent with the transform of the first link, at
`(1, 0, 0)`, where the claim has the transform of link `b`, at `(2, 0, 0)`; the transform
sent for link `j` of robot `i` is `links[i].T_World`. For the second robot of
`twoRobotWorld`, which has one link, `links[1]` is read past the end of its links. -/
theorem ROSPublishTransforms_wrong_link :
    (ROSPublishTransforms testConverters (tfAt ⟨⟨0⟩, ⟨0⟩, ⟨0⟩⟩) (fun _ => 9) armWorld "w"
        initialBridge).map (fun r => (r.1, r.2.2)) =
      .ok (true,
        [{ transform := tfAt ⟨Real.ofInt 3, ⟨0⟩, ⟨0⟩⟩, stamp := 9, frame_id := "world",
           child_frame_id := "w/box" },
         { transform := tfAt ⟨Real.ofInt 1, ⟨0⟩, ⟨0⟩⟩, stamp := 9, frame_id := "world",
           child_frame_id := "w/arm/a" },
         { transform := tfAt ⟨Real.ofInt 1, ⟨0⟩, ⟨0⟩⟩, stamp := 9, frame_id := "world",
           child_frame_id := "w/arm/b" }]) ∧
    (KlamptToROSTransform (identityAt ⟨Real.ofInt 2, ⟨0⟩, ⟨0⟩⟩) (tfAt ⟨⟨0⟩, ⟨0⟩, ⟨0⟩⟩)).2
      = tfAt ⟨Real.ofInt 2, ⟨0⟩, ⟨0⟩⟩ ∧
    twoLinks.links[1]? = some (identityAt ⟨Real.ofInt 2, ⟨0⟩, ⟨0⟩⟩) ∧
    (ROSPublishTransforms testConverters (tfAt ⟨⟨0⟩, ⟨0⟩, ⟨0⟩⟩) (fun _ => 9) twoRobotWorld "w"
        initialBridge).map (fun r => (r.1, r.2.2)) = .error .readOutOfBounds := by
  decide

/-! ### The joint-state decoder -/

theorem lastIndexOf_lt : ∀ (names : List String) (k : String) (j : Nat),
    lastIndexOf names k = some j → j < names.length
  | [], _, _, h => by cases h
  | n :: ns, k, j, h => by
    unfold lastIndexOf at h
    cases hr : lastIndexOf ns k with
    | some j1 =>
      rw [hr] at h
      have := lastIndexOf_lt ns k j1 hr
      cases h
      simp only [List.length_cons]
      omega
    | none =>
      rw [hr] at h
      dsimp only at h
      split at h
      · cases h
        simp
      · cases h

theorem lastIndexOf_eq_none : ∀ (names : List String) (k : String),
    lastIndexOf names k = none ↔ k ∉ names
  | [], _ => by simp [lastIndexOf]
  | n :: ns, k => by
    unfold lastIndexOf
    cases hr : lastIndexOf ns k with
    | some j1 =>
      have : ¬ (k ∉ ns) := fun h => by
        rw [(lastIndexOf_eq_none ns k).mpr h] at hr
        cases hr
      simp only [List.mem_cons, not_or]
      constructor
      · intro h
        cases h
      · intro h
        exact absurd h.2 this
    | none =>
      have hk := (lastIndexOf_eq_none ns k).mp hr
      dsimp only
      by_cases hnk : n = k
      · simp [hnk]
      · have : ¬ k = n := fun h => hnk h.symm
        simp [hnk, hk, this]

theorem lastIndexOf_isSome (names : List String) (k : String) :
    (lastIndexOf names k).isSome = decide (k ∈ names) := by
  cases h : lastIndexOf names k with
  | none => simpa using (lastIndexOf_eq_none names k).mp h
  | some j =>
    have : ¬ (k ∉ names) := fun hk => by
      rw [(lastIndexOf_eq_none names k).mpr hk] at h
      cases h
    simpa using this

theorem find_linkIndices : ∀ (names : List String) (i : Nat) (m : Map Int) (k : String),
    (linkIndices names i m).find k =
      ((lastIndexOf names k).map fun j => toInt32 ((i + j : Nat) : Int)).or (m.find k)
  | [], _, _, _ => by simp [linkIndices, lastIndexOf]
  | n :: ns, i, m, k => by
    unfold linkIndices lastIndexOf
    rw [find_linkIndices ns (i + 1) _ k, Map.find_assign]
    cases hr : lastIndexOf ns k with
    | some j =>
      simp only [Option.map_some', Option.or_some]
      rw [show i + 1 + j = i + (j + 1) by omega]
    | none =>
      simp only [Option.map_none', Option.none_or]
      by_cases hnk : k = n
      · simp [hnk]
      · have : ¬ n = k := fun h => hnk h.symm
        simp [hnk, this]

theorem copyEntry_spec (src : List Real) (i : Nat) (dst : List Real) (idx : Nat)
    (h1 : src = [] ∨ i < src.length) (h2 : idx < dst.length) :
    ∃ dst1, copyEntry src i dst (idx : Int) = .ok dst1 ∧ dst1.length = dst.length ∧
      ∀ j, dst1[j]? = (if idx = j then src[i]? else none).or dst[j]? := by
  unfold copyEntry
  by_cases he : src = []
  · subst he
    refine ⟨dst, by simp, rfl, ?_⟩
    intro j
    simp
  · have hi : i < src.length := by
      rcases h1 with h | h
      · exact absurd h he
      · exact h
    have hne : src.isEmpty = false := by
      cases src with
      | nil => exact absurd rfl he
      | cons a l => rfl
    rw [hne, List.getElem?_eq_getElem hi]
    refine ⟨dst.set idx src[i], ?_, by simp, ?_⟩
    · unfold store
      simp [h2]
    · intro j
      rw [List.getElem?_set]
      by_cases hj : idx = j
      · subst hj
        simp [h2]
      · simp [hj]

theorem lastWrite_nil (index : String → Option Nat) (names : List String) (i j : Nat) :
    lastWrite index [] names i j = none := by
  induction names generalizing i with
  | nil => rfl
  | cons n ns ih =>
    unfold lastWrite
    rw [ih]
    simp

theorem ROSToKlamptJointState.loop_spec (indices : Map Int) (index : String → Option Nat)
    (js : JointState) (n : Nat)
    (hidx : ∀ k, indices.find k = Option.map (fun j : Nat => (j : Int)) (index k))
    (hn : ∀ k j, index k = some j → j < n) :
    ∀ (names : List String) (i : Nat) (krobot : Robot),
      (js.position = [] ∨ i + names.length ≤ js.position.length) →
      (js.velocity = [] ∨ i + names.length ≤ js.velocity.length) →
      n ≤ krobot.q.length → n ≤ krobot.dq.length →
      ∃ r base, ROSToKlamptJointState.loop indices js names i krobot = .ok (r, base) ∧
        (r = false ↔ ∃ k ∈ names, index k = none) ∧
        base.linkNames = krobot.linkNames ∧ base.links = krobot.links ∧
        base.q.length = krobot.q.length ∧ base.dq.length = krobot.dq.length ∧
        (∀ j, base.q[j]? =
          (lastWrite index js.position (names.takeWhile fun k => (index k).isSome) i j).or
            krobot.q[j]?) ∧
        (∀ j, base.dq[j]? =
          (lastWrite index js.velocity (names.takeWhile fun k => (index k).isSome) i j).or
            krobot.dq[j]?)
  | [], i, krobot, _, _, _, _ => by
    refine ⟨true, krobot, rfl, by simp, rfl, rfl, rfl, rfl, ?_, ?_⟩ <;>
    · intro j
      simp [lastWrite]
  | name :: names, i, krobot, hp, hv, hq, hdq => by
    unfold ROSToKlamptJointState.loop
    rw [hidx name]
    cases hi : index name with
    | none =>
      refine ⟨false, krobot, rfl, ?_, rfl, rfl, rfl, rfl, ?_, ?_⟩
      · simp only [true_iff]
        exact ⟨name, List.mem_cons_self _ _, hi⟩
      · intro j
        simp [List.takeWhile_cons, hi, lastWrite]
      · intro j
        simp [List.takeWhile_cons, hi, lastWrite]
    | some idx =>
      have hlt := hn name idx hi
      simp only [List.length_cons] at hp hv
      obtain ⟨q1, hq1, hl1, hg1⟩ := copyEntry_spec js.position i krobot.q idx
        (hp.imp id fun h => by omega) (by omega)
      obtain ⟨dq1, hdq1, hl2, hg2⟩ := copyEntry_spec js.velocity i krobot.dq idx
        (hv.imp id fun h => by omega) (by omega)
      simp only [Option.map_some']
      rw [hq1]
      dsimp only
      rw [hdq1]
      dsimp only
      obtain ⟨r, base, hr, hiff, hnames, hlinks, hlq, hldq, hbq, hbdq⟩ :=
        ROSToKlamptJointState.loop_spec indices index js n hidx hn names (i + 1)
          { krobot with q := q1, dq := dq1 } (hp.imp id fun h => by omega)
          (hv.imp id fun h => by omega)
          (by show n ≤ q1.length; omega) (by show n ≤ dq1.length; omega)
      refine ⟨r, base, hr, ?_, hnames, hlinks, by rw [hlq]; exact hl1, by rw [hldq]; exact hl2,
        ?_, ?_⟩
      · rw [hiff]
        constructor
        · rintro ⟨k, hk, hk0⟩
          exact ⟨k, List.mem_cons_of_mem _ hk, hk0⟩
        · rintro ⟨k, hk, hk0⟩
          rcases List.mem_cons.mp hk with rfl | hk
          · rw [hi] at hk0
            cases hk0
          · exact ⟨k, hk, hk0⟩
      · intro j
        rw [hbq j]
        show _ = (lastWrite index js.position
          ((name :: names).takeWhile fun k => (index k).isSome) i j).or _
        rw [List.takeWhile_cons]
        simp only [hi, Option.isSome_some, if_true]
        show (lastWrite index js.position _ (i + 1) j).or q1[j]? = _
        rw [hg1 j]
        conv_rhs => unfold lastWrite
        rw [hi, Option.or_assoc]
        simp only [Option.some.injEq]
      · intro j
        rw [hbdq j]
        show _ = (lastWrite index js.velocity
          ((name :: names).takeWhile fun k => (index k).isSome) i j).or _
        rw [List.takeWhile_cons]
        simp only [hi, Option.isSome_some, if_true]
        show (lastWrite index js.velocity _ (i + 1) j).or dq1[j]? = _
        rw [hg2 j]
        conv_rhs => unfold lastWrite
        rw [hi, Option.or_assoc]
        simp only [Option.some.injEq]

theorem find_linkIndices_robot (linkNames : List String) (h : linkNames.length < 2 ^ 31)
    (k : String) :
    (linkIndices linkNames 0 []).find k =
      Option.map (fun j : Nat => (j : Int)) (lastIndexOf linkNames k) := by
  rw [find_linkIndices]
  cases hr : lastIndexOf linkNames k with
  | none => simp [Map.find]
  | some j =>
    have := lastIndexOf_lt linkNames k j hr
    simp only [Option.map_some', Option.or_some, Nat.zero_add]
    rw [toInt32_of_lt (by omega) (by omega)]

/-- Claim C23: for a robot whose `q` and `dq` have an entry for each link name, and a
message whose `position` and `velocity` are empty or have an entry for each name, the
decoder returns, and it returns `false` exactly when some name of the message is not a
link name. The robot it leaves, before `UpdateFrames` when it returns `true`, has in
entry `j` of `q` and of `dq` the value of the last name before the first unknown name
whose link index is `j`, and the prior value when there is no such name: the names before
the first unknown one are written, no name at or after it is. -/
theorem ROSToKlampt_JointState_partial (UpdateFrames : Robot → Robot) (js : JointState)
    (krobot : Robot)
    (hq : krobot.linkNames.length ≤ krobot.q.length)
    (hdq : krobot.linkNames.length ≤ krobot.dq.length)
    (hn : krobot.linkNames.length < 2 ^ 31)
    (hp : js.position = [] ∨ js.name.length ≤ js.position.length)
    (hv : js.velocity = [] ∨ js.name.length ≤ js.velocity.length) :
    ∃ r base, ROSToKlamptJointState UpdateFrames js krobot =
        .ok (r, if r then UpdateFrames base else base) ∧
      (r = false ↔ ∃ n ∈ js.name, n ∉ krobot.linkNames) ∧
      base.linkNames = krobot.linkNames ∧ base.links = krobot.links ∧
      base.q.length = krobot.q.length ∧ base.dq.length = krobot.dq.length ∧
      (∀ j, base.q[j]? =
        (lastWrite (lastIndexOf krobot.linkNames) js.position
          (knownNames krobot.linkNames js.name) 0 j).or krobot.q[j]?) ∧
      (∀ j, base.dq[j]? =
        (lastWrite (lastIndexOf krobot.linkNames) js.velocity
          (knownNames krobot.linkNames js.name) 0 j).or krobot.dq[j]?) := by
  obtain ⟨r, base, hr, hiff, h1, h2, h3, h4, h5, h6⟩ :=
    ROSToKlamptJointState.loop_spec (linkIndices krobot.linkNames 0 [])
      (lastIndexOf krobot.linkNames) js krobot.linkNames.length
      (find_linkIndices_robot krobot.linkNames hn)
      (fun k j h => lastIndexOf_lt krobot.linkNames k j h) js.name 0 krobot
      (hp.imp id fun h => by omega) (hv.imp id fun h => by omega) hq hdq
  have hk : (fun k => (lastIndexOf krobot.linkNames k).isSome) =
      fun n => decide (n ∈ krobot.linkNames) :=
    funext fun k => lastIndexOf_isSome krobot.linkNames k
  rw [hk] at h5 h6
  refine ⟨r, base, ?_, ?_, h1, h2, h3, h4, h5, h6⟩
  · unfold ROSToKlamptJointState
    rw [hr]
    cases r <;> rfl
  · rw [hiff]
    constructor
    · rintro ⟨k, hk1, hk2⟩
      exact ⟨k, hk1, (lastIndexOf_eq_none _ _).mp hk2⟩
    · rintro ⟨k, hk1, hk2⟩
      exact ⟨k, hk1, (lastIndexOf_eq_none _ _).mpr hk2⟩

/-- Witness for claim C23: the message `badJointState` on the robot `twoLinks`. -/
theorem ROSToKlampt_JointState_partial_witness :
    ∃ r base, ROSToKlamptJointState id badJointState twoLinks =
        .ok (r, if r then id base else base) ∧
      (r = false ↔ ∃ n ∈ badJointState.name, n ∉ twoLinks.linkNames) ∧
      base.linkNames = twoLinks.linkNames ∧ base.links = twoLinks.links ∧
      base.q.length = twoLinks.q.length ∧ base.dq.length = twoLinks.dq.length ∧
      (∀ j, base.q[j]? =
        (lastWrite (lastIndexOf twoLinks.linkNames) badJointState.position
          (knownNames twoLinks.linkNames badJointState.name) 0 j).or twoLinks.q[j]?) ∧
      (∀ j, base.dq[j]? =
        (lastWrite (lastIndexOf twoLinks.linkNames) badJointState.velocity
          (knownNames twoLinks.linkNames badJointState.name) 0 j).or twoLinks.dq[j]?) :=
  ROSToKlampt_JointState_partial id badJointState twoLinks (by decide) (by decide) (by decide)
    (by decide) (by decide)

/-! ### The transform subscriber -/

theorem Map.lexLt_asymm : ∀ (a b : List Char), Map.lexLt a b = true → Map.lexLt b a = false
  | _, [], h => by simp [Map.lexLt] at h
  | [], _ :: _, _ => by simp [Map.lexLt]
  | a :: as, b :: bs, h => by
    simp only [Map.lexLt, Bool.or_eq_true, Bool.and_eq_true, decide_eq_true_eq] at h
    simp only [Map.lexLt, Bool.or_eq_false_iff, Bool.and_eq_false_iff, decide_eq_false_iff_not]
    rcases h with h | ⟨h1, h2⟩
    · exact ⟨by omega, Or.inl (by omega)⟩
    · exact ⟨by omega, Or.inr (Map.lexLt_asymm as bs h2)⟩

theorem Map.keyLt_asymm (a b : String) (h : Map.keyLt a b = true) : Map.keyLt b a = false :=
  Map.lexLt_asymm a.data b.data h

theorem Map.keyLt_irrefl (a : String) : Map.keyLt a a = false := by
  cases h : Map.keyLt a a with
  | false => rfl
  | true =>
    have := Map.keyLt_asymm a a h
    rw [h] at this
    cases this

section TransformTheorems

variable {Obj Body : Type}

theorem ROSTfSubscriber.update_cons (cv : Converters Obj Body)
    (lookupTransform : String → Option Body) (frame : String) (addr : Nat) (rest : Map Nat)
    (s : Bridge Obj Body) :
    ROSTfSubscriber.update cv lookupTransform ((frame, addr) :: rest) s =
      match lookupTransform frame with
      | none => .ok { s with gRosSubscribeError := true, gRosSubscribeErrorWhere := "tf" }
      | some t =>
        match cv.ROSToKlamptTransform t (s.objects addr) with
        | .error e => .error e
        | .ok (_, o) =>
          ROSTfSubscriber.update cv lookupTransform rest
            { s with objects := Function.update s.objects addr o } := by
  rw [ROSTfSubscriber.update]

/-- The loop of `update` for any converter: `transforms` is visited in ascending order
of its frame names, its targets are distinct slots, and the conversion of each transform
that can be looked up returns. Then `update` returns; the slots of the frames before the
first frame whose lookup fails hold what the converter has made of them, every other
slot is as before, and the outcome is that of every listener that agrees up to that
frame. -/
theorem ROSTfSubscriber.update_spec (cv : Converters Obj Body)
    (lookupTransform : String → Option Body) (transforms : Map Nat) (s : Bridge Obj Body)
    (hasc : transforms.Ascending) (hdis : (transforms.map Prod.snd).Nodup)
    (hcv : ∀ e ∈ transforms, ∀ t, lookupTransform e.1 = some t →
      ∃ r, cv.ROSToKlamptTransform t (s.objects e.2) = .ok r) :
    ∃ s1, ROSTfSubscriber.update cv lookupTransform transforms s = .ok s1 ∧
      (∀ a, a ∉ transforms.map Prod.snd → s1.objects a = s.objects a) ∧
      ((∀ e ∈ transforms, (lookupTransform e.1).isSome) →
        s1.gRosSubscribeError = s.gRosSubscribeError ∧
        s1.gRosSubscribeErrorWhere = s.gRosSubscribeErrorWhere ∧
        ∀ e ∈ transforms, ∀ t, lookupTransform e.1 = some t →
          s1.objects e.2 = converted cv t (s.objects e.2)) ∧
      (∀ f ∈ transforms, lookupTransform f.1 = none →
        (∀ e ∈ transforms, Map.keyLt e.1 f.1 = true → (lookupTransform e.1).isSome) →
        s1.gRosSubscribeError = true ∧ s1.gRosSubscribeErrorWhere = "tf" ∧
        (∀ e ∈ transforms, Map.keyLt e.1 f.1 = true → ∀ t, lookupTransform e.1 = some t →
          s1.objects e.2 = converted cv t (s.objects e.2)) ∧
        (∀ e ∈ transforms, Map.keyLt e.1 f.1 = false → s1.objects e.2 = s.objects e.2) ∧
        ∀ lookup2 : String → Option Body,
          (∀ e ∈ transforms, Map.keyLt e.1 f.1 = true ∨ e = f →
            lookup2 e.1 = lookupTransform e.1) →
          ROSTfSubscriber.update cv lookup2 transforms s = .ok s1) := by
  induction transforms generalizing s with
  | nil =>
    refine ⟨s, rfl, fun _ _ => rfl, fun _ => ⟨rfl, rfl, ?_⟩, ?_⟩
    · intro e he
      cases he
    · intro f hf
      cases hf
  | cons h rest ih =>
    obtain ⟨frame, addr⟩ := h
    have hasc1 := List.pairwise_cons.mp hasc
    rw [List.map_cons] at hdis
    have hdis1 := List.nodup_cons.mp hdis
    have hmem : (frame, addr) ∈ (frame, addr) :: rest := List.mem_cons_self _ _
    rw [ROSTfSubscriber.update_cons]
    cases hl : lookupTransform frame with
    | none =>
      refine ⟨_, rfl, fun _ _ => rfl, ?_, ?_⟩
      · intro hall
        have := hall _ hmem
        rw [hl] at this
        cases this
      · intro f hf hfn hfirst
        have hff : f = (frame, addr) := by
          rcases List.mem_cons.mp hf with h | h
          · exact h
          · have := hfirst _ hmem (hasc1.1 f h)
            rw [hl] at this
            cases this
        subst hff
        refine ⟨rfl, rfl, ?_, fun _ _ _ => rfl, ?_⟩
        · intro e he hlt
          exfalso
          rcases List.mem_cons.mp he with h | h
          · subst h
            rw [Map.keyLt_irrefl] at hlt
            cases hlt
          · have := Map.keyLt_asymm _ _ (hasc1.1 e h)
            rw [this] at hlt
            cases hlt
        · intro lookup2 hag
          rw [ROSTfSubscriber.update_cons, hag _ hmem (Or.inr rfl), hl]
    | some t =>
      obtain ⟨⟨b, o⟩, hr⟩ := hcv _ hmem t hl
      dsimp only at hr ⊢
      rw [hr]
      dsimp only
      have hne : ∀ e ∈ rest, e.2 ≠ addr := fun e he h => by
        have hm : e.2 ∈ rest.map Prod.snd := List.mem_map_of_mem Prod.snd he
        rw [h] at hm
        exact hdis1.1 hm
      have hs1 : ∀ e ∈ rest, Function.update s.objects addr o e.2 = s.objects e.2 :=
        fun e he => Function.update_noteq (hne e he) _ _
      obtain ⟨s1, hs1eq, hframe, hall, hfail⟩ :=
        ih { s with objects := Function.update s.objects addr o } hasc1.2 hdis1.2
          (fun e he t1 ht1 => by
            show ∃ r, cv.ROSToKlamptTransform t1 (Function.update s.objects addr o e.2) = .ok r
            rw [hs1 e he]
            exact hcv e (List.mem_cons_of_mem _ he) t1 ht1)
      have hconv : converted cv t (s.objects addr) = o := by
        unfold converted
        rw [hr]
      have hhead : s1.objects addr = o := by
        rw [hframe addr hdis1.1]
        exact Function.update_same _ _ _
      refine ⟨s1, hs1eq, ?_, ?_, ?_⟩
      · intro a ha
        rw [List.map_cons, List.mem_cons, not_or] at ha
        rw [hframe a ha.2]
        exact Function.update_noteq ha.1 _ _
      · intro hsome
        obtain ⟨h1, h2, h3⟩ := hall fun e he => hsome e (List.mem_cons_of_mem _ he)
        refine ⟨h1, h2, ?_⟩
        intro e he t1 ht1
        rcases List.mem_cons.mp he with h | h
        · subst h
          rw [hl] at ht1
          cases ht1
          rw [hhead, hconv]
        · rw [h3 e h t1 ht1]
          show converted cv t1 (Function.update s.objects addr o e.2) = _
          rw [hs1 e h]
      · intro f hf hfn hfirst
        have hfr : f ∈ rest := by
          rcases List.mem_cons.mp hf with h | h
          · subst h
            rw [hl] at hfn
            cases hfn
          · exact h
        obtain ⟨h1, h2, h3, h4, h5⟩ := hfail f hfr hfn
          fun e he hlt => hfirst e (List.mem_cons_of_mem _ he) hlt
        refine ⟨h1, h2, ?_, ?_, ?_⟩
        · intro e he hlt t1 ht1
          rcases List.mem_cons.mp he with h | h
          · subst h
            rw [hl] at ht1
            cases ht1
            rw [hhead, hconv]
          · rw [h3 e h hlt t1 ht1]
            show converted cv t1 (Function.update s.objects addr o e.2) = _
            rw [hs1 e h]
        · intro e he hlt
          rcases List.mem_cons.mp he with h | h
          · subst h
            rw [hasc1.1 f hfr] at hlt
            cases hlt
          · rw [h4 e h hlt]
            exact hs1 e h
        · intro lookup2 hag
          rw [ROSTfSubscriber.update_cons, hag _ hmem (Or.inl (hasc1.1 f hfr)), hl]
          dsimp only
          rw [hr]
          exact h5 lookup2 fun e he h => hag e (List.mem_cons_of_mem _ he) h

theorem converted_transform (host : Host) (UpdateFrames : Robot → Robot) (T : TfTransform)
    (kT : RigidTransform) :
    converted (klamptConverters host UpdateFrames) (.transform T) (.transform kT) =
      .transform T.toRigid := rfl

theorem tfListener_some {lookup : String → Option TfTransform} {frame : String} {t : RosBody}
    (h : tfListener lookup frame = some t) : ∃ T, lookup frame = some T ∧ t = .transform T := by
  unfold tfListener at h
  cases hl : lookup frame with
  | none =>
    rw [hl] at h
    cases h
  | some T =>
    rw [hl] at h
    exact ⟨T, rfl, (Option.some.inj h).symm⟩

theorem tfListener_isSome (lookup : String → Option TfTransform) (frame : String) :
    (tfListener lookup frame).isSome = (lookup frame).isSome := by
  unfold tfListener
  cases lookup frame <;> rfl

/-- Claim C22: `transforms` is a map, visited in ascending order of its frame names, whose
targets are distinct slots that hold rigid transforms. Then `update` returns, and it
leaves every slot that is no target as it is. If every lookup succeeds, every target
holds the transform looked up for its frame, with the rows of its basis as rotation and
its origin as translation, and the error flag and its topic are as before. If `f` is the
first frame in name order whose lookup fails, the flag is set with the topic `tf`, the
targets of the frames before `f` hold the transforms looked up for them, the targets of
`f` and of the frames after it are as before, and no frame after `f` is looked up: the
outcome is the same for every listener that agrees on `f` and on the frames before it. -/
theorem ROSTfSubscriber_update_order (host : Host) (UpdateFrames : Robot → Robot)
    (lookup : String → Option TfTransform) (transforms : Map Nat)
    (s : Bridge KlamptObject RosBody)
    (hasc : transforms.Ascending) (hdis : (transforms.map Prod.snd).Nodup)
    (hslot : ∀ e ∈ transforms, ∃ kT, s.objects e.2 = .transform kT) :
    ∃ s1, ROSTfSubscriber.update (klamptConverters host UpdateFrames) (tfListener lookup)
        transforms s = .ok s1 ∧
      (∀ a, a ∉ transforms.map Prod.snd → s1.objects a = s.objects a) ∧
      ((∀ e ∈ transforms, (lookup e.1).isSome) →
        s1.gRosSubscribeError = s.gRosSubscribeError ∧
        s1.gRosSubscribeErrorWhere = s.gRosSubscribeErrorWhere ∧
        ∀ e ∈ transforms, ∀ T, lookup e.1 = some T →
          s1.objects e.2 = .transform T.toRigid) ∧
      (∀ f ∈ transforms, lookup f.1 = none →
        (∀ e ∈ transforms, Map.keyLt e.1 f.1 = true → (lookup e.1).isSome) →
        s1.gRosSubscribeError = true ∧ s1.gRosSubscribeErrorWhere = "tf" ∧
        (∀ e ∈ transforms, Map.keyLt e.1 f.1 = true → ∀ T, lookup e.1 = some T →
          s1.objects e.2 = .transform T.toRigid) ∧
        (∀ e ∈ transforms, Map.keyLt e.1 f.1 = false → s1.objects e.2 = s.objects e.2) ∧
        ∀ lookup2 : String → Option TfTransform,
          (∀ e ∈ transforms, Map.keyLt e.1 f.1 = true ∨ e = f → lookup2 e.1 = lookup e.1) →
          ROSTfSubscriber.update (klamptConverters host UpdateFrames) (tfListener lookup2)
            transforms s = .ok s1) := by
  have hconv : ∀ e ∈ transforms, ∀ T, lookup e.1 = some T →
      converted (klamptConverters host UpdateFrames) (.transform T) (s.objects e.2) =
        .transform T.toRigid := by
    intro e he T _
    obtain ⟨kT, hk⟩ := hslot e he
    rw [hk]
    exact converted_transform host UpdateFrames T kT
  have hl : ∀ {k : String} {T : TfTransform}, lookup k = some T →
      tfListener lookup k = some (.transform T) := by
    intro k T h
    unfold tfListener
    rw [h]
    rfl
  obtain ⟨s1, h1, h2, h3, h4⟩ := ROSTfSubscriber.update_spec
    (klamptConverters host UpdateFrames) (tfListener lookup) transforms s hasc hdis
    (by
      intro e he t ht
      obtain ⟨T, _, rfl⟩ := tfListener_some ht
      obtain ⟨kT, hk⟩ := hslot e he
      rw [hk]
      exact ⟨_, rfl⟩)
  refine ⟨s1, h1, h2, ?_, ?_⟩
  · intro hall
    obtain ⟨g1, g2, g3⟩ := h3 fun e he => by
      rw [tfListener_isSome]
      exact hall e he
    refine ⟨g1, g2, ?_⟩
    intro e he T hT
    rw [g3 e he _ (hl hT), hconv e he T hT]
  · intro f hf hfn hfirst
    obtain ⟨g1, g2, g3, g4, g5⟩ := h4 f hf
      (by unfold tfListener; rw [hfn]; rfl)
      (fun e he hlt => by
        rw [tfListener_isSome]
        exact hfirst e he hlt)
    refine ⟨g1, g2, ?_, g4, ?_⟩
    · intro e he hlt T hT
      rw [g3 e he hlt _ (hl hT), hconv e he T hT]
    · intro lookup2 hag
      apply g5
      intro e he h
      unfold tfListener
      rw [hag e he h]

end TransformTheorems

/-- Witness for claim C22: the frames `armFrames` in the bridge `threeFrames`, with the
listener `elbowMissing`, for which the lookup of `elbow` fails. The slot of `base` holds
the transform at `(7, 0, 0)`, the slots of `elbow` and `wrist` hold what they held, and
the error flag is set with the topic `tf`; with the listener `allFramesKnown` the three
slots hold the three transforms and the error pair is as before. -/
theorem ROSTfSubscriber_update_order_witness :
    armFrames.Ascending ∧ (armFrames.map Prod.snd).Nodup ∧
    (∃ s1, ROSTfSubscriber.update testConverters (tfListener elbowMissing) armFrames
        threeFrames = .ok s1 ∧
      (∀ a, a ∉ armFrames.map Prod.snd → s1.objects a = threeFrames.objects a) ∧
      ((∀ e ∈ armFrames, (elbowMissing e.1).isSome) →
        s1.gRosSubscribeError = threeFrames.gRosSubscribeError ∧
        s1.gRosSubscribeErrorWhere = threeFrames.gRosSubscribeErrorWhere ∧
        ∀ e ∈ armFrames, ∀ T, elbowMissing e.1 = some T →
          s1.objects e.2 = .transform T.toRigid) ∧
      (∀ f ∈ armFrames, elbowMissing f.1 = none →
        (∀ e ∈ armFrames, Map.keyLt e.1 f.1 = true → (elbowMissing e.1).isSome) →
        s1.gRosSubscribeError = true ∧ s1.gRosSubscribeErrorWhere = "tf" ∧
        (∀ e ∈ armFrames, Map.keyLt e.1 f.1 = true → ∀ T, elbowMissing e.1 = some T →
          s1.objects e.2 = .transform T.toRigid) ∧
        (∀ e ∈ armFrames, Map.keyLt e.1 f.1 = false →
          s1.objects e.2 = threeFrames.objects e.2) ∧
        ∀ lookup2 : String → Option TfTransform,
          (∀ e ∈ armFrames, Map.keyLt e.1 f.1 = true ∨ e = f →
            lookup2 e.1 = elbowMissing e.1) →
          ROSTfSubscriber.update testConverters (tfListener lookup2) armFrames threeFrames =
            .ok s1)) ∧
    (ROSTfSubscriber.update testConverters (tfListener elbowMissing) armFrames
        threeFrames).map
        (fun s => (s.objects 10, s.objects 11, s.objects 12, s.gRosSubscribeError,
          s.gRosSubscribeErrorWhere)) =
      .ok (.transform (identityAt ⟨Real.ofInt 7, ⟨0⟩, ⟨0⟩⟩),
        .transform (identityAt ⟨Real.ofInt 2, ⟨0⟩, ⟨0⟩⟩),
        .transform (identityAt ⟨Real.ofInt 3, ⟨0⟩, ⟨0⟩⟩), true, "tf") ∧
    (ROSTfSubscriber.update testConverters (tfListener allFramesKnown) armFrames
        threeFrames).map
        (fun s => (s.objects 10, s.objects 11, s.objects 12, s.gRosSubscribeError,
          s.gRosSubscribeErrorWhere)) =
      .ok (.transform (identityAt ⟨Real.ofInt 7, ⟨0⟩, ⟨0⟩⟩),
        .transform { R := { row1 := ⟨⟨0⟩, Real.ofInt (-1), ⟨0⟩⟩,
                            row2 := ⟨Real.ofInt 1, ⟨0⟩, ⟨0⟩⟩,
                            row3 := ⟨⟨0⟩, ⟨0⟩, Real.ofInt 1⟩ },
                     t := ⟨Real.ofInt 8, ⟨0⟩, ⟨0⟩⟩ },
        .transform (identityAt ⟨Real.ofInt 9, ⟨0⟩, ⟨0⟩⟩), false, "") :=
  ⟨by decide, by decide,
    ROSTfSubscriber_update_order littleEndianHost id elbowMissing armFrames threeFrames
      (by decide) (by decide) (by
        intro e he
        simp only [armFrames, List.mem_cons, List.mem_singleton, List.not_mem_nil,
          or_false] at he
        rcases he with rfl | rfl | rfl <;> exact ⟨_, rfl⟩),
    by decide, by decide⟩

section WaitingTheorems

variable {Obj Body : Type}

/-! ### Waiting for a message -/

theorem spinOnce_append (cv : Converters Obj Body) :
    ∀ (a b : List (String × Message Body)) (s s1 : Bridge Obj Body),
      spinOnce cv (a ++ b) s = .ok s1 →
      ∃ s2, spinOnce cv a s = .ok s2 ∧ spinOnce cv b s2 = .ok s1
  | [], _, s, _, h => ⟨s, rfl, h⟩
  | d :: a, b, s, s1, h => by
    rw [List.cons_append, spinOnce] at h
    rw [spinOnce]
    cases hd : deliver cv s d with
    | error e => simp [hd] at h
    | ok s3 =>
      rw [hd] at h
      exact spinOnce_append cv a b s3 s1 h

theorem spinOnce_silent (cv : Converters Obj Body) (k : String) :
    ∀ (ds : List (String × Message Body)) (s s1 : Bridge Obj Body),
      (∀ d ∈ ds, d.1 ≠ k) → spinOnce cv ds s = .ok s1 →
      s1.gSubscribers.find k = s.gSubscribers.find k
  | [], s, s1, _, h => by
    simp only [spinOnce, Except.ok.injEq] at h
    rw [h]
  | d :: ds, s, s1, hk, h => by
    rw [spinOnce] at h
    cases hd : deliver cv s d with
    | error e => simp [hd] at h
    | ok s2 =>
      rw [hd] at h
      rw [spinOnce_silent cv k ds s2 s1 (fun e he => hk e (List.mem_cons_of_mem _ he)) h]
      rcases deliver_cases cv s s2 d hd with ⟨_, _, rfl⟩ |
        ⟨h0, payload, obj, r, o, _, _, _, _, _, _, _, hsubs, _, _, _, _⟩
      · rfl
      · rw [hsubs, Map.find_assign, if_neg (fun e => hk d (List.mem_cons_self _ _) e.symm)]

theorem ROSWaitForUpdate.loop_silent (cv : Converters Obj Body) (topic : String)
    (timeout old : Int) (p : WaitPass Body) (rest : List (WaitPass Body))
    (hp : timeout ≤ p.elapsed) :
    ∀ (pre : List (WaitPass Body)) (s s1 : Bridge Obj Body) (h : Subscriber),
      s.gSubscribers.find topic = some (some h) → h.numMessages ≤ old →
      (∀ q ∈ pre, q.elapsed < timeout ∧ ∀ d ∈ q.delivered, d.1 ≠ topic) →
      spinOnce cv (pre.flatMap fun q => q.delivered) s = .ok s1 →
      ROSWaitForUpdate.loop cv topic timeout old (pre ++ p :: rest) s = .ok (some false, s1)
  | [], s, s1, _, _, _, _, hs => by
    simp only [List.flatMap_nil, spinOnce, Except.ok.injEq] at hs
    subst hs
    rw [List.nil_append, ROSWaitForUpdate.loop, if_neg (by omega)]
  | q :: pre, s, s1, h, hf, hn, hq, hs => by
    rw [List.flatMap_cons] at hs
    obtain ⟨s2, h2, h3⟩ := spinOnce_append cv _ _ s s1 hs
    have hq1 := hq q (List.mem_cons_self _ _)
    have hf2 : s2.gSubscribers.find topic = some (some h) := by
      rw [spinOnce_silent cv topic q.delivered s s2 hq1.2 h2, hf]
    rw [List.cons_append, ROSWaitForUpdate.loop, if_pos hq1.1, h2]
    dsimp only
    rw [hf2]
    dsimp only
    rw [if_neg (by omega)]
    exact ROSWaitForUpdate.loop_silent cv topic timeout old p rest hp pre s2 s1 h hf2 hn
      (fun e he => hq e (List.mem_cons_of_mem _ he)) h3

theorem ROSWaitForUpdate.loop_true (cv : Converters Obj Body) (topic : String)
    (timeout old : Int) :
    ∀ (passes : List (WaitPass Body)) (s s1 : Bridge Obj Body),
      ROSWaitForUpdate.loop cv topic timeout old passes s = .ok (some true, s1) →
      ∃ h1, s1.gSubscribers.find topic = some (some h1) ∧ old < h1.numMessages
  | [], s, s1, h => by
    simp [ROSWaitForUpdate.loop] at h
  | q :: passes, s, s1, h => by
    rw [ROSWaitForUpdate.loop] at h
    split at h
    · cases h2 : spinOnce cv q.delivered s with
      | error e => simp [h2] at h
      | ok s2 =>
        rw [h2] at h
        dsimp only at h
        cases hf : s2.gSubscribers.find topic with
        | none => simp [hf] at h
        | some oh =>
          cases oh with
          | none => simp [hf] at h
          | some h1 =>
            rw [hf] at h
            dsimp only at h
            split at h
            · rename_i hgt
              simp only [Except.ok.injEq, Prod.mk.injEq, true_and] at h
              subst h
              exact ⟨h1, hf, hgt⟩
            · exact ROSWaitForUpdate.loop_true cv topic timeout old passes s2 s1 h
    · simp at h

/-- Claim C24: `ROSWaitForUpdate` returns `false`, in the state it was called in, when
the topic has no entry, and, for a topic whose entry holds a handle, when the timeout is
at most zero and the first reading of the timer is not negative. For a topic whose entry
holds a handle and that receives no message in the passes whose reading is below the
timeout, when the dispatches of these passes return, the call returns `false` at the
first reading that reaches the timeout, in the state the dispatches have left. The call
returns `true` only with the counter of the topic above its value at the call. -/
theorem ROSWaitForUpdate_cases (cv : Converters Obj Body) (topic : String) (timeout : Int)
    (passes : List (WaitPass Body)) (s : Bridge Obj Body) :
    (s.gSubscribers.count topic = 0 →
      ROSWaitForUpdate cv topic timeout passes s = .ok (some false, s)) ∧
    (∀ h p rest, s.gSubscribers.find topic = some (some h) → timeout ≤ 0 →
      passes = p :: rest → 0 ≤ p.elapsed →
      ROSWaitForUpdate cv topic timeout passes s = .ok (some false, s)) ∧
    (∀ h pre p rest s1, s.gSubscribers.find topic = some (some h) →
      passes = pre ++ p :: rest →
      (∀ q ∈ pre, q.elapsed < timeout ∧ ∀ d ∈ q.delivered, d.1 ≠ topic) →
      timeout ≤ p.elapsed →
      spinOnce cv (pre.flatMap fun q => q.delivered) s = .ok s1 →
      ROSWaitForUpdate cv topic timeout passes s = .ok (some false, s1) ∧
      s1.gSubscribers.find topic = some (some h)) ∧
    (∀ s1, ROSWaitForUpdate cv topic timeout passes s = .ok (some true, s1) →
      ∃ h h1, s.gSubscribers.find topic = some (some h) ∧
        s1.gSubscribers.find topic = some (some h1) ∧ h.numMessages < h1.numMessages) := by
  refine ⟨?_, ?_, ?_, ?_⟩
  · intro hc
    unfold ROSWaitForUpdate
    rw [if_pos hc]
  · intro h p rest hf ht hpass hp
    unfold ROSWaitForUpdate
    rw [if_neg (Map.count_ne_zero.mpr ⟨_, hf⟩), hf, hpass]
    dsimp only
    rw [ROSWaitForUpdate.loop, if_neg (by omega)]
  · intro h pre p rest s1 hf hpass hq hp hs
    refine ⟨?_, ?_⟩
    · unfold ROSWaitForUpdate
      rw [if_neg (Map.count_ne_zero.mpr ⟨_, hf⟩), hf, hpass]
      exact ROSWaitForUpdate.loop_silent cv topic timeout h.numMessages p rest hp pre s s1 h hf
        (le_refl _) hq hs
    · rw [spinOnce_silent cv topic _ s s1 ?_ hs, hf]
      intro d hd
      obtain ⟨q, hq1, hq2⟩ := List.mem_flatMap.mp hd
      exact (hq q hq1).2 d hq2
  · intro s1 h
    unfold ROSWaitForUpdate at h
    split at h
    · simp at h
    · cases hf : s.gSubscribers.find topic with
      | none => simp [hf] at h
      | some oh =>
        cases oh with
        | none => simp [hf] at h
        | some h0 =>
          rw [hf] at h
          obtain ⟨h1, e1, e2⟩ := ROSWaitForUpdate.loop_true cv topic timeout _ passes s s1 h
          exact ⟨h0, h1, rfl, e1, e2⟩

end WaitingTheorems

/-- Witness for claim C24 in the bridge `twoTopics`: a wait on the topic `scan`, which has
no entry; a wait on `joints` with the timeout 0; a wait on `joints` with the timeout 2
and `quietPasses`, whose third reading is 5; and a wait on `joints` with `busyPasses`,
which returns `true`. -/
theorem ROSWaitForUpdate_cases_witness :
    ROSWaitForUpdate testConverters "scan" 2 quietPasses twoTopics =
      .ok (some false, twoTopics) ∧
    ROSWaitForUpdate testConverters "joints" 0 quietPasses twoTopics =
      .ok (some false, twoTopics) ∧
    (ROSWaitForUpdate testConverters "joints" 2 quietPasses twoTopics =
        .ok (some false, afterQuietPasses) ∧
      afterQuietPasses.gSubscribers.find "joints" =
        some (some (ROSSubscriber.new .jointState 0 "joints" true))) ∧
    ROSWaitForUpdate testConverters "joints" 2 busyPasses twoTopics =
      .ok (some true, afterBusyPasses) ∧
    (∃ h h1, twoTopics.gSubscribers.find "joints" = some (some h) ∧
      afterBusyPasses.gSubscribers.find "joints" = some (some h1) ∧
      h.numMessages < h1.numMessages) :=
  ⟨(ROSWaitForUpdate_cases testConverters "scan" 2 quietPasses twoTopics).1 (by decide),
   (ROSWaitForUpdate_cases testConverters "joints" 0 quietPasses twoTopics).2.1
      (ROSSubscriber.new .jointState 0 "joints" true) ⟨0, [("arm", goodJoints)]⟩
      [⟨1, []⟩, ⟨5, [("joints", goodJoints)]⟩] (by decide) (by decide) rfl (by decide),
   (ROSWaitForUpdate_cases testConverters "joints" 2 quietPasses twoTopics).2.2.1
      (ROSSubscriber.new .jointState 0 "joints" true) [⟨0, [("arm", goodJoints)]⟩, ⟨1, []⟩]
      ⟨5, [("joints", goodJoints)]⟩ [] afterQuietPasses (by decide) rfl (by decide)
      (by decide) rfl,
   rfl,
   (ROSWaitForUpdate_cases testConverters "joints" 2 busyPasses twoTopics).2.2.2
      afterBusyPasses rfl⟩

/-! ### The offsets of the properties -/

theorem propertyCount_append : ∀ (a b : List PointField),
    propertyCount (a ++ b) = propertyCount a + propertyCount b
  | [], b => by simp [propertyCount]
  | f :: a, b => by
    show (if f.isCoordinate then 0 else f.count) + propertyCount (a ++ b) =
      (if f.isCoordinate then 0 else f.count) + propertyCount a + propertyCount b
    rw [propertyCount_append a b]
    omega

theorem propertyCount_singleton (f : PointField) :
    propertyCount [f] = if f.isCoordinate then 0 else f.count := by
  simp [propertyCount]

theorem propertyCount_le_sum : ∀ (a : List PointField),
    propertyCount a ≤ (a.map fun g => g.count).sum
  | [] => by simp [propertyCount]
  | f :: a => by
    have := propertyCount_le_sum a
    simp only [propertyCount, List.map_cons, List.sum_cons]
    split <;> omega

theorem append_singleton_split {α : Type} {seen pre post : List α} {f g : α}
    (h : seen ++ [f] = pre ++ g :: post) :
    (post = [] ∧ pre = seen ∧ g = f) ∨ ∃ post1, post = post1 ++ [f] ∧ seen = pre ++ g :: post1 := by
  rcases List.eq_nil_or_concat post with hp | ⟨post1, x, hp⟩
  · subst hp
    have h1 : seen ++ [f] = pre ++ [g] := h
    obtain ⟨e1, e2⟩ := List.append_inj' h1 rfl
    left
    exact ⟨rfl, e1.symm, by simpa using e2.symm⟩
  · rw [List.concat_eq_append] at hp
    subst hp
    have h1 : seen ++ [f] = (pre ++ g :: post1) ++ [x] := by
      rw [h]
      simp
    obtain ⟨e1, e2⟩ := List.append_inj' h1 rfl
    right
    refine ⟨post1, ?_, e1⟩
    have : f = x := by simpa using e2
    rw [this]

theorem getD_set_self (fm : List Int) {i : Nat} (v : Int) (h : i < fm.length) :
    (fm.set i v).getD i (-1) = v := by
  simp [List.getD_eq_getElem?_getD, List.getElem?_set, h]

theorem fieldmapInv_init (pc : PointCloud2) (kpc : PointCloud3D) :
    FieldmapInv pc.fields.length [] (FieldScan.init pc kpc) where
  size := by simp [FieldScan.init]
  len := by simp [FieldScan.init, propertyCount]
  map := fun pre f post h => by simp at h
  names := fun pre f post h => by simp at h
  rest := fun k _ => by
    simp only [FieldScan.init, List.getD_eq_getElem?_getD]
    by_cases h : k < pc.fields.length
    · simp [h]
    · rw [List.getElem?_eq_none (by simpa using h)]; rfl

theorem FieldmapInv.skip {n : Nat} {seen : List PointField} {s s1 : FieldScan}
    {f : PointField} (inv : FieldmapInv n seen s) (hc : f.isCoordinate)
    (hm : s1.fieldmap = s.fieldmap) (hp : s1.propertyNames = s.propertyNames) :
    FieldmapInv n (seen ++ [f]) s1 where
  size := by rw [hm]; exact inv.size
  len := by
    rw [hp, inv.len, propertyCount_append, propertyCount_singleton, if_pos hc]
    rfl
  map := fun pre g post h => by
    rw [hm]
    rcases append_singleton_split h with ⟨_, rfl, rfl⟩ | ⟨post1, _, h1⟩
    · rw [if_pos hc]
      exact inv.rest _ (le_refl _)
    · exact inv.map pre g post1 h1
  names := fun pre g post h hg j hj => by
    rw [hp]
    rcases append_singleton_split h with ⟨_, rfl, rfl⟩ | ⟨post1, _, h1⟩
    · exact absurd hc hg
    · exact inv.names pre g post1 h1 hg j hj
  rest := fun k hk => by
    rw [hm]
    simp only [List.length_append, List.length_singleton] at hk
    exact inv.rest k (by omega)

theorem FieldmapInv.push {n : Nat} {seen : List PointField} {s s1 : FieldScan}
    {f : PointField} (inv : FieldmapInv n seen s) (hc : ¬ f.isCoordinate)
    (hlt : seen.length < n) (hb : propertyCount seen < 2 ^ 31)
    (hm : s1.fieldmap = s.fieldmap.set seen.length (toInt32 s.propertyNames.length))
    (hp : s1.propertyNames = s.propertyNames ++ expandedNames f) :
    FieldmapInv n (seen ++ [f]) s1 where
  size := by rw [hm, List.length_set]; exact inv.size
  len := by
    rw [hp, List.length_append, inv.len, expandedNames_length, propertyCount_append,
      propertyCount_singleton, if_neg hc]
  map := fun pre g post h => by
    rw [hm]
    rcases append_singleton_split h with ⟨_, rfl, rfl⟩ | ⟨post1, _, h1⟩
    · rw [if_neg hc, getD_set_self _ _ (by rw [inv.size]; exact hlt), inv.len]
      exact toInt32_of_lt (by omega) (by exact_mod_cast hb)
    · rw [getD_set_ne]
      · exact inv.map pre g post1 h1
      · rw [h1]
        simp only [List.length_append, List.length_cons]
        omega
  names := fun pre g post h hg j hj => by
    rw [hp]
    rcases append_singleton_split h with ⟨_, rfl, rfl⟩ | ⟨post1, _, h1⟩
    · rw [List.getElem?_append_right (by rw [inv.len]; omega), inv.len]
      congr 1
      omega
    · have hle : propertyCount pre + g.count ≤ propertyCount seen := by
        rw [h1, propertyCount_append]
        show _ ≤ _ + ((if g.isCoordinate then 0 else g.count) + propertyCount post1)
        rw [if_neg hg]
        omega
      rw [List.getElem?_append_left (by rw [inv.len]; omega)]
      exact inv.names pre g post1 h1 hg j hj
  rest := fun k hk => by
    rw [hm]
    simp only [List.length_append, List.length_singleton] at hk
    rw [getD_set_ne _ _ (by omega)]
    exact inv.rest k (by omega)

theorem scanField_fieldmap {n : Nat} {seen : List PointField} {s s1 : FieldScan}
    {f : PointField} (inv : FieldmapInv n seen s) (hlt : seen.length < n)
    (hb : propertyCount seen < 2 ^ 31) (hrgb : ¬ f.isRgbFloat)
    (h : scanField s seen.length f = .ok s1) : FieldmapInv n (seen ++ [f]) s1 := by
  unfold scanField at h
  split at h
  · rename_i hx
    split at h
    · have h := Except.ok.inj h
      subst h
      exact inv.skip (Or.inl hx) rfl rfl
    · exact Except.noConfusion h
  · split at h
    · rename_i hy
      split at h
      · have h := Except.ok.inj h
        subst h
        exact inv.skip (Or.inr (Or.inl hy)) rfl rfl
      · exact Except.noConfusion h
    · split at h
      · rename_i hz
        split at h
        · have h := Except.ok.inj h
          subst h
          exact inv.skip (Or.inr (Or.inr hz)) rfl rfl
        · exact Except.noConfusion h
      · rename_i hx hy hz
        have hc : ¬ f.isCoordinate := by
          unfold PointField.isCoordinate
          tauto
        dsimp only at h
        rw [if_neg (show ¬((f.name = "rgb" ∨ f.name = "rgba") ∧
          f.datatype = PointField.FLOAT32) from hrgb)] at h
        have h := Except.ok.inj h
        subst h
        exact inv.push hc hlt hb rfl rfl

theorem scanFields_fieldmap {n : Nat} :
    ∀ (fs seen : List PointField) (s sc : FieldScan), FieldmapInv n seen s →
      (seen ++ fs).length ≤ n → propertyCount (seen ++ fs) < 2 ^ 31 →
      (∀ f ∈ fs, ¬ f.isRgbFloat) → scanFields fs seen.length s = .ok sc →
      FieldmapInv n (seen ++ fs) sc
  | [], seen, s, sc, inv, _, _, _, h => by
    simp only [scanFields, Except.ok.injEq] at h
    subst h
    simpa using inv
  | f :: fs, seen, s, sc, inv, hlen, hb, hrgb, h => by
    rw [scanFields] at h
    cases h1 : scanField s seen.length f with
    | error e => simp [h1] at h
    | ok s1 =>
      rw [h1] at h
      dsimp only at h
      have e : seen ++ f :: fs = (seen ++ [f]) ++ fs := by simp
      rw [e] at hlen hb ⊢
      have hb1 : propertyCount seen < 2 ^ 31 := by
        rw [propertyCount_append, propertyCount_append] at hb
        omega
      have inv1 := scanField_fieldmap inv
        (by simp only [List.length_append, List.length_singleton] at hlen; omega) hb1
        (hrgb f (List.mem_cons_self _ _)) h1
      have hl : (seen ++ [f]).length = seen.length + 1 := by simp
      rw [← hl] at h
      exact scanFields_fieldmap fs (seen ++ [f]) s1 sc inv1 hlen hb
        (fun g hg => hrgb g (List.mem_cons_of_mem _ hg)) h

theorem scan_fieldmap (pc : PointCloud2) (kpc : PointCloud3D) (sc : FieldScan)
    (hsum : (pc.fields.map fun g => g.count).sum < 2 ^ 31)
    (hrgb : ∀ f ∈ pc.fields, ¬ f.isRgbFloat)
    (h : scanFields pc.fields 0 (FieldScan.init pc kpc) = .ok sc) :
    FieldmapInv pc.fields.length pc.fields sc := by
  have := scanFields_fieldmap pc.fields [] (FieldScan.init pc kpc) sc (fieldmapInv_init pc kpc)
    (by simp) (by
      have := propertyCount_le_sum pc.fields
      simp only [List.nil_append]
      omega) hrgb h
  simpa using this

theorem propertyCount_snoc_lt (pre : List PointField) (f : PointField) (fs : List PointField)
    (hb : propertyCount (pre ++ f :: fs) < 2 ^ 31) :
    propertyCount pre + (if f.isCoordinate then 0 else f.count) < 2 ^ 31 := by
  rw [propertyCount_append] at hb
  have : propertyCount (f :: fs) =
      (if f.isCoordinate then 0 else f.count) + propertyCount fs := rfl
  omega

/-- The running offset `pofs` of the property loop is `fieldmap[k]` at every field that
the loop decodes: the loop is the one that unpacks field `k` to
`propertyTemp[fieldmap[k]]`. -/
theorem unpackProperties_eq_byFieldmap (host : Host) (pc : PointCloud2) (sc : FieldScan)
    (vofs : Int) (swap : Bool) (inv : FieldmapInv pc.fields.length pc.fields sc)
    (hb : propertyCount pc.fields < 2 ^ 31) :
    ∀ (fs pre : List PointField) (temp : List Real), pc.fields = pre ++ fs →
      unpackProperties host pc sc vofs swap fs pre.length (propertyCount pre) temp =
        unpackByFieldmap host pc sc vofs swap fs pre.length temp
  | [], _, _, _ => rfl
  | f :: fs, pre, temp, hf => by
    have hm := inv.map pre f fs hf
    have hlt := propertyCount_snoc_lt pre f fs (hf ▸ hb)
    have e : pre ++ f :: fs = (pre ++ [f]) ++ fs := by simp
    have hl : (pre ++ [f]).length = pre.length + 1 := by simp
    rw [unpackProperties, unpackByFieldmap, hm]
    by_cases hc : f.isCoordinate
    · rw [if_pos hc] at hm ⊢
      rw [if_pos (by omega), if_pos (by omega)]
      have := unpackProperties_eq_byFieldmap host pc sc vofs swap inv hb fs (pre ++ [f]) temp
        (by rw [hf, e])
      rw [hl, propertyCount_append, propertyCount_singleton, if_pos hc] at this
      exact this
    · rw [if_neg hc] at hm hlt ⊢
      rw [if_neg (by omega), if_neg (by omega)]
      cases hu : UNPACK host f pc.data vofs temp (propertyCount pre : Int) swap with
      | error e1 => rfl
      | ok t1 =>
        dsimp only
        have := unpackProperties_eq_byFieldmap host pc sc vofs swap inv hb fs (pre ++ [f]) t1
          (by rw [hf, e])
        rw [hl, propertyCount_append, propertyCount_singleton, if_neg hc] at this
        rw [toInt32_of_lt (by omega) (by exact_mod_cast hlt)]
        exact_mod_cast this

theorem store_get {out out1 : List Real} {s : Nat} {v : Real}
    (h : store out (s : Int) v = .ok out1) :
    out1[s]? = some v ∧ ∀ m, m ≠ s → out1[m]? = out[m]? := by
  unfold store at h
  split at h
  · rename_i hs
    have h := Except.ok.inj h
    subst h
    simp only [Int.toNat_ofNat] at hs ⊢
    refine ⟨by simp [List.getElem?_set, hs.2], ?_⟩
    intro m hm
    rw [List.getElem?_set_ne (fun e => hm e.symm)]
  · exact Except.noConfusion h

theorem UNPACK.loop_get (host : Host) (field : PointField) (data : List UInt8) (swap : Bool)
    (stride : Int) (s : Nat) :
    ∀ (n i : Nat) (p : Int) (out out1 : List Real),
      UNPACK.loop host field data swap stride (s : Int) n i p out = .ok out1 →
      (∀ m, m < s + i ∨ s + i + n ≤ m → out1[m]? = out[m]?) ∧
      (∀ j < n, ∀ v, UNPACK.value host field.datatype data (p + (j : Int) * stride) swap =
          .ok (some v) → out1[s + i + j]? = some v)
  | 0, i, p, out, out1, h => by
    simp only [UNPACK.loop, Except.ok.injEq] at h
    subst h
    exact ⟨fun _ _ => rfl, fun j hj => absurd hj (Nat.not_lt_zero j)⟩
  | n + 1, i, p, out, out1, h => by
    rw [UNPACK.loop] at h
    have hstep : ∀ j : Nat, p + stride + (j : Int) * stride = p + ((j + 1 : Nat) : Int) * stride := by
      intro j
      push_cast
      ring
    cases hv : UNPACK.value host field.datatype data p swap with
    | error e => simp [hv] at h
    | ok o =>
      rw [hv] at h
      cases o with
      | none =>
        dsimp only at h
        obtain ⟨h1, h2⟩ := UNPACK.loop_get host field data swap stride s n (i + 1) (p + stride)
          out out1 h
        refine ⟨fun m hm => h1 m (by omega), ?_⟩
        intro j hj v hjv
        cases j with
        | zero =>
          simp only [Nat.cast_zero, zero_mul, add_zero] at hjv
          rw [hv] at hjv
          cases hjv
        | succ j =>
          have := h2 j (by omega) v (by rw [hstep]; exact hjv)
          rw [show s + i + (j + 1) = s + (i + 1) + j by omega]
          exact this
      | some v0 =>
        dsimp only at h
        cases hs : store out ((s : Int) + (i : Int)) v0 with
        | error e => simp [hs] at h
        | ok out2 =>
          rw [hs] at h
          dsimp only at h
          have hs1 : store out ((s + i : Nat) : Int) v0 = .ok out2 := by
            rw [← hs]
            push_cast
            rfl
          obtain ⟨g1, g2⟩ := store_get hs1
          obtain ⟨h1, h2⟩ := UNPACK.loop_get host field data swap stride s n (i + 1)
            (p + stride) out2 out1 h
          refine ⟨fun m hm => by rw [h1 m (by omega), g2 m (by omega)], ?_⟩
          intro j hj v hjv
          cases j with
          | zero =>
            simp only [Nat.cast_zero, zero_mul, add_zero] at hjv
            rw [hv] at hjv
            have hvv : v0 = v := by
              simpa using hjv
            rw [Nat.add_zero, h1 (s + i) (by omega), g1, hvv]
          | succ j =>
            have := h2 j (by omega) v (by rw [hstep]; exact hjv)
            rw [show s + i + (j + 1) = s + (i + 1) + j by omega]
            exact this

theorem UNPACK_get {host : Host} {f : PointField} {data : List UInt8} {base : Int}
    {out out1 : List Real} {s : Nat} {swap : Bool}
    (h : UNPACK host f data base out (s : Int) swap = .ok out1) :
    (∀ m, m < s ∨ s + f.count ≤ m → out1[m]? = out[m]?) ∧
    (∀ j < f.count, ∀ v, UNPACK.value host f.datatype data
        (base + (f.offset : Int) + (j : Int) * fieldStride host f) swap = .ok (some v) →
      out1[s + j]? = some v) := by
  unfold UNPACK at h
  obtain ⟨h1, h2⟩ := UNPACK.loop_get host f data swap _ s f.count 0 _ out out1 h
  exact ⟨fun m hm => h1 m (by omega), fun j hj v hv => h2 j hj v hv⟩

theorem unpackProperties_get (host : Host) (pc : PointCloud2) (sc : FieldScan)
    (vofs : Int) (swap : Bool) (inv : FieldmapInv pc.fields.length pc.fields sc)
    (hb : propertyCount pc.fields < 2 ^ 31) :
    ∀ (fs pre : List PointField) (temp t2 : List Real), pc.fields = pre ++ fs →
      unpackProperties host pc sc vofs swap fs pre.length (propertyCount pre) temp = .ok t2 →
      (∀ m < propertyCount pre, t2[m]? = temp[m]?) ∧
      (∀ pre2 f post, fs = pre2 ++ f :: post → ¬ f.isCoordinate →
        ∀ (j : Nat), j < f.count → ∀ (v : Real),
        UNPACK.value host f.datatype pc.data
          (vofs + (f.offset : Int) + (j : Int) * fieldStride host f) swap = .ok (some v) →
        t2[propertyCount (pre ++ pre2) + j]? = some v)
  | [], pre, temp, t2, _, h => by
    simp only [unpackProperties, Except.ok.injEq] at h
    subst h
    refine ⟨fun _ _ => rfl, ?_⟩
    intro pre2 f post hf
    simp at hf
  | f0 :: fs, pre, temp, t2, hf, h => by
    have hm := inv.map pre f0 fs hf
    have hlt := propertyCount_snoc_lt pre f0 fs (hf ▸ hb)
    have e : pre ++ f0 :: fs = (pre ++ [f0]) ++ fs := by simp
    have hl : (pre ++ [f0]).length = pre.length + 1 := by simp
    rw [unpackProperties, hm] at h
    by_cases hc : f0.isCoordinate
    · rw [if_pos hc] at hm h
      rw [if_pos (by omega)] at h
      have hpc : propertyCount (pre ++ [f0]) = propertyCount pre := by
        rw [propertyCount_append, propertyCount_singleton, if_pos hc]
        rfl
      rw [← hl, ← hpc] at h
      obtain ⟨h1, h2⟩ := unpackProperties_get host pc sc vofs swap inv hb fs (pre ++ [f0])
        temp t2 (by rw [hf, e]) h
      refine ⟨fun m hm1 => h1 m (by rw [hpc]; exact hm1), ?_⟩
      intro pre2 f post hsplit hnc j hj v hv
      cases pre2 with
      | nil =>
        simp only [List.nil_append, List.cons.injEq] at hsplit
        rw [← hsplit.1] at hnc
        exact absurd hc hnc
      | cons g pre3 =>
        simp only [List.cons_append, List.cons.injEq] at hsplit
        obtain ⟨rfl, hrest⟩ := hsplit
        have := h2 pre3 f post hrest hnc j hj v hv
        rw [show pre ++ f0 :: pre3 = (pre ++ [f0]) ++ pre3 by simp]
        exact this
    · rw [if_neg hc] at hm h hlt
      rw [if_neg (by omega)] at h
      have hpc : propertyCount (pre ++ [f0]) = propertyCount pre + f0.count := by
        rw [propertyCount_append, propertyCount_singleton, if_neg hc]
      cases hu : UNPACK host f0 pc.data vofs temp (propertyCount pre : Int) swap with
      | error e1 => simp [hu] at h
      | ok t1 =>
        rw [hu] at h
        dsimp only at h
        rw [toInt32_of_lt (by omega) (by exact_mod_cast hlt)] at h
        have h0 : unpackProperties host pc sc vofs swap fs (pre ++ [f0]).length
            (propertyCount (pre ++ [f0])) t1 = .ok t2 := by
          rw [hl, hpc]
          exact_mod_cast h
        obtain ⟨h1, h2⟩ := unpackProperties_get host pc sc vofs swap inv hb fs (pre ++ [f0])
          t1 t2 (by rw [hf, e]) h0
        obtain ⟨u1, u2⟩ := UNPACK_get hu
        refine ⟨fun m hm1 => by rw [h1 m (by omega), u1 m (Or.inl hm1)], ?_⟩
        intro pre2 f post hsplit hnc j hj v hv
        cases pre2 with
        | nil =>
          simp only [List.nil_append, List.cons.injEq] at hsplit
          obtain ⟨rfl, _⟩ := hsplit
          rw [List.append_nil, h1 _ (by omega)]
          exact u2 j hj v hv
        | cons g pre3 =>
          simp only [List.cons_append, List.cons.injEq] at hsplit
          obtain ⟨rfl, hrest⟩ := hsplit
          have := h2 pre3 f post hrest hnc j hj v hv
          rw [show pre ++ f0 :: pre3 = (pre ++ [f0]) ++ pre3 by simp]
          exact this

theorem decodeRecord_cases {host : Host} {pc : PointCloud2} {sc : FieldScan} {swap : Bool}
    {vofs : Int} {st st1 : DecodeState}
    (h : decodeRecord host pc sc swap vofs st = .ok st1) :
    (st1.points = st.points ∧ st1.properties = st.properties) ∨
    ∃ pt t1 t2, unpackProperties host pc sc vofs swap pc.fields 0 0 t1 = .ok t2 ∧
      st1.points = st.points ++ [pt] ∧ st1.properties = st.properties ++ [t2] := by
  unfold decodeRecord at h
  cases hx : unpackCoordinate host pc sc.xfield vofs st.pt.x swap with
  | error e => simp [hx] at h
  | ok x =>
  cases hy : unpackCoordinate host pc sc.yfield vofs st.pt.y swap with
  | error e => simp [hx, hy] at h
  | ok y =>
  cases hz : unpackCoordinate host pc sc.zfield vofs st.pt.z swap with
  | error e => simp [hx, hy, hz] at h
  | ok z =>
  simp only [hx, hy, hz] at h
  by_cases hf : (IsFinite x && IsFinite y && IsFinite z) = true
  · simp only [hf, if_true] at h
    cases h1 : unpackRgb host pc sc vofs st.propertyTemp swap with
    | error e => simp [h1] at h
    | ok t1 =>
    simp only [h1] at h
    cases h2 : unpackProperties host pc sc vofs swap pc.fields 0 0 t1 with
    | error e => simp [h2] at h
    | ok t2 =>
    simp only [h2] at h
    have h := Except.ok.inj h
    subst h
    exact Or.inr ⟨⟨x, y, z⟩, t1, t2, h2, rfl, rfl⟩
  · simp only [hf] at h
    have h := Except.ok.inj h
    subst h
    exact Or.inl ⟨rfl, rfl⟩

theorem holdsRecord_of_unpack (host : Host) (pc : PointCloud2) (sc : FieldScan)
    (inv : FieldmapInv pc.fields.length pc.fields sc) (hb : propertyCount pc.fields < 2 ^ 31)
    (start : Nat) (t1 t2 : List Real)
    (h : unpackProperties host pc sc (start : Int) (host.bigEndian != pc.is_bigendian)
      pc.fields 0 0 t1 = .ok t2) :
    HoldsRecord host pc start t2 := by
  obtain ⟨_, h2⟩ := unpackProperties_get host pc sc (start : Int)
    (host.bigEndian != pc.is_bigendian) inv hb pc.fields [] t1 t2 rfl h
  intro k f j v hk hnc hj hv
  obtain ⟨hlt, hget⟩ := List.getElem?_eq_some_iff.mp hk
  have hsplit : pc.fields = pc.fields.take k ++ f :: pc.fields.drop (k + 1) := by
    rw [← hget, ← List.drop_eq_getElem_cons hlt, List.take_append_drop]
  have := h2 (pc.fields.take k) f (pc.fields.drop (k + 1)) hsplit hnc j hj v hv
  rw [List.nil_append] at this
  exact this

theorem decodeRecord_parallel {host : Host} {pc : PointCloud2} {sc : FieldScan}
    (sinv : ScanInv pc.fields sc) (inv : FieldmapInv pc.fields.length pc.fields sc)
    (hb : propertyCount pc.fields < 2 ^ 31) {start : Nat} (hs : start ∈ recordStarts pc)
    {st st1 : DecodeState} (hp : PropertiesParallel host pc st.points st.properties)
    (h : decodeRecord host pc sc (host.bigEndian != pc.is_bigendian) (start : Int) st =
      .ok st1) :
    PropertiesParallel host pc st1.points st1.properties := by
  rcases decodeRecord_cases h with ⟨e1, e2⟩ | ⟨pt, t1, t2, hu, e1, e2⟩
  · rw [e1, e2]
    exact hp
  · rw [e1, e2]
    refine ⟨by simp [hp.1], ?_⟩
    intro e he
    rw [List.zip_append hp.1] at he
    rcases List.mem_append.mp he with he | he
    · exact hp.2 e he
    · simp only [List.zip_cons_cons, List.zip_nil_right, List.mem_singleton] at he
      subst he
      refine ⟨start, hs, ?_, holdsRecord_of_unpack host pc sc inv hb start t1 t2 hu⟩
      intro hco
      have hpts := (decodeRecord_points sinv hco h).1
      rw [e1] at hpts
      have := List.append_cancel_left hpts
      cases hk : keptPoint host pc start with
      | none =>
        rw [hk] at this
        cases this
      | some w =>
        rw [hk] at this
        simp only [Option.toList_some, List.cons.injEq, and_true] at this
        rw [this]

theorem decodeRow_preserves {host : Host} {pc : PointCloud2} {sc : FieldScan} {swap : Bool}
    (P : DecodeState → Prop) (ofs : Nat)
    (hstep : ∀ c < pc.width, ∀ st st1, P st →
      decodeRecord host pc sc swap ((ofs + c * pc.point_step : Nat) : Int) st = .ok st1 → P st1)
    (hrange : ofs + pc.width * pc.point_step < 2 ^ 31) :
    ∀ (n j : Nat) (st st1 : DecodeState), j + n = pc.width → P st →
      decodeRow host pc sc swap n ((ofs + j * pc.point_step : Nat) : Int) st = .ok st1 → P st1
  | 0, _, st, st1, _, hp, h => by
    simp only [decodeRow, Except.ok.injEq] at h
    subst h
    exact hp
  | n + 1, j, st, st1, hj, hp, h => by
    rw [decodeRow] at h
    cases h1 : decodeRecord host pc sc swap ((ofs + j * pc.point_step : Nat) : Int) st with
    | error e =>
      rw [h1] at h
      exact Except.noConfusion h
    | ok st2 =>
      rw [h1] at h
      dsimp only at h
      have hle : (j + 1) * pc.point_step ≤ pc.width * pc.point_step :=
        Nat.mul_le_mul_right _ (by omega)
      have hnext : toInt32 (((ofs + j * pc.point_step : Nat) : Int) + (pc.point_step : Int))
          = ((ofs + (j + 1) * pc.point_step : Nat) : Int) := by
        have e : ((ofs + j * pc.point_step : Nat) : Int) + (pc.point_step : Int)
            = ((ofs + (j + 1) * pc.point_step : Nat) : Int) := by
          push_cast; ring
        rw [e]
        apply toInt32_of_lt (by omega)
        have : ofs + (j + 1) * pc.point_step < 2 ^ 31 := by omega
        exact_mod_cast this
      rw [hnext] at h
      exact decodeRow_preserves P ofs hstep hrange n (j + 1) st2 st1 (by omega)
        (hstep j (by omega) st st2 hp h1) h

theorem decodeRows_preserves {host : Host} {pc : PointCloud2} {sc : FieldScan} {swap : Bool}
    (P : DecodeState → Prop)
    (hstep : ∀ r < pc.height, ∀ c < pc.width, ∀ st st1, P st →
      decodeRecord host pc sc swap ((recordStart pc r c : Nat) : Int) st = .ok st1 → P st1)
    (hrange : pc.height * pc.row_step + pc.width * pc.point_step < 2 ^ 31) :
    ∀ (n r : Nat) (st st1 : DecodeState), r + n = pc.height → P st →
      decodeRows host pc sc swap n ((r * pc.row_step : Nat) : Int) st = .ok st1 → P st1
  | 0, _, st, st1, _, hp, h => by
    simp only [decodeRows, Except.ok.injEq] at h
    subst h
    exact hp
  | n + 1, r, st, st1, hr, hp, h => by
    rw [decodeRows] at h
    cases h1 : decodeRow host pc sc swap pc.width ((r * pc.row_step : Nat) : Int) st with
    | error e =>
      rw [h1] at h
      exact Except.noConfusion h
    | ok st2 =>
      rw [h1] at h
      dsimp only at h
      have hle : (r + 1) * pc.row_step ≤ pc.height * pc.row_step :=
        Nat.mul_le_mul_right _ (by omega)
      have hle0 : r * pc.row_step ≤ (r + 1) * pc.row_step :=
        Nat.mul_le_mul_right _ (by omega)
      have hnext : toInt32 (((r * pc.row_step : Nat) : Int) + (pc.row_step : Int))
          = (((r + 1) * pc.row_step : Nat) : Int) := by
        have e : ((r * pc.row_step : Nat) : Int) + (pc.row_step : Int)
            = (((r + 1) * pc.row_step : Nat) : Int) := by
          push_cast; ring
        rw [e]
        apply toInt32_of_lt (by omega)
        have : (r + 1) * pc.row_step < 2 ^ 31 := by omega
        exact_mod_cast this
      rw [hnext] at h
      have h0 : decodeRow host pc sc swap pc.width
          ((r * pc.row_step + 0 * pc.point_step : Nat) : Int) st = .ok st2 := by
        simpa using h1
      have hp2 := decodeRow_preserves P (r * pc.row_step)
        (fun c hc st st1 hp hd => hstep r (by omega) c hc st st1 hp hd) (by omega)
        pc.width 0 st st2 (by omega) hp h0
      exact decodeRows_preserves P hstep hrange n (r + 1) st2 st1 (by omega) hp2 h

/-- Claim C25: for a message without a `FLOAT32` field named `rgb` or `rgba` that passes
the assertions, whose sizes are in `int` range and whose buffer holds every record, the
decoder returns, and in it the running offset `pofs` is `fieldmap[k]` at every field `k`
that the property loop decodes: the loop is the one that unpacks field `k` to
`propertyTemp[fieldmap[k]]`. For a field `k` that is no coordinate, `fieldmap[k]` is the
index of the first property name that the field contributes, and its `j`-th name stands
at `fieldmap[k] + j`. Every kept point stands beside a property vector that holds, at
`fieldmap[k] + j`, the `j`-th element decoded from field `k` of the record of that
point. -/
theorem ROSToKlampt_properties_parallel (host : Host) (pc : PointCloud2) (kpc0 : PointCloud3D)
    (hrgb : ∀ f ∈ pc.fields, ¬ f.isRgbFloat) (ha : PassesAsserts pc) (hr : InIntRange pc)
    (hin : RecordsInside host pc) :
    ∃ sc kpc, scanFields pc.fields 0 (FieldScan.init pc kpc0) = .ok sc ∧
      ROSToKlampt host pc kpc0 = .ok (true, kpc) ∧
      (∀ vofs swap temp, unpackProperties host pc sc vofs swap pc.fields 0 0 temp =
        unpackByFieldmap host pc sc vofs swap pc.fields 0 temp) ∧
      (∀ (k : Nat) (f : PointField), pc.fields[k]? = some f → ¬ f.isCoordinate →
        sc.fieldmap.getD k (-1) = (propertyStart pc.fields k : Int) ∧
        ∀ (j : Nat), j < f.count →
          kpc.propertyNames[propertyStart pc.fields k + j]? = (expandedNames f)[j]?) ∧
      PropertiesParallel host pc kpc.points kpc.properties := by
  obtain ⟨hlen, hsum, hrange⟩ := hr
  obtain ⟨sc, hsc, sinv⟩ := scan_ok pc kpc0 ha.1 hlen hsum
  have inv := scan_fieldmap pc kpc0 sc hsum hrgb hsc
  have hb : propertyCount pc.fields < 2 ^ 31 :=
    lt_of_le_of_lt (propertyCount_le_sum pc.fields) hsum
  have hs0 : DecodeState.Sized sc.propertyNames.length
      { pt := ⟨⟨0⟩, ⟨0⟩, ⟨0⟩⟩
        propertyTemp := (List.range sc.propertyNames.length).map host.fresh
        points := kpc0.points.take 0, properties := kpc0.properties.take 0 } :=
    ⟨by simp, by simp, by simp⟩
  obtain ⟨st, hst, _, _⟩ := decodeRows_spec host sinv hsum
    (fun r hr c hc f hf => hin _ (mem_recordStarts hr hc) f hf) hrange pc.height 0 _
    (by omega) hs0
  have hpar := decodeRows_preserves
    (fun st => PropertiesParallel host pc st.points st.properties)
    (fun r hr c hc st st1 hp hd =>
      decodeRecord_parallel sinv inv hb (mem_recordStarts hr hc) hp hd)
    hrange pc.height 0 _ st (by omega) ⟨by simp, by simp⟩ hst
  simp only [Nat.zero_mul, Nat.cast_zero] at hst
  refine ⟨sc, ⟨st.points, sc.propertyNames, st.properties⟩, hsc, ?_, ?_, ?_, hpar⟩
  · unfold ROSToKlampt
    simp only [hsc, ha.2, if_true, hst]
  · intro vofs swap temp
    exact unpackProperties_eq_byFieldmap host pc sc vofs swap inv hb pc.fields [] temp rfl
  · intro k f hk hnc
    obtain ⟨hlt, hget⟩ := List.getElem?_eq_some_iff.mp hk
    have hsplit : pc.fields = pc.fields.take k ++ f :: pc.fields.drop (k + 1) := by
      rw [← hget, ← List.drop_eq_getElem_cons hlt, List.take_append_drop]
    have hl : (pc.fields.take k).length = k := by
      rw [List.length_take]
      omega
    have hm := inv.map _ f _ hsplit
    rw [hl, if_neg hnc] at hm
    exact ⟨hm, fun j hj => inv.names _ f _ hsplit hnc j hj⟩

/-- Witness for claim C25: the message `xyzWithIntensity`, in which the field `i` stands
between the coordinate fields; the kept point `(1, 2, 3)` stands beside the elements 7
and 9 of `i`, under the names that `i` contributes. -/
theorem ROSToKlampt_properties_parallel_witness :
    (∃ sc kpc, scanFields xyzWithIntensity.fields 0
        (FieldScan.init xyzWithIntensity emptyCloud) = .ok sc ∧
      ROSToKlampt littleEndianHost xyzWithIntensity emptyCloud = .ok (true, kpc) ∧
      (∀ vofs swap temp,
        unpackProperties littleEndianHost xyzWithIntensity sc vofs swap
          xyzWithIntensity.fields 0 0 temp =
        unpackByFieldmap littleEndianHost xyzWithIntensity sc vofs swap
          xyzWithIntensity.fields 0 temp) ∧
      (∀ (k : Nat) (f : PointField), xyzWithIntensity.fields[k]? = some f →
        ¬ f.isCoordinate →
        sc.fieldmap.getD k (-1) = (propertyStart xyzWithIntensity.fields k : Int) ∧
        ∀ (j : Nat), j < f.count →
          kpc.propertyNames[propertyStart xyzWithIntensity.fields k + j]? =
            (expandedNames f)[j]?) ∧
      PropertiesParallel littleEndianHost xyzWithIntensity kpc.points kpc.properties) ∧
    ROSToKlampt littleEndianHost xyzWithIntensity emptyCloud =
      .ok (true, { points := [point123], propertyNames := ["i0", "i1"],
                   properties := [[Real.ofInt 7, Real.ofInt 9]] }) :=
  ⟨ROSToKlampt_properties_parallel littleEndianHost xyzWithIntensity emptyCloud (by decide)
      (by decide) (by decide) (by decide), by decide⟩

end Klampt
